import Mathlib

/-!
Verification of the rhino-mcp Grasshopper bridge (GHCodeMCP_new.py and
GHCodeMCP_old_working.py): a shallow embedding of the graph-snapshot
builder, the execution-order sorter, the context expansion, the script
update transactions and the socket-server command loop, together with
proofs of the spec's claims about them.

Keys (Grasshopper instance GUIDs, serialized as strings in the source)
are modelled by an arbitrary type with decidable equality; concrete
counterexamples use natural numbers.
-/

namespace RhinoMCP

set_option linter.unusedSectionVars false
set_option linter.unusedVariables false

variable {α : Type} [DecidableEq α] {β : Type}

/-! ## Association lists

Python dictionaries keyed by GUID strings are modelled as association
lists in insertion order (CPython dicts preserve insertion order, which
the sorter relies on). -/

/-- Lookup in an association list (Python `d[k]` / `d.get(k)`). -/
def alookup (k : α) : List (α × β) → Option β
  | [] => none
  | (a, b) :: l => if a = k then some b else alookup k l

/-- Keys of an association list, in order (Python `d.keys()`). -/
def keysOf (g : List (α × β)) : List α := g.map Prod.fst

/-- Python `d[k] = v` for a key already present: replace the stored
value in place, keeping the original position.  (Keys not present are
untouched; callers that can insert fresh keys use `dictSet`.) -/
def dictUpd (m : List (α × β)) (k : α) (v : β) : List (α × β) :=
  m.map fun p => if p.1 = k then (k, v) else p

/-- Python `d[k] = v`: overwrite if the key is present (keeping its
position), append otherwise. -/
def dictSet (m : List (α × β)) (k : α) (v : β) : List (α × β) :=
  if (alookup k m).isSome then dictUpd m k v else m ++ [(k, v)]

@[simp] theorem alookup_nil (k : α) : alookup k ([] : List (α × β)) = none := rfl

@[simp] theorem alookup_cons (k : α) (a : α) (b : β) (l : List (α × β)) :
    alookup k ((a, b) :: l) = if a = k then some b else alookup k l := rfl

theorem alookup_isSome_iff_mem {k : α} {g : List (α × β)} :
    (alookup k g).isSome ↔ k ∈ keysOf g := by
  induction g with
  | nil => simp [keysOf]
  | cons p l ih =>
    obtain ⟨a, b⟩ := p
    simp only [keysOf, List.map_cons, List.mem_cons, alookup_cons]
    simp only [keysOf] at ih
    by_cases h : a = k
    · subst h; simp
    · rw [if_neg h, ih]
      constructor
      · exact Or.inr
      · rintro (rfl | hm)
        · exact absurd rfl h
        · exact hm

theorem mem_keysOf_of_alookup_eq_some {k : α} {g : List (α × β)} {v : β}
    (h : alookup k g = some v) : k ∈ keysOf g := by
  rw [← alookup_isSome_iff_mem, h]; rfl

theorem alookup_eq_none_of_not_mem {k : α} {g : List (α × β)}
    (h : k ∉ keysOf g) : alookup k g = none := by
  cases hh : alookup k g with
  | none => rfl
  | some v => exact absurd (mem_keysOf_of_alookup_eq_some hh) h

theorem alookup_eq_some_of_mem {k : α} {v : β} {g : List (α × β)}
    (hnd : (keysOf g).Nodup) (h : (k, v) ∈ g) : alookup k g = some v := by
  induction g with
  | nil => simp at h
  | cons p l ih =>
    obtain ⟨a, b⟩ := p
    simp only [keysOf, List.map_cons, List.nodup_cons] at hnd
    rcases List.mem_cons.mp h with he | hm
    · rw [Prod.ext_iff] at he
      obtain ⟨h1, h2⟩ := he
      subst h1; subst h2
      simp
    · have hk : k ∈ keysOf l := List.mem_map_of_mem Prod.fst hm
      have hak : a ≠ k := fun heq => hnd.1 (heq ▸ hk)
      simp only [alookup_cons, if_neg hak]
      exact ih hnd.2 hm

theorem alookup_mem {k : α} {v : β} {g : List (α × β)}
    (h : alookup k g = some v) : (k, v) ∈ g := by
  induction g with
  | nil => simp at h
  | cons p l ih =>
    obtain ⟨a, b⟩ := p
    by_cases hak : a = k
    · subst hak; simp at h; simp [h]
    · simp [alookup, hak] at h
      exact List.mem_cons_of_mem _ (ih h)

/-! ## Ordering within a list -/

/-- `Precedes l a b`: some occurrence of `a` lies strictly before some
occurrence of `b` in `l`. -/
def Precedes (l : List α) (a b : α) : Prop :=
  ∃ l₁ l₂, l = l₁ ++ b :: l₂ ∧ a ∈ l₁

theorem Precedes.append_right {l l' : List α} {a b : α}
    (h : Precedes l a b) : Precedes (l ++ l') a b := by
  obtain ⟨l₁, l₂, rfl, ha⟩ := h
  exact ⟨l₁, l₂ ++ l', by simp, ha⟩

theorem precedes_append_singleton {l : List α} {a b : α} (ha : a ∈ l) :
    Precedes (l ++ [b]) a b :=
  ⟨l, [], rfl, ha⟩

theorem not_precedes_head {l : List α} {a b : α} (hb : b ∉ l) :
    ¬ Precedes (b :: l) a b := by
  rintro ⟨l₁, l₂, heq, ha⟩
  cases l₁ with
  | nil => simp at ha
  | cons x l₁ =>
    simp only [List.cons_append, List.cons.injEq] at heq
    exact hb (heq.2 ▸ List.mem_append_right l₁ (List.mem_cons_self b l₂))

/-! ## Execution-order sorter

Embedding of `sort_graph_by_execution_order`
(GHCodeMCP_old_working.py, lines 254-305).  A snapshot is an ordered
map from instance id to a node descriptor; the descriptor's `targets`
list drives the sort, the rest of the descriptor is kept opaque. -/

/-- A snapshot entry: outgoing edges plus the remaining (opaque)
serialized descriptor content. -/
structure SnapNode (α : Type) where
  targets : List α
  content : String
deriving DecidableEq, Repr

/-- The `targets` list of a snapshot key (`graph[current_id]["targets"]`;
empty for keys outside the snapshot, which the source never queries). -/
def nodeTargets (g : List (α × SnapNode α)) (k : α) : List α :=
  match alookup k g with
  | some nd => nd.targets
  | none => []

/-- One decrement of the in-degree table at target `t`, enqueueing `t`
when its count reaches exactly zero (loop body of lines 288-293). -/
def stepT (st : List (α × Int) × List α) (t : α) : List (α × Int) × List α :=
  match alookup t st.1 with
  | none => st
  | some d =>
      (dictUpd st.1 t (d - 1), if d - 1 = 0 then st.2 ++ [t] else st.2)

/-- Process the popped node's whole target list (lines 287-293). -/
def procT (m : List (α × Int)) (q : List α) (ts : List α) :
    List (α × Int) × List α :=
  ts.foldl stepT (m, q)

/-- One increment pass over a node's targets during in-degree
initialization (lines 268-272). -/
def incTargets (m : List (α × Int)) (ts : List α) : List (α × Int) :=
  ts.foldl
    (fun m t =>
      match alookup t m with
      | none => m
      | some d => dictUpd m t (d + 1)) m

/-- The initial in-degree table (lines 264-272): every key starts at 0,
then every in-snapshot edge occurrence adds 1 to its target. -/
def initDeg (g : List (α × SnapNode α)) : List (α × Int) :=
  g.foldl (fun m p => incTargets m p.2.targets)
    (g.map fun p => (p.1, (0 : Int)))

/-- Kahn queue loop (lines 281-293), fuel-indexed.  Each iteration pops
one queue element; `kahnFuel` below strictly exceeds the number of
possible enqueues (initial seeds plus one per edge occurrence), so the
fuel-exhausted branch is unreachable. -/
def kahnLoop (g : List (α × SnapNode α)) :
    Nat → List (α × Int) → List α → List α → List α
  | 0, _, _, done => done
  | _ + 1, _, [], done => done
  | fuel + 1, m, qh :: rest, done =>
      let st := procT m rest (nodeTargets g qh)
      kahnLoop g fuel st.1 st.2 (done ++ [qh])

/-- Fuel bound: snapshot size plus total edge-occurrence count plus one. -/
def kahnFuel (g : List (α × SnapNode α)) : Nat :=
  g.length + g.foldl (fun n p => n + p.2.targets.length) 0 + 1

/-- The initial queue: keys whose in-degree starts at zero, in table
(= snapshot) order (line 275). -/
def kahnSeeds (g : List (α × SnapNode α)) : List α :=
  ((initDeg g).filter fun p => p.2 = 0).map Prod.fst

/-- The Kahn-visited keys, in pop order (the `sorted_order` list right
before the leftover nodes are appended, lines 274-293). -/
def kahnOrder (g : List (α × SnapNode α)) : List α :=
  kahnLoop g (kahnFuel g) (initDeg g) (kahnSeeds g) []

/-- `sort_graph_by_execution_order` (lines 254-305): Kahn order, then
all remaining keys in original encounter order, then the snapshot
rebuilt in that key order. -/
def sortGraphByExecutionOrder (g : List (α × SnapNode α)) :
    List (α × SnapNode α) :=
  let kahn := kahnOrder g
  let order := kahn ++ (keysOf g).filter fun k => ¬ k ∈ kahn
  order.filterMap fun k => (alookup k g).map fun nd => (k, nd)

/-! ### Sorter: counting infrastructure -/

/-- Number of edge occurrences `n → k`, as an integer. -/
def occ (g : List (α × SnapNode α)) (n k : α) : Int :=
  ((nodeTargets g n).count k : Int)

/-- Total in-snapshot in-degree of `k`: what lines 264-272 compute. -/
def totalIn (g : List (α × SnapNode α)) (k : α) : Int :=
  (g.map fun p => (p.2.targets.count k : Int)).sum

/-- Edge occurrences into `k` whose source node lies in `done`. -/
def sumOcc (g : List (α × SnapNode α)) (done : List α) (k : α) : Int :=
  (done.map fun n => occ g n k).sum

theorem occ_nonneg (g : List (α × SnapNode α)) (n k : α) : 0 ≤ occ g n k := by
  unfold occ
  exact_mod_cast Nat.zero_le _

@[simp] theorem sumOcc_nil (g : List (α × SnapNode α)) (k : α) :
    sumOcc g [] k = 0 := rfl

theorem sumOcc_append (g : List (α × SnapNode α)) (l l' : List α) (k : α) :
    sumOcc g (l ++ l') k = sumOcc g l k + sumOcc g l' k := by
  simp [sumOcc]

theorem keysOf_dictUpd (m : List (α × β)) (k : α) (v : β) :
    keysOf (dictUpd m k v) = keysOf m := by
  induction m with
  | nil => rfl
  | cons p l ih =>
    obtain ⟨a, b⟩ := p
    by_cases h : a = k <;> simp [dictUpd, keysOf, h] at ih ⊢ <;> exact ih

theorem dictUpd_cons (a : α) (b : β) (l : List (α × β)) (k : α) (v : β) :
    dictUpd ((a, b) :: l) k v =
      (if a = k then (k, v) else (a, b)) :: dictUpd l k v := by
  by_cases h : a = k <;> simp [dictUpd, h]

theorem alookup_dictUpd_self (m : List (α × β)) (k : α) (v : β) :
    alookup k (dictUpd m k v) = (alookup k m).map fun _ => v := by
  induction m with
  | nil => rfl
  | cons p l ih =>
    obtain ⟨a, b⟩ := p
    rw [dictUpd_cons]
    by_cases h : a = k
    · subst h; rw [if_pos rfl]; simp
    · rw [if_neg h]; simp [alookup, h, ih]

theorem alookup_dictUpd_ne (m : List (α × β)) {k t : α} (v : β) (h : k ≠ t) :
    alookup t (dictUpd m k v) = alookup t m := by
  induction m with
  | nil => rfl
  | cons p l ih =>
    obtain ⟨a, b⟩ := p
    rw [dictUpd_cons]
    by_cases hak : a = k
    · subst hak
      rw [if_pos rfl]
      simp [alookup, h, ih]
    · rw [if_neg hak]
      by_cases hat : a = t <;> simp [alookup, hak, hat, ih]

theorem alookup_incTargets (ts : List α) (m : List (α × Int)) (k : α) :
    alookup k (incTargets m ts) =
      (alookup k m).map fun d => d + (ts.count k : Int) := by
  induction ts generalizing m with
  | nil => cases h : alookup k m <;> simp [incTargets, h]
  | cons t ts ih =>
    have hstep : incTargets m (t :: ts) =
        incTargets (match alookup t m with
          | none => m
          | some d => dictUpd m t (d + 1)) ts := rfl
    rw [hstep]
    cases hm : alookup t m with
    | none =>
      rw [ih]
      by_cases hkt : k = t
      · subst hkt; rw [hm]; simp
      · rw [List.count_cons_of_ne hkt]
    | some d =>
      rw [ih]
      by_cases hkt : k = t
      · subst hkt
        rw [alookup_dictUpd_self, hm, List.count_cons_self]
        simp only [Option.map_some']
        congr 1
        push_cast
        ring
      · rw [alookup_dictUpd_ne _ _ (fun he => hkt he.symm), List.count_cons_of_ne hkt]

theorem keysOf_incTargets (ts : List α) (m : List (α × Int)) :
    keysOf (incTargets m ts) = keysOf m := by
  induction ts generalizing m with
  | nil => rfl
  | cons t ts ih =>
    have hstep : incTargets m (t :: ts) =
        incTargets (match alookup t m with
          | none => m
          | some d => dictUpd m t (d + 1)) ts := rfl
    rw [hstep]
    cases alookup t m with
    | none => exact ih m
    | some d => rw [ih, keysOf_dictUpd]

theorem keysOf_initDeg (g : List (α × SnapNode α)) :
    keysOf (initDeg g) = keysOf g := by
  unfold initDeg
  suffices h : ∀ m : List (α × Int),
      keysOf (g.foldl (fun m p => incTargets m p.2.targets) m) = keysOf m by
    rw [h]
    simp [keysOf, List.map_map]
  intro m
  induction g generalizing m with
  | nil => rfl
  | cons p l ih => rw [List.foldl_cons, ih, keysOf_incTargets]

theorem alookup_initDeg (g : List (α × SnapNode α)) (k : α) :
    alookup k (initDeg g) = (alookup k g).map fun _ => totalIn g k := by
  unfold initDeg totalIn
  suffices h : ∀ (gs : List (α × SnapNode α)) (m : List (α × Int)),
      alookup k (gs.foldl (fun m p => incTargets m p.2.targets) m) =
        (alookup k m).map fun d =>
          d + (gs.map fun p => (p.2.targets.count k : Int)).sum by
    rw [h]
    have hbase : alookup k (g.map fun p => (p.1, (0 : Int))) =
        (alookup k g).map fun _ => (0 : Int) := by
      induction g with
      | nil => rfl
      | cons p l ih =>
        obtain ⟨a, nd⟩ := p
        by_cases hak : a = k <;> simp [alookup, hak, ih]
    rw [hbase]
    cases alookup k g <;> simp
  intro gs
  induction gs with
  | nil => intro m; cases h : alookup k m <;> simp [h]
  | cons p l ih =>
    intro m
    rw [List.foldl_cons, ih, alookup_incTargets]
    cases h : alookup k m <;> simp [h, add_assoc]

/-! ### Sorter: sum bounds -/

theorem sum_le_of_sublist {l l' : List Int} (h : List.Sublist l l')
    (h0 : ∀ x ∈ l', 0 ≤ x) : l.sum ≤ l'.sum := by
  induction h with
  | slnil => simp
  | cons a h ih =>
    have := ih fun x hx => h0 x (List.mem_cons_of_mem a hx)
    have ha : 0 ≤ a := h0 a (List.mem_cons_self a _)
    simp only [List.sum_cons]
    omega
  | cons₂ a h ih =>
    have := ih fun x hx => h0 x (List.mem_cons_of_mem a hx)
    simp only [List.sum_cons]
    omega

theorem le_sum_of_mem {l : List Int} {x : Int} (hx : x ∈ l)
    (h0 : ∀ y ∈ l, 0 ≤ y) : x ≤ l.sum := by
  induction l with
  | nil => simp at hx
  | cons a l ih =>
    rcases List.mem_cons.mp hx with rfl | hm
    · have : 0 ≤ l.sum := List.sum_nonneg fun y hy => h0 y (List.mem_cons_of_mem x hy)
      simp only [List.sum_cons]
      omega
    · have ha : 0 ≤ a := h0 a (List.mem_cons_self a l)
      have := ih hm fun y hy => h0 y (List.mem_cons_of_mem a hy)
      simp only [List.sum_cons]
      omega

theorem totalIn_eq_sum_keys (g : List (α × SnapNode α))
    (hnd : (keysOf g).Nodup) (k : α) :
    totalIn g k = ((keysOf g).map fun n => occ g n k).sum := by
  induction g with
  | nil => rfl
  | cons p l ih =>
    obtain ⟨a, nd⟩ := p
    simp only [keysOf, List.map_cons, List.nodup_cons] at hnd
    have hhead : occ ((a, nd) :: l) a k = (nd.targets.count k : Int) := by
      simp [occ, nodeTargets, alookup]
    have htail : ((List.map Prod.fst l).map fun n => occ ((a, nd) :: l) n k) =
        (List.map Prod.fst l).map fun n => occ l n k := by
      apply List.map_congr_left
      intro n hn
      have hna : ¬ a = n := fun he => hnd.1 (he ▸ hn)
      simp [occ, nodeTargets, alookup, hna]
    simp only [totalIn, keysOf, List.map_cons, List.sum_cons] at ih ⊢
    rw [hhead, htail, ih hnd.2]

theorem sumOcc_le_totalIn (g : List (α × SnapNode α))
    (hnd : (keysOf g).Nodup) {l : List α} (hl : l.Nodup)
    (hsub : ∀ x ∈ l, x ∈ keysOf g) (k : α) :
    sumOcc g l k ≤ totalIn g k := by
  rw [totalIn_eq_sum_keys g hnd]
  obtain ⟨u, hperm, hsl⟩ := hl.subperm hsub
  have h1 : (u.map fun n => occ g n k).sum = sumOcc g l k := by
    unfold sumOcc
    exact (hperm.map fun n => occ g n k).sum_eq
  rw [← h1]
  exact sum_le_of_sublist (hsl.map fun n => occ g n k)
    (fun x hx => by
      obtain ⟨n, _, rfl⟩ := List.mem_map.mp hx
      exact occ_nonneg g n k)

theorem occ_le_totalIn (g : List (α × SnapNode α))
    (hnd : (keysOf g).Nodup) {a : α} (ha : a ∈ keysOf g) (k : α) :
    occ g a k ≤ totalIn g k := by
  rw [totalIn_eq_sum_keys g hnd]
  exact le_sum_of_mem (List.mem_map_of_mem _ ha)
    (fun y hy => by
      obtain ⟨n, _, rfl⟩ := List.mem_map.mp hy
      exact occ_nonneg g n k)

theorem one_le_occ {g : List (α × SnapNode α)} {a b : α}
    (h : b ∈ nodeTargets g a) : 1 ≤ occ g a b := by
  unfold occ
  exact_mod_cast List.count_pos_iff.mpr h

/-! ### Sorter: queue-processing characterization -/

theorem stepT_none {m : List (α × Int)} {q : List α} {t : α}
    (h : alookup t m = none) : stepT (m, q) t = (m, q) := by
  simp [stepT, h]

theorem stepT_some {m : List (α × Int)} {q : List α} {t : α} {d : Int}
    (h : alookup t m = some d) :
    stepT (m, q) t =
      (dictUpd m t (d - 1), if d - 1 = 0 then q ++ [t] else q) := by
  simp [stepT, h]

theorem procT_cons (m : List (α × Int)) (q : List α) (t : α) (ts : List α) :
    procT m q (t :: ts) = procT (stepT (m, q) t).1 (stepT (m, q) t).2 ts := by
  simp [procT, List.foldl_cons]

/-- What one full pass over a popped node's target list does: every
tracked key is decremented once per occurrence, the queue grows by a
duplicate-free block of keys whose current count is between 1 and their
occurrence count (those are exactly the keys that hit zero mid-pass). -/
theorem procT_spec (ts : List α) (m : List (α × Int)) (q : List α) :
    (∀ k, alookup k (procT m q ts).1 =
        (alookup k m).map fun d => d - (ts.count k : Int)) ∧
    ∃ nw, (procT m q ts).2 = q ++ nw ∧ nw.Nodup ∧
      ∀ k ∈ nw, ∃ d, alookup k m = some d ∧ 1 ≤ d ∧ d ≤ (ts.count k : Int) := by
  induction ts generalizing m q with
  | nil =>
    refine ⟨fun k => ?_, [], by simp [procT], List.nodup_nil, by simp⟩
    cases h : alookup k m <;> simp [procT, h]
  | cons t ts ih =>
    rw [procT_cons]
    cases hm : alookup t m with
    | none =>
      rw [stepT_none hm]
      obtain ⟨hlook, nw, hq, hnd, hmem⟩ := ih m q
      refine ⟨fun k => ?_, nw, hq, hnd, fun k hk => ?_⟩
      · rw [hlook k]
        by_cases hkt : k = t
        · subst hkt; rw [hm]; simp
        · rw [List.count_cons_of_ne hkt]
      · obtain ⟨d, hd, h1, h2⟩ := hmem k hk
        refine ⟨d, hd, h1, le_trans h2 ?_⟩
        have : ts.count k ≤ (t :: ts).count k := by
          by_cases hkt : k = t
          · subst hkt; rw [List.count_cons_self]; omega
          · rw [List.count_cons_of_ne hkt]
        exact_mod_cast this
    | some d =>
      rw [stepT_some hm]
      by_cases hz : d - 1 = 0
      · rw [if_pos hz]
        obtain ⟨hlook, nw, hq, hnd, hmem⟩ := ih (dictUpd m t (d - 1)) (q ++ [t])
        have htnw : t ∉ nw := by
          intro ht
          obtain ⟨d0, hd0, h1, _⟩ := hmem t ht
          rw [alookup_dictUpd_self, hm] at hd0
          simp at hd0
          omega
        refine ⟨fun k => ?_, t :: nw, by rw [hq]; simp, ?_, fun k hk => ?_⟩
        · rw [hlook k]
          by_cases hkt : k = t
          · subst hkt
            rw [alookup_dictUpd_self, hm, List.count_cons_self]
            simp only [Option.map_some']
            congr 1
            push_cast
            omega
          · rw [alookup_dictUpd_ne _ _ (fun he => hkt he.symm),
              List.count_cons_of_ne hkt]
        · exact List.nodup_cons.mpr ⟨htnw, hnd⟩
        · rcases List.mem_cons.mp hk with rfl | hk2
          · refine ⟨d, hm, by omega, ?_⟩
            rw [List.count_cons_self]
            push_cast
            omega
          · obtain ⟨d0, hd0, h1, h2⟩ := hmem k hk2
            have hkt : k ≠ t := fun he => htnw (he ▸ hk2)
            rw [alookup_dictUpd_ne _ _ (fun he => hkt he.symm)] at hd0
            refine ⟨d0, hd0, h1, ?_⟩
            rw [List.count_cons_of_ne hkt]
            exact h2
      · rw [if_neg hz]
        obtain ⟨hlook, nw, hq, hnd, hmem⟩ := ih (dictUpd m t (d - 1)) q
        refine ⟨fun k => ?_, nw, hq, hnd, fun k hk => ?_⟩
        · rw [hlook k]
          by_cases hkt : k = t
          · subst hkt
            rw [alookup_dictUpd_self, hm, List.count_cons_self]
            simp only [Option.map_some']
            congr 1
            push_cast
            omega
          · rw [alookup_dictUpd_ne _ _ (fun he => hkt he.symm),
              List.count_cons_of_ne hkt]
        · obtain ⟨d0, hd0, h1, h2⟩ := hmem k hk
          by_cases hkt : k = t
          · subst hkt
            rw [alookup_dictUpd_self, hm] at hd0
            simp at hd0
            refine ⟨d, hm, by omega, ?_⟩
            rw [List.count_cons_self]
            push_cast
            omega
          · rw [alookup_dictUpd_ne _ _ (fun he => hkt he.symm)] at hd0
            refine ⟨d0, hd0, h1, ?_⟩
            rw [List.count_cons_of_ne hkt]
            exact h2

/-! ### Sorter: loop invariant -/

/-- Invariant of the Kahn loop state: `m` is the in-degree table,
`queue` the pending zero-degree keys, `done` the emitted order. -/
structure KInv (g : List (α × SnapNode α)) (m : List (α × Int))
    (queue done : List α) : Prop where
  dom : ∀ k, (alookup k m).isSome → k ∈ keysOf g
  nodup : (done ++ queue).Nodup
  mem : ∀ x ∈ done ++ queue, x ∈ keysOf g
  bal : ∀ k ∈ keysOf g, alookup k m = some (totalIn g k - sumOcc g done k)
  nonpos : ∀ x ∈ done ++ queue, ∀ d, alookup x m = some d → d ≤ 0
  qdom : ∀ b ∈ queue, ∀ a ∈ keysOf g, b ∈ nodeTargets g a → a ∈ done
  ddom : ∀ b ∈ done, ∀ a ∈ keysOf g, b ∈ nodeTargets g a → Precedes done a b

theorem KInv.step (g : List (α × SnapNode α)) (hg : (keysOf g).Nodup)
    {m : List (α × Int)} {qh : α} {rest done : List α}
    (hI : KInv g m (qh :: rest) done) :
    KInv g (procT m rest (nodeTargets g qh)).1
      (procT m rest (nodeTargets g qh)).2 (done ++ [qh]) := by
  obtain ⟨hlook, nw, hq, hnwnd, hnwmem⟩ := procT_spec (nodeTargets g qh) m rest
  have hqh_mem : qh ∈ keysOf g := hI.mem qh (by simp)
  have hold_nodup : (done ++ qh :: rest).Nodup := hI.nodup
  have hqh_done : qh ∉ done := by
    intro h
    have := List.disjoint_of_nodup_append hold_nodup h
    simp at this
  -- members of nw are fresh: their stored count is positive, while every
  -- key already in done/queue has a nonpositive count
  have hnw_fresh : ∀ k ∈ nw, k ∉ done ++ qh :: rest := by
    intro k hk hmem
    obtain ⟨d, hd, h1, _⟩ := hnwmem k hk
    have := hI.nonpos k hmem d hd
    omega
  have hnw_keys : ∀ k ∈ nw, k ∈ keysOf g := by
    intro k hk
    obtain ⟨d, hd, _, _⟩ := hnwmem k hk
    exact hI.dom k (by rw [hd]; rfl)
  have hocc_qh : ∀ k, occ g qh k = ((nodeTargets g qh).count k : Int) := fun k => rfl
  refine ⟨?_, ?_, ?_, ?_, ?_, ?_, ?_⟩
  · intro k hs
    rw [hlook k] at hs
    cases h : alookup k m with
    | none => rw [h] at hs; simp at hs
    | some d => exact hI.dom k (by rw [h]; rfl)
  · -- nodup of (done ++ [qh]) ++ (rest ++ nw)
    rw [hq]
    have h1 : ((done ++ [qh]) ++ (rest ++ nw)) = (done ++ qh :: rest) ++ nw := by
      simp
    rw [h1, List.nodup_append]
    refine ⟨hold_nodup, hnwnd, ?_⟩
    intro x hx hx2
    exact hnw_fresh x hx2 hx
  · intro x hx
    rw [hq] at hx
    have h1 : ((done ++ [qh]) ++ (rest ++ nw)) = (done ++ qh :: rest) ++ nw := by
      simp
    rw [h1] at hx
    rcases List.mem_append.mp hx with hx | hx
    · exact hI.mem x hx
    · exact hnw_keys x hx
  · intro k hk
    rw [hlook k, hI.bal k hk]
    simp only [Option.map_some']
    rw [sumOcc_append]
    have : sumOcc g [qh] k = occ g qh k := by simp [sumOcc]
    rw [this, hocc_qh]
    congr 1
    ring
  · intro x hx d hd
    rw [hlook x] at hd
    cases h : alookup x m with
    | none => rw [h] at hd; simp at hd
    | some d0 =>
      rw [h] at hd
      simp only [Option.map_some', Option.some.injEq] at hd
      have hcnt : (0 : Int) ≤ ((nodeTargets g qh).count x : Int) := by positivity
      rw [hq] at hx
      have h1 : ((done ++ [qh]) ++ (rest ++ nw)) = (done ++ qh :: rest) ++ nw := by
        simp
      rw [h1] at hx
      rcases List.mem_append.mp hx with hx | hx
      · have := hI.nonpos x hx d0 h
        omega
      · obtain ⟨d1, hd1, _, h2⟩ := hnwmem x hx
        rw [h] at hd1
        simp only [Option.some.injEq] at hd1
        omega
  · intro b hb a ha hedge
    rw [hq] at hb
    rcases List.mem_append.mp hb with hb | hb
    · exact List.mem_append_left _ (hI.qdom b (List.mem_cons_of_mem qh hb) a ha hedge)
    · -- b was newly enqueued: every in-edge source of b is already emitted
      by_contra hnot
      have hadone : a ∉ done := fun h => hnot (List.mem_append_left _ h)
      have haqh : a ≠ qh := fun h => hnot (by simp [h])
      obtain ⟨d, hd, h1, h2⟩ := hnwmem b hb
      have hbkeys : b ∈ keysOf g := hnw_keys b hb
      have hbal := hI.bal b hbkeys
      rw [hbal] at hd
      simp only [Option.some.injEq] at hd
      -- the list done ++ [qh, a] is duplicate-free and inside the key set
      have hlnd : (done ++ [qh, a]).Nodup := by
        rw [List.nodup_append]
        refine ⟨hold_nodup.sublist (List.sublist_append_left _ _), ?_, ?_⟩
        · simp [haqh]
          intro h; exact haqh h.symm
        · intro x hx hx2
          simp at hx2
          rcases hx2 with rfl | rfl
          · exact hqh_done hx
          · exact hadone hx
      have hlsub : ∀ x ∈ done ++ [qh, a], x ∈ keysOf g := by
        intro x hx
        rcases List.mem_append.mp hx with hx | hx
        · exact hI.mem x (List.mem_append_left _ hx)
        · simp at hx
          rcases hx with rfl | rfl
          · exact hqh_mem
          · exact ha
      have hsum := sumOcc_le_totalIn g hg hlnd hlsub b
      rw [sumOcc_append] at hsum
      have hsum2 : sumOcc g [qh, a] b = occ g qh b + occ g a b := by
        simp [sumOcc]
      rw [hsum2] at hsum
      have hocc_a : 1 ≤ occ g a b := one_le_occ hedge
      rw [hocc_qh b] at hsum
      omega
  · intro b hb a ha hedge
    rcases List.mem_append.mp hb with hb | hb
    · exact (hI.ddom b hb a ha hedge).append_right
    · simp at hb
      subst hb
      exact precedes_append_singleton (hI.qdom b (by simp) a ha hedge)

theorem kahnLoop_spec (g : List (α × SnapNode α)) (hg : (keysOf g).Nodup) :
    ∀ (fuel : Nat) (m : List (α × Int)) (queue done : List α),
      KInv g m queue done →
      (kahnLoop g fuel m queue done).Nodup ∧
      (∀ x ∈ kahnLoop g fuel m queue done, x ∈ keysOf g) ∧
      (∀ b ∈ kahnLoop g fuel m queue done, ∀ a ∈ keysOf g,
        b ∈ nodeTargets g a → Precedes (kahnLoop g fuel m queue done) a b) := by
  intro fuel
  induction fuel with
  | zero =>
    intro m queue done hI
    refine ⟨hI.nodup.sublist (List.sublist_append_left _ _), ?_, ?_⟩
    · exact fun x hx => hI.mem x (List.mem_append_left _ hx)
    · exact fun b hb a ha he => hI.ddom b hb a ha he
  | succ fuel ih =>
    intro m queue done hI
    cases queue with
    | nil =>
      refine ⟨hI.nodup.sublist (List.sublist_append_left _ _), ?_, ?_⟩
      · exact fun x hx => hI.mem x (List.mem_append_left _ hx)
      · exact fun b hb a ha he => hI.ddom b hb a ha he
    | cons qh rest =>
      exact ih _ _ _ (hI.step g hg)

theorem KInv.init (g : List (α × SnapNode α)) (hg : (keysOf g).Nodup) :
    KInv g (initDeg g) (kahnSeeds g) [] := by
  have hseed_lookup : ∀ x ∈ kahnSeeds g, alookup x (initDeg g) = some 0 := by
    intro x hx
    obtain ⟨p, hp, rfl⟩ := List.mem_map.mp hx
    have hp2 := List.mem_filter.mp hp
    have hz : p.2 = 0 := by simpa using hp2.2
    have hnd : (keysOf (initDeg g)).Nodup := by rw [keysOf_initDeg]; exact hg
    have := alookup_eq_some_of_mem (g := initDeg g) hnd
      (show (p.1, p.2) ∈ initDeg g by simpa using hp2.1)
    rw [this, hz]
  have hseeds_sub : List.Sublist (kahnSeeds g) (keysOf g) := by
    have h1 : List.Sublist ((initDeg g).filter fun p => p.2 = 0) (initDeg g) :=
      List.filter_sublist _
    have h2 := h1.map Prod.fst
    rw [show List.map Prod.fst (initDeg g) = keysOf (initDeg g) from rfl,
      keysOf_initDeg] at h2
    exact h2
  refine ⟨?_, ?_, ?_, ?_, ?_, ?_, ?_⟩
  · intro k hs
    rw [alookup_initDeg] at hs
    cases h : alookup k g with
    | none => rw [h] at hs; simp at hs
    | some nd => exact mem_keysOf_of_alookup_eq_some h
  · simpa using hg.sublist hseeds_sub
  · intro x hx
    simp only [List.nil_append] at hx
    exact hseeds_sub.subset hx
  · intro k hk
    rw [alookup_initDeg]
    have : (alookup k g).isSome := alookup_isSome_iff_mem.mpr hk
    cases h : alookup k g with
    | none => rw [h] at this; simp at this
    | some nd => simp
  · intro x hx d hd
    simp only [List.nil_append] at hx
    rw [hseed_lookup x hx] at hd
    simp only [Option.some.injEq] at hd
    omega
  · intro b hb a ha hedge
    exfalso
    have h1 := hseed_lookup b hb
    rw [alookup_initDeg] at h1
    have hbk : b ∈ keysOf g := hseeds_sub.subset hb
    have : (alookup b g).isSome := alookup_isSome_iff_mem.mpr hbk
    cases h : alookup b g with
    | none => rw [h] at this; simp at this
    | some nd =>
      rw [h] at h1
      simp only [Option.map_some', Option.some.injEq] at h1
      have h2 := occ_le_totalIn g hg ha b
      have h3 := one_le_occ hedge
      omega
  · intro b hb
    simp at hb

theorem kahnOrder_spec (g : List (α × SnapNode α)) (hg : (keysOf g).Nodup) :
    (kahnOrder g).Nodup ∧
    (∀ x ∈ kahnOrder g, x ∈ keysOf g) ∧
    (∀ b ∈ kahnOrder g, ∀ a ∈ keysOf g,
      b ∈ nodeTargets g a → Precedes (kahnOrder g) a b) :=
  kahnLoop_spec g hg (kahnFuel g) (initDeg g) (kahnSeeds g) [] (KInv.init g hg)

/-! ### Sorter: final assembly -/

theorem keysOf_filterMap_alookup (g : List (α × SnapNode α)) (order : List α)
    (h : ∀ k ∈ order, k ∈ keysOf g) :
    keysOf (order.filterMap fun k => (alookup k g).map fun nd => (k, nd)) =
      order := by
  induction order with
  | nil => rfl
  | cons k l ih =>
    have hk : (alookup k g).isSome := alookup_isSome_iff_mem.mpr (h k (by simp))
    cases hh : alookup k g with
    | none => rw [hh] at hk; simp at hk
    | some nd =>
      simp only [List.filterMap_cons, hh, Option.map_some']
      simp only [keysOf, List.map_cons] at ih ⊢
      rw [ih fun x hx => h x (List.mem_cons_of_mem k hx)]

theorem filterMap_alookup_keys (g : List (α × SnapNode α))
    (hg : (keysOf g).Nodup) :
    ((keysOf g).filterMap fun k => (alookup k g).map fun nd => (k, nd)) = g := by
  induction g with
  | nil => rfl
  | cons p l ih =>
    obtain ⟨a, nd⟩ := p
    simp only [keysOf, List.map_cons, List.nodup_cons] at hg
    have hfa : ((alookup a ((a, nd) :: l)).map fun nd' => (a, nd')) =
        some (a, nd) := by simp
    have hcong : ∀ k ∈ List.map Prod.fst l,
        ((alookup k ((a, nd) :: l)).map fun nd' => (k, nd')) =
          (alookup k l).map fun nd' => (k, nd') := by
      intro k hk
      have hak : ¬ a = k := fun he => hg.1 (he ▸ hk)
      simp [alookup, hak]
    show List.filterMap
        (fun k => (alookup k ((a, nd) :: l)).map fun nd => (k, nd))
        (a :: List.map Prod.fst l) = (a, nd) :: l
    rw [List.filterMap_cons, hfa, List.filterMap_congr hcong]
    have htail := ih hg.2
    simp only [keysOf] at htail
    rw [htail]

theorem perm_append_filter_not_mem {kahn l : List α} (hknd : kahn.Nodup)
    (hlnd : l.Nodup) (hsub : ∀ x ∈ kahn, x ∈ l) :
    (kahn ++ l.filter fun x => ¬ x ∈ kahn).Perm l := by
  rw [List.perm_iff_count]
  intro x
  rw [List.count_append]
  by_cases hx : x ∈ kahn
  · have h0 : List.count x (l.filter fun y => ¬ y ∈ kahn) = 0 :=
      List.count_eq_zero_of_not_mem (by simp [List.mem_filter, hx])
    rw [List.count_eq_one_of_mem hknd hx,
      List.count_eq_one_of_mem hlnd (hsub x hx), h0]
  · rw [List.count_eq_zero_of_not_mem hx, List.count_filter (by simp [hx])]
    omega

/-- C3 (amended): sorting a snapshot with duplicate-free keys permutes
its entries (content unchanged, no duplicates introduced); the output
key order is the Kahn-visited order followed by all remaining keys in
original encounter order; and every in-snapshot edge `a → b` whose
target `b` was Kahn-visited has `a` strictly before `b` in the output. -/
theorem sort_graph_content_and_order (g : List (α × SnapNode α))
    (hg : (keysOf g).Nodup) :
    (sortGraphByExecutionOrder g).Perm g ∧
    keysOf (sortGraphByExecutionOrder g) =
      kahnOrder g ++ (keysOf g).filter (fun k => ¬ k ∈ kahnOrder g) ∧
    (∀ a b, a ∈ keysOf g → b ∈ nodeTargets g a → b ∈ kahnOrder g →
      Precedes (keysOf (sortGraphByExecutionOrder g)) a b) := by
  obtain ⟨hknd, hksub, hkord⟩ := kahnOrder_spec g hg
  have horder_sub : ∀ k ∈ kahnOrder g ++
      (keysOf g).filter (fun k => ¬ k ∈ kahnOrder g), k ∈ keysOf g := by
    intro k hk
    rcases List.mem_append.mp hk with hk | hk
    · exact hksub k hk
    · exact List.mem_of_mem_filter hk
  have hkeys : keysOf (sortGraphByExecutionOrder g) =
      kahnOrder g ++ (keysOf g).filter (fun k => ¬ k ∈ kahnOrder g) :=
    keysOf_filterMap_alookup g _ horder_sub
  refine ⟨?_, hkeys, ?_⟩
  · have hperm := perm_append_filter_not_mem hknd hg hksub
    have h2 := hperm.filterMap fun k => (alookup k g).map fun nd => (k, nd)
    rw [filterMap_alookup_keys g hg] at h2
    exact h2
  · intro a b ha hedge hbk
    rw [hkeys]
    exact (hkord b hbk a ha hedge).append_right

/-! ### Sorter: the claim's cycle exception, refuted -/

/-- One-hop-closure iteration of forward reachability along `targets`. -/
def reachIter (g : List (α × SnapNode α)) : Nat → List α → List α
  | 0, s => s
  | n + 1, s => reachIter g n ((s ++ s.flatMap (nodeTargets g)).dedup)

/-- `k` participates in a directed cycle of the snapshot: `k` is
reachable (in one or more hops along `targets`) from one of its own
successors.  Formalizes the claim's "a and b participate in a cycle". -/
def onCycle (g : List (α × SnapNode α)) (k : α) : Bool :=
  decide (k ∈ reachIter g g.length (nodeTargets g k))

/-- Counterexample snapshot: keys 2 and 3 form a cycle, 3 also feeds 1,
and 1 feeds 0; no key starts at in-degree zero, so the whole snapshot is
emitted as leftover in encounter order. -/
def cexGraph : List (Nat × SnapNode Nat) :=
  [(0, ⟨[], "panel"⟩), (1, ⟨[0], "compA"⟩),
   (2, ⟨[3], "cyc1"⟩), (3, ⟨[2, 1], "cyc2"⟩)]

/-- C3, counterexample: in `cexGraph` the edge 1 → 0 has both endpoints
among the snapshot keys and neither endpoint participates in any cycle,
yet the sorted output does not place 1 before 0 — the claim's "a before
b unless a and b participate in a cycle" fails on the code. -/
theorem sort_cycle_exception_cex :
    (0 : Nat) ∈ nodeTargets cexGraph 1 ∧
    1 ∈ keysOf cexGraph ∧ 0 ∈ keysOf cexGraph ∧
    onCycle cexGraph 1 = false ∧ onCycle cexGraph 0 = false ∧
    ¬ Precedes (keysOf (sortGraphByExecutionOrder cexGraph)) 1 0 := by
  refine ⟨by decide, by decide, by decide, by decide, by decide, ?_⟩
  have h : keysOf (sortGraphByExecutionOrder cexGraph) = [0, 1, 2, 3] := by
    decide
  rw [h]
  exact not_precedes_head (by decide)

/-- C3, witness: the amended sorter theorem instantiated on `cexGraph`. -/
theorem sort_graph_content_and_order_witness :
    (keysOf cexGraph).Nodup ∧
    ((sortGraphByExecutionOrder cexGraph).Perm cexGraph ∧
    keysOf (sortGraphByExecutionOrder cexGraph) =
      kahnOrder cexGraph ++
        (keysOf cexGraph).filter (fun k => ¬ k ∈ kahnOrder cexGraph) ∧
    (∀ a b, a ∈ keysOf cexGraph → b ∈ nodeTargets cexGraph a →
      b ∈ kahnOrder cexGraph →
      Precedes (keysOf (sortGraphByExecutionOrder cexGraph)) a b)) :=
  ⟨by decide, sort_graph_content_and_order cexGraph (by decide)⟩

/-! ## Node descriptor extraction and snapshot building

Embedding of `get_param_info` (GHCodeMCP_new.py lines 139-236),
`get_component_info` (lines 239-349), `get_all_relevant_objects_info`
(lines 381-409), `get_objects_with_context` (lines 412-481) and
`get_selected_objects` (lines 483-512). -/

/-- An element of a parameter's `Sources`/`Recipients` collection, or a
recorded peer during reconfiguration: its instance id plus host-level
validity flags (`isNull`: Python-falsy object, `isParam`: satisfies
`isinstance(-, IGH_Param)`, `emptyGuid`: `InstanceGuid == Guid.Empty`). -/
structure PeerRef (α : Type) where
  guid : α
  isNull : Bool
  isParam : Bool
  emptyGuid : Bool
deriving DecidableEq, Repr

/-- The serializable node descriptor assembled by the extractors (the
fields the core claims mention; the remaining serialized fields carry no
graph structure). -/
structure Info (α : Type) where
  instanceGuid : α
  parentInstanceGuid : Option α
  name : String
  nickName : String
  kind : String
  sources : List α
  targets : List α
  isSelected : Bool
deriving DecidableEq, Repr

/-- A live parameter object (child of a component, or standalone).
`fault` injects a host property-access failure occurring inside the
extractor's guarded body. -/
structure ParamObj (α : Type) where
  guid : α
  parent : Option α
  name : String
  nickName : String
  sources : List (PeerRef α)
  recipients : List (PeerRef α)
  special : String
  selected : Bool
  fault : Option String
deriving DecidableEq, Repr

/-- A live processing component with its child parameters. -/
structure CompObj (α : Type) where
  guid : α
  name : String
  nickName : String
  inputs : List (ParamObj α)
  outputs : List (ParamObj α)
  selected : Bool
  fault : Option String
deriving DecidableEq, Repr

/-- A top-level entry of `doc.Objects`. -/
inductive DocObj (α : Type) where
  | comp : CompObj α → DocObj α
  | par : ParamObj α → DocObj α
deriving DecidableEq, Repr

def docObjGuid : DocObj α → α
  | .comp c => c.guid
  | .par p => p.guid

/-- A document object that `get_all_relevant_objects_info` reports at
top level: a component, or a parameter without a parent. -/
def topLevel : DocObj α → Prop
  | .comp _ => True
  | .par p => p.parent = none

def objSelected : DocObj α → Bool
  | .comp c => c.selected
  | .par p => p.selected

/-- Python `sc.sticky["processing_error"] = (existing + "\n" + msg).strip()`. -/
def stickyAppend (old msg : String) : String :=
  (old ++ "\n" ++ msg).trim

/-- Guarded body of `get_param_info` (lines 153-228): builds the
descriptor; an injected fault models any host access failing inside the
`try` block. -/
def paramInfoBody (p : ParamObj α) (isInput : Bool) (parentGuid : Option α)
    (isSel : Bool) : Except String (Info α) :=
  match p.fault with
  | some m => .error m
  | none =>
    let sourcesList := (p.sources.filter fun s => ¬ s.isNull).map PeerRef.guid
    let targetsList := (p.recipients.filter fun s => ¬ s.isNull).map PeerRef.guid
    let targetsList := match parentGuid with
      | some pg =>
          if isInput ∧ ¬ pg ∈ targetsList then targetsList ++ [pg]
          else targetsList
      | none => targetsList
    let sourcesList := match parentGuid with
      | some pg =>
          if ¬ isInput ∧ ¬ pg ∈ sourcesList then sourcesList ++ [pg]
          else sourcesList
      | none => sourcesList
    .ok { instanceGuid := p.guid, parentInstanceGuid := parentGuid,
          name := p.name,
          nickName := if p.nickName = "" then p.name else p.nickName,
          kind := if parentGuid = none ∧ ¬ p.special = "" then p.special
            else "parameter",
          sources := sourcesList, targets := targetsList,
          isSelected := isSel }

/-- `get_param_info` (lines 139-236): any body failure is caught, logged
to the process-wide diagnostic buffer, and surfaced as `none`. -/
def getParamInfo (p : ParamObj α) (isInput : Bool) (parentGuid : Option α)
    (isSel : Bool) (procErr : String) : Option (Info α) × String :=
  match paramInfoBody p isInput parentGuid isSel with
  | .ok i => (some i, procErr)
  | .error e =>
      (none, stickyAppend procErr ("Error getting param info: " ++ e))

/-- Child-parameter extraction loop of `get_component_info` (lines
318-334): failed children are skipped, their errors logged. -/
def collectParamInfos (ps : List (ParamObj α)) (isInput : Bool) (pg : α)
    (st : List (Info α) × String) : List (Info α) × String :=
  ps.foldl
    (fun acc p =>
      match getParamInfo p isInput (some pg) false acc.2 with
      | (some i, lg) => (acc.1 ++ [i], lg)
      | (none, lg) => (acc.1, lg)) st

/-- Guarded body of `get_component_info` (lines 255-343): child
descriptors, then aggregated component-level edges with the component's
own id and its child parameter ids filtered out. -/
def compInfoBody (c : CompObj α) (isSel : Bool) (procErr : String) :
    Except String (Info α × String) :=
  match c.fault with
  | some m => .error m
  | none =>
    let st1 := collectParamInfos c.inputs true c.guid ([], procErr)
    let st2 := collectParamInfos c.outputs false c.guid ([], st1.2)
    let paramGuids := st1.1.map Info.instanceGuid ++ st2.1.map Info.instanceGuid
    let aggSources := (st1.1.flatMap Info.sources).dedup
    let aggTargets := (st2.1.flatMap Info.targets).dedup
    .ok ({ instanceGuid := c.guid, parentInstanceGuid := none,
           name := c.name,
           nickName := if c.nickName = "" then c.name else c.nickName,
           kind := "component",
           sources := aggSources.filter fun x => ¬ x = c.guid ∧ ¬ x ∈ paramGuids,
           targets := aggTargets.filter fun x => ¬ x = c.guid ∧ ¬ x ∈ paramGuids,
           isSelected := isSel }, st2.2)

/-- `get_component_info` (lines 239-349): failures caught, logged,
reported as `none`. -/
def getComponentInfo (c : CompObj α) (isSel : Bool) (procErr : String) :
    Option (Info α) × String :=
  match compInfoBody c isSel procErr with
  | .ok r => (some r.1, r.2)
  | .error e =>
      (none, stickyAppend procErr ("Error getting component info: " ++ e))

/-- Loop body of `get_all_relevant_objects_info` (lines 391-407). -/
def getAllStep (selectedSet : List α) (acc : List (α × Info α) × String) :
    DocObj α → List (α × Info α) × String
  | .comp c =>
    match getComponentInfo c (c.guid ∈ selectedSet) acc.2 with
    | (some i, lg) => (acc.1 ++ [(c.guid, i)], lg)
    | (none, lg) => (acc.1, lg)
  | .par p =>
    if p.parent = none then
      match getParamInfo p false none (p.guid ∈ selectedSet) acc.2 with
      | (some i, lg) => (acc.1 ++ [(p.guid, i)], lg)
      | (none, lg) => (acc.1, lg)
    else acc

/-- `get_all_relevant_objects_info` (lines 381-409): descriptors of all
components and standalone parameters; nodes whose extraction failed are
omitted, everything else keeps its entry. -/
def getAllRelevantObjectsInfo (doc : List (DocObj α)) (selectedSet : List α)
    (procErr : String) : List (α × Info α) × String :=
  doc.foldl (getAllStep selectedSet) ([], procErr)

/-! ### Context expansion (bounded BFS) -/

/-- Aggregated neighbor list of a snapshot key (line 462:
`set(sources) | set(targets)`). -/
def nbrs (m : List (α × Info α)) (k : α) : List α :=
  match alookup k m with
  | some i => i.sources ++ i.targets
  | none => []

def keysF (m : List (α × Info α)) : Finset α := (keysOf m).toFinset

def nbrsF (m : List (α × Info α)) (k : α) : Finset α := (nbrs m k).toFinset

/-- One BFS ring (lines 458-469): neighbors of the current level that
are snapshot keys and unvisited. -/
def ctxNext (m : List (α × Info α)) (cur visited : Finset α) : Finset α :=
  ((cur.biUnion fun x => nbrsF m x) ∩ keysF m) \ visited

/-- The BFS loop (lines 456-472), one iteration per hop, stopping early
when a ring is empty; returns the final inclusion set. -/
def ctxLoop (m : List (α × Info α)) : Nat → Finset α → Finset α → Finset α
  | 0, _, visited => visited
  | n + 1, cur, visited =>
      let nxt := ctxNext m cur visited
      if nxt = ∅ then visited else ctxLoop m n nxt (visited ∪ nxt)

/-- Steps 3 of `get_objects_with_context` (lines 450-472): expand the
resolved inclusion set by at most `min d 3` hops. -/
def ctxInclude (m : List (α × Info α)) (inc : Finset α) (d : Nat) :
    Finset α :=
  if 0 < d ∧ inc.Nonempty then ctxLoop m (min d 3) inc inc else inc

/-- Step 4 (lines 474-477): restrict the snapshot to the included keys. -/
def restrictTo (m : List (α × Info α)) (inc : Finset α) :
    List (α × Info α) :=
  m.filter fun p => p.1 ∈ inc

/-- `get_object_by_instance_guid` (old file lines 495-517): first
document object with the requested id. -/
def findDocObj (doc : List (DocObj α)) (g : α) : Option (DocObj α) :=
  doc.find? fun o => docObjGuid o = g

/-- Step 2 of `get_objects_with_context` (lines 429-447): resolve each
requested id to a top-level key; a child parameter is replaced by its
owning component, which is additionally marked selected. -/
def resolveMark (acc : List (α × Info α) × Finset α) (pg : α) :
    List (α × Info α) × Finset α :=
  match alookup pg acc.1 with
  | some i =>
    (if i.isSelected then acc.1
     else dictUpd acc.1 pg { i with isSelected := true },
     acc.2 ∪ {pg})
  | none => acc

def resolveChild (acc : List (α × Info α) × Finset α) :
    Option α → List (α × Info α) × Finset α
  | some pg => resolveMark acc pg
  | none => acc

def resolveObj (acc : List (α × Info α) × Finset α) :
    Option (DocObj α) → List (α × Info α) × Finset α
  | some (.par p) => resolveChild acc p.parent
  | _ => acc

def resolveStep (doc : List (DocObj α))
    (acc : List (α × Info α) × Finset α) (t : α) :
    List (α × Info α) × Finset α :=
  if (alookup t acc.1).isSome then (acc.1, acc.2 ∪ {t})
  else resolveObj acc (findDocObj doc t)

def resolveTargets (doc : List (DocObj α)) (m : List (α × Info α))
    (targets : List α) : List (α × Info α) × Finset α :=
  targets.foldl (resolveStep doc) (m, ∅)

/-- `get_objects_with_context` (lines 412-481). -/
def getObjectsWithContext (doc : List (DocObj α)) (targets : List α)
    (d : Nat) (procErr : String) : List (α × Info α) :=
  let m := (getAllRelevantObjectsInfo doc targets procErr).1
  let st := resolveTargets doc m targets
  restrictTo st.1 (ctxInclude st.1 st.2 d)

/-- Result envelope of a dispatched read operation. -/
inductive CmdResult (α : Type) where
  | ok : List (α × Info α) → CmdResult α
  | err : String → CmdResult α
deriving DecidableEq, Repr

/-- `get_selected_objects` (lines 483-512).  The boolean records whether
the filtered-snapshot query (`get_objects_with_context`) was invoked. -/
def getSelectedObjects (doc : Option (List (DocObj α))) (d : Nat)
    (procErr : String) : CmdResult α × Bool :=
  match doc with
  | none => (.err "No active Grasshopper document.", false)
  | some doc =>
    let selectedGuids := (doc.filter fun o => objSelected o).map docObjGuid
    if selectedGuids = [] then (.ok [], false)
    else (.ok (getObjectsWithContext doc selectedGuids d procErr), true)

/-! ### C4: bounded context expansion -/

/-- Keys reachable from `T` within `n` hops, staying inside the
snapshot's key set. -/
def ball (m : List (α × Info α)) (T : Finset α) : Nat → Finset α
  | 0 => T
  | n + 1 =>
      ball m T n ∪ (((ball m T n).biUnion fun x => nbrsF m x) ∩ keysF m)

/-- `k` is reachable from some target in at most `n` hops along the
aggregated sources-and-targets edge relation, through snapshot keys. -/
inductive ReachLe (m : List (α × Info α)) (T : Finset α) : Nat → α → Prop
  | base {k : α} (hk : k ∈ T) (n : Nat) : ReachLe m T n k
  | step {x k : α} {n : Nat} (hx : ReachLe m T n x) (hk : k ∈ nbrs m x)
      (hkey : k ∈ keysF m) : ReachLe m T (n + 1) k

theorem ball_subset_succ (m : List (α × Info α)) (T : Finset α) (n : Nat) :
    ball m T n ⊆ ball m T (n + 1) := by
  intro x hx
  simp only [ball, Finset.mem_union]
  exact Or.inl hx

theorem ball_mono (m : List (α × Info α)) (T : Finset α) {i j : Nat}
    (h : i ≤ j) : ball m T i ⊆ ball m T j := by
  induction j with
  | zero => simp_all
  | succ j ih =>
    rcases Nat.lt_or_ge i (j + 1) with hlt | hge
    · exact subset_trans (ih (by omega)) (ball_subset_succ m T j)
    · have : i = j + 1 := by omega
      subst this
      exact subset_rfl

theorem ReachLe.succ {m : List (α × Info α)} {T : Finset α} {n : Nat}
    {k : α} (h : ReachLe m T n k) : ReachLe m T (n + 1) k := by
  induction h with
  | base hk n => exact ReachLe.base hk (n + 1)
  | step hx hk hkey ih => exact ReachLe.step ih hk hkey

theorem mem_ball_iff_reach (m : List (α × Info α)) (T : Finset α)
    (n : Nat) (k : α) : k ∈ ball m T n ↔ ReachLe m T n k := by
  constructor
  · intro hk
    induction n generalizing k with
    | zero => exact ReachLe.base hk 0
    | succ n ih =>
      simp only [ball, Finset.mem_union, Finset.mem_inter,
        Finset.mem_biUnion] at hk
      rcases hk with hk | ⟨⟨x, hx, hnb⟩, hkey⟩
      · exact (ih k hk).succ
      · exact ReachLe.step (ih x hx) (by simp [nbrsF] at hnb; exact hnb) hkey
  · intro hr
    induction hr with
    | base hk n => exact ball_mono m T (Nat.zero_le n) hk
    | step hx hk hkey ih =>
      simp only [ball, Finset.mem_union, Finset.mem_inter, Finset.mem_biUnion]
      exact Or.inr ⟨⟨_, ih, by simp [nbrsF]; exact hk⟩, hkey⟩

theorem ball_stab (m : List (α × Info α)) (T : Finset α) {n : Nat}
    (h : ball m T (n + 1) = ball m T n) :
    ∀ j, ball m T (n + j) = ball m T n := by
  intro j
  induction j with
  | zero => rfl
  | succ j ih =>
    show ball m T ((n + j) + 1) = ball m T n
    show ball m T (n + j) ∪ _ = ball m T n
    rw [ih]
    exact h

theorem nbrs_ball_subset (m : List (α × Info α)) (T : Finset α) (n : Nat)
    {x : α} (hx : x ∈ ball m T n) :
    nbrsF m x ∩ keysF m ⊆ ball m T (n + 1) := by
  intro k hk
  simp only [Finset.mem_inter] at hk
  simp only [ball, Finset.mem_union, Finset.mem_inter, Finset.mem_biUnion]
  exact Or.inr ⟨⟨x, hx, hk.1⟩, hk.2⟩

theorem ctxLoop_eq_ball (m : List (α × Info α)) (T : Finset α) :
    ∀ (j i : Nat) (cur : Finset α),
      cur ⊆ ball m T i →
      (∀ k, k ∈ ball m T (i + 1) → k ∉ ball m T i →
        ∃ x ∈ cur, k ∈ nbrsF m x) →
      ctxLoop m j cur (ball m T i) = ball m T (i + j) := by
  intro j
  induction j with
  | zero => intro i cur _ _; rfl
  | succ j ih =>
    intro i cur hsub hcov
    have hnext : ctxNext m cur (ball m T i) =
        ball m T (i + 1) \ ball m T i := by
      ext k
      simp only [ctxNext, Finset.mem_sdiff, Finset.mem_inter,
        Finset.mem_biUnion]
      constructor
      · rintro ⟨⟨⟨x, hx, hnb⟩, hkey⟩, hnot⟩
        refine ⟨?_, hnot⟩
        exact nbrs_ball_subset m T i (hsub hx) (Finset.mem_inter.mpr ⟨hnb, hkey⟩)
      · rintro ⟨hk1, hk0⟩
        obtain ⟨x, hx, hnb⟩ := hcov k hk1 hk0
        have hkey : k ∈ keysF m := by
          have := hk1
          simp only [ball, Finset.mem_union, Finset.mem_inter,
            Finset.mem_biUnion] at this
          rcases this with h | h
          · exact absurd h hk0
          · exact h.2
        exact ⟨⟨⟨x, hx, hnb⟩, hkey⟩, hk0⟩
    show (let nxt := ctxNext m cur (ball m T i);
      if nxt = ∅ then ball m T i else ctxLoop m j nxt (ball m T i ∪ nxt)) =
        ball m T (i + (j + 1))
    simp only [hnext]
    by_cases hempty : ball m T (i + 1) \ ball m T i = ∅
    · rw [if_pos hempty]
      have heq : ball m T (i + 1) = ball m T i :=
        subset_antisymm (Finset.sdiff_eq_empty_iff_subset.mp hempty)
          (ball_subset_succ m T i)
      exact (ball_stab m T heq (j + 1)).symm
    · rw [if_neg hempty]
      have hunion : ball m T i ∪ (ball m T (i + 1) \ ball m T i) =
          ball m T (i + 1) :=
        Finset.union_sdiff_of_subset (ball_subset_succ m T i)
      rw [hunion]
      have hres := ih (i + 1) (ball m T (i + 1) \ ball m T i)
        (Finset.sdiff_subset)
        ?_
      · rw [hres]
        congr 1
        omega
      · intro k hk2 hk1
        have : k ∈ ball m T (i + 1) ∪
            (((ball m T (i + 1)).biUnion fun x => nbrsF m x) ∩ keysF m) := hk2
        simp only [Finset.mem_union, Finset.mem_inter, Finset.mem_biUnion]
          at this
        rcases this with h | ⟨⟨x, hx, hnb⟩, hkey⟩
        · exact absurd h hk1
        · by_cases hxi : x ∈ ball m T i
          · exact absurd (nbrs_ball_subset m T i hxi
              (Finset.mem_inter.mpr ⟨hnb, hkey⟩)) hk1
          · exact ⟨x, Finset.mem_sdiff.mpr ⟨hx, hxi⟩, hnb⟩

theorem ball_subset_keys (m : List (α × Info α)) (T : Finset α)
    (hT : T ⊆ keysF m) : ∀ n, ball m T n ⊆ keysF m := by
  intro n
  induction n with
  | zero => exact hT
  | succ n ih =>
    intro k hk
    simp only [ball, Finset.mem_union, Finset.mem_inter] at hk
    rcases hk with hk | hk
    · exact ih hk
    · exact hk.2

theorem ctxInclude_eq_ball (m : List (α × Info α)) (T : Finset α) (d : Nat)
    (hne : T.Nonempty) (hd : d ≤ 3) : ctxInclude m T d = ball m T d := by
  unfold ctxInclude
  by_cases h0 : 0 < d
  · rw [if_pos ⟨h0, hne⟩, Nat.min_eq_left hd]
    have hcov : ∀ k, k ∈ ball m T (0 + 1) → k ∉ ball m T 0 →
        ∃ x ∈ T, k ∈ nbrsF m x := by
      intro k hk1 hk0
      simp only [ball, Finset.mem_union, Finset.mem_inter,
        Finset.mem_biUnion] at hk1
      rcases hk1 with h | ⟨⟨x, hx, hnb⟩, _⟩
      · exact absurd h hk0
      · exact ⟨x, hx, hnb⟩
    have := ctxLoop_eq_ball m T d 0 T subset_rfl hcov
    simpa using this
  · have hd0 : d = 0 := by omega
    subst hd0
    rw [if_neg (by simp)]
    rfl

theorem mem_keysOf_restrictTo {m : List (α × Info α)} {S : Finset α}
    {k : α} : k ∈ keysOf (restrictTo m S) ↔ k ∈ keysOf m ∧ k ∈ S := by
  unfold restrictTo keysOf
  simp only [List.mem_map, List.mem_filter]
  constructor
  · rintro ⟨p, ⟨hp, hps⟩, rfl⟩
    exact ⟨⟨p, hp, rfl⟩, by simpa using hps⟩
  · rintro ⟨⟨p, hp, rfl⟩, hks⟩
    exact ⟨p, ⟨hp, by simpa using hks⟩, rfl⟩

/-- C4: for a filtered snapshot query with resolved nonempty target set
`T` inside the snapshot's keys and context depth `d ≤ 3`, every key of
the returned map is reachable from some target within `d` hops along
the aggregated sources-and-targets edges, and no key beyond that hop
distance appears. -/
theorem context_expansion_bounded (m : List (α × Info α)) (T : Finset α)
    (d : Nat) (hT : T ⊆ keysF m) (hne : T.Nonempty) (hd : d ≤ 3) :
    (∀ k ∈ keysOf (restrictTo m (ctxInclude m T d)), ReachLe m T d k) ∧
    (∀ k, ¬ ReachLe m T d k →
      k ∉ keysOf (restrictTo m (ctxInclude m T d))) := by
  have hball := ctxInclude_eq_ball m T d hne hd
  constructor
  · intro k hk
    rw [mem_keysOf_restrictTo, hball] at hk
    exact (mem_ball_iff_reach m T d k).mp hk.2
  · intro k hk hmem
    rw [mem_keysOf_restrictTo, hball] at hmem
    exact hk ((mem_ball_iff_reach m T d k).mp hmem.2)

/-! ### C9: containment of extraction failures -/

theorem getParamInfo_fault {p : ParamObj α} {m : String}
    (hf : p.fault = some m) (ii : Bool) (pg : Option α) (sel : Bool)
    (e : String) :
    getParamInfo p ii pg sel e =
      (none, stickyAppend e ("Error getting param info: " ++ m)) := by
  unfold getParamInfo paramInfoBody
  rw [hf]

theorem getParamInfo_ok {p : ParamObj α} (hf : p.fault = none) (ii : Bool)
    (pg : Option α) (sel : Bool) (e : String) :
    (getParamInfo p ii pg sel e).2 = e ∧
      (getParamInfo p ii pg sel e).1.isSome := by
  unfold getParamInfo paramInfoBody
  rw [hf]
  exact ⟨rfl, rfl⟩

theorem getComponentInfo_fault {c : CompObj α} {m : String}
    (hf : c.fault = some m) (sel : Bool) (e : String) :
    getComponentInfo c sel e =
      (none, stickyAppend e ("Error getting component info: " ++ m)) := by
  unfold getComponentInfo compInfoBody
  rw [hf]

theorem getComponentInfo_ok {c : CompObj α} (hf : c.fault = none)
    (sel : Bool) (e : String) : (getComponentInfo c sel e).1.isSome := by
  unfold getComponentInfo compInfoBody
  rw [hf]
  rfl

/-- Characterization of the snapshot fold: the accumulated map only
grows, new entries come from top-level document objects (keys in
document order), and every fault-free component or standalone parameter
contributes its entry. -/
theorem getAll_acc (doc : List (DocObj α)) (sel : List α) :
    ∀ acc : List (α × Info α) × String,
      ∃ suf : List (α × Info α),
        (doc.foldl (getAllStep sel) acc).1 = acc.1 ++ suf ∧
        List.Sublist (keysOf suf) (doc.map docObjGuid) ∧
        (∀ q ∈ suf, ∃ obj ∈ doc, docObjGuid obj = q.1 ∧ topLevel obj) ∧
        (∀ cc : CompObj α, DocObj.comp cc ∈ doc → cc.fault = none →
          ∃ i, (cc.guid, i) ∈ suf) ∧
        (∀ pp : ParamObj α, DocObj.par pp ∈ doc → pp.parent = none →
          pp.fault = none → ∃ i, (pp.guid, i) ∈ suf) := by
  induction doc with
  | nil =>
    intro acc
    exact ⟨[], by simp, by simp [keysOf], by simp, by simp, by simp⟩
  | cons obj rest ih =>
    intro acc
    rw [List.foldl_cons]
    cases obj with
    | comp c =>
      cases hci : getComponentInfo c (c.guid ∈ sel) acc.2 with
      | mk oi lg =>
        cases oi with
        | some i =>
          have hstep : getAllStep sel acc (DocObj.comp c) =
              (acc.1 ++ [(c.guid, i)], lg) := by
            simp [getAllStep, hci]
          rw [hstep]
          obtain ⟨suf, hres, hsl, hsrc, hcomp, hpar⟩ := ih (acc.1 ++ [(c.guid, i)], lg)
          refine ⟨(c.guid, i) :: suf, by simp [hres], ?_, ?_, ?_, ?_⟩
          · simpa [keysOf, docObjGuid] using List.Sublist.cons₂ c.guid hsl
          · intro q hq
            rcases List.mem_cons.mp hq with rfl | hq
            · exact ⟨DocObj.comp c, by simp, rfl, trivial⟩
            · obtain ⟨o, ho, h1, h2⟩ := hsrc q hq
              exact ⟨o, List.mem_cons_of_mem _ ho, h1, h2⟩
          · intro cc hcc hfc
            rcases List.mem_cons.mp hcc with he | hcc
            · rw [DocObj.comp.injEq] at he
              subst he
              exact ⟨i, by simp⟩
            · obtain ⟨j, hj⟩ := hcomp cc hcc hfc
              exact ⟨j, List.mem_cons_of_mem _ hj⟩
          · intro pp hpp h1 h2
            rcases List.mem_cons.mp hpp with he | hpp
            · exact DocObj.noConfusion he
            · obtain ⟨j, hj⟩ := hpar pp hpp h1 h2
              exact ⟨j, List.mem_cons_of_mem _ hj⟩
        | none =>
          have hstep : getAllStep sel acc (DocObj.comp c) = (acc.1, lg) := by
            simp [getAllStep, hci]
          rw [hstep]
          obtain ⟨suf, hres, hsl, hsrc, hcomp, hpar⟩ := ih (acc.1, lg)
          refine ⟨suf, hres, hsl.trans (List.sublist_cons_self _ _), ?_, ?_, ?_⟩
          · intro q hq
            obtain ⟨o, ho, h1, h2⟩ := hsrc q hq
            exact ⟨o, List.mem_cons_of_mem _ ho, h1, h2⟩
          · intro cc hcc hfc
            rcases List.mem_cons.mp hcc with he | hcc
            · rw [DocObj.comp.injEq] at he
              subst he
              have hok := getComponentInfo_ok hfc (cc.guid ∈ sel) acc.2
              rw [hci] at hok
              simp at hok
            · exact hcomp cc hcc hfc
          · intro pp hpp h1 h2
            rcases List.mem_cons.mp hpp with he | hpp
            · exact DocObj.noConfusion he
            · exact hpar pp hpp h1 h2
    | par p =>
      by_cases hpn : p.parent = none
      · cases hpi : getParamInfo p false none (p.guid ∈ sel) acc.2 with
        | mk oi lg =>
          cases oi with
          | some i =>
            have hstep : getAllStep sel acc (DocObj.par p) =
                (acc.1 ++ [(p.guid, i)], lg) := by
              simp [getAllStep, hpn, hpi]
            rw [hstep]
            obtain ⟨suf, hres, hsl, hsrc, hcomp, hpar⟩ :=
              ih (acc.1 ++ [(p.guid, i)], lg)
            refine ⟨(p.guid, i) :: suf, by simp [hres], ?_, ?_, ?_, ?_⟩
            · simpa [keysOf, docObjGuid] using List.Sublist.cons₂ p.guid hsl
            · intro q hq
              rcases List.mem_cons.mp hq with rfl | hq
              · exact ⟨DocObj.par p, by simp, rfl, hpn⟩
              · obtain ⟨o, ho, h1, h2⟩ := hsrc q hq
                exact ⟨o, List.mem_cons_of_mem _ ho, h1, h2⟩
            · intro cc hcc hfc
              rcases List.mem_cons.mp hcc with he | hcc
              · exact DocObj.noConfusion he
              · obtain ⟨j, hj⟩ := hcomp cc hcc hfc
                exact ⟨j, List.mem_cons_of_mem _ hj⟩
            · intro pp hpp h1 h2
              rcases List.mem_cons.mp hpp with he | hpp
              · rw [DocObj.par.injEq] at he
                subst he
                exact ⟨i, by simp⟩
              · obtain ⟨j, hj⟩ := hpar pp hpp h1 h2
                exact ⟨j, List.mem_cons_of_mem _ hj⟩
          | none =>
            have hstep : getAllStep sel acc (DocObj.par p) = (acc.1, lg) := by
              simp [getAllStep, hpn, hpi]
            rw [hstep]
            obtain ⟨suf, hres, hsl, hsrc, hcomp, hpar⟩ := ih (acc.1, lg)
            refine ⟨suf, hres, hsl.trans (List.sublist_cons_self _ _), ?_, ?_, ?_⟩
            · intro q hq
              obtain ⟨o, ho, h1, h2⟩ := hsrc q hq
              exact ⟨o, List.mem_cons_of_mem _ ho, h1, h2⟩
            · intro cc hcc hfc
              rcases List.mem_cons.mp hcc with he | hcc
              · exact DocObj.noConfusion he
              · exact hcomp cc hcc hfc
            · intro pp hpp h1 h2
              rcases List.mem_cons.mp hpp with he | hpp
              · rw [DocObj.par.injEq] at he
                subst he
                have hok := (getParamInfo_ok h2 false none (pp.guid ∈ sel) acc.2).2
                rw [hpi] at hok
                simp at hok
              · exact hpar pp hpp h1 h2
      · have hstep : getAllStep sel acc (DocObj.par p) = acc := by
          simp [getAllStep, hpn]
        rw [hstep]
        obtain ⟨suf, hres, hsl, hsrc, hcomp, hpar⟩ := ih acc
        refine ⟨suf, hres, hsl.trans (List.sublist_cons_self _ _), ?_, ?_, ?_⟩
        · intro q hq
          obtain ⟨o, ho, h1, h2⟩ := hsrc q hq
          exact ⟨o, List.mem_cons_of_mem _ ho, h1, h2⟩
        · intro cc hcc hfc
          rcases List.mem_cons.mp hcc with he | hcc
          · exact DocObj.noConfusion he
          · exact hcomp cc hcc hfc
        · intro pp hpp h1 h2
          rcases List.mem_cons.mp hpp with he | hpp
          · rw [DocObj.par.injEq] at he
            subst he
            exact absurd h1 hpn
          · exact hpar pp hpp h1 h2

theorem getAll_result (doc : List (DocObj α)) (sel : List α) (e : String) :
    List.Sublist (keysOf (getAllRelevantObjectsInfo doc sel e).1)
        (doc.map docObjGuid) ∧
    (∀ q ∈ (getAllRelevantObjectsInfo doc sel e).1,
      ∃ obj ∈ doc, docObjGuid obj = q.1 ∧ topLevel obj) ∧
    (∀ cc : CompObj α, DocObj.comp cc ∈ doc → cc.fault = none →
      ∃ i, (cc.guid, i) ∈ (getAllRelevantObjectsInfo doc sel e).1) ∧
    (∀ pp : ParamObj α, DocObj.par pp ∈ doc → pp.parent = none →
      pp.fault = none →
      ∃ i, (pp.guid, i) ∈ (getAllRelevantObjectsInfo doc sel e).1) := by
  obtain ⟨suf, hres, hsl, hsrc, hcomp, hpar⟩ := getAll_acc doc sel ([], e)
  have heq : (getAllRelevantObjectsInfo doc sel e).1 = suf := by
    unfold getAllRelevantObjectsInfo
    simpa using hres
  rw [heq]
  exact ⟨hsl, hsrc, hcomp, hpar⟩

/-- C9: descriptor extraction never escapes its boundary.  A parameter
extraction failure is caught, appended to the process-wide diagnostic
buffer, and yields a null descriptor; a fault-free component extraction
always yields a descriptor (even around failing children); and a full
snapshot still contains an entry for every fault-free component and
standalone parameter, whatever faults the other nodes have. -/
theorem extraction_failure_contained :
    (∀ (p : ParamObj α) (m : String) (ii : Bool) (pg : Option α)
      (sel : Bool) (e : String), p.fault = some m →
      getParamInfo p ii pg sel e =
        (none, stickyAppend e ("Error getting param info: " ++ m))) ∧
    (∀ (c : CompObj α) (sel : Bool) (e : String), c.fault = none →
      (getComponentInfo c sel e).1.isSome) ∧
    (∀ (doc : List (DocObj α)) (sel : List α) (e : String)
      (cc : CompObj α), DocObj.comp cc ∈ doc → cc.fault = none →
      ∃ i, (cc.guid, i) ∈ (getAllRelevantObjectsInfo doc sel e).1) ∧
    (∀ (doc : List (DocObj α)) (sel : List α) (e : String)
      (pp : ParamObj α), DocObj.par pp ∈ doc → pp.parent = none →
      pp.fault = none →
      ∃ i, (pp.guid, i) ∈ (getAllRelevantObjectsInfo doc sel e).1) := by
  refine ⟨?_, ?_, ?_, ?_⟩
  · intro p m ii pg sel e hf
    exact getParamInfo_fault hf ii pg sel e
  · intro c sel e hf
    exact getComponentInfo_ok hf sel e
  · intro doc sel e cc hm hf
    exact (getAll_result doc sel e).2.2.1 cc hm hf
  · intro doc sel e pp hm h1 h2
    exact (getAll_result doc sel e).2.2.2 pp hm h1 h2

/-- A healthy standalone parameter used by several concrete witnesses. -/
def wParam (g : Nat) : ParamObj Nat :=
  { guid := g, parent := none, name := "p", nickName := "p",
    sources := [], recipients := [], special := "", selected := false,
    fault := none }

/-- A faulty standalone parameter. -/
def wBadParam (g : Nat) : ParamObj Nat :=
  { wParam g with fault := some "stale" }

/-- A healthy component with no child parameters. -/
def wComp (g : Nat) : CompObj Nat :=
  { guid := g, name := "c", nickName := "c", inputs := [], outputs := [],
    selected := false, fault := none }

/-- C9, witness: a document holding a faulty parameter, a healthy
component and a healthy standalone parameter; the faulty node is
caught-and-logged while both healthy nodes keep snapshot entries. -/
theorem extraction_failure_contained_witness :
    ((wBadParam 5).fault = some "stale" ∧
      getParamInfo (wBadParam 5) false none false "" =
        (none, stickyAppend "" ("Error getting param info: " ++ "stale"))) ∧
    ((wComp 1).fault = none ∧
      (getComponentInfo (wComp 1) false "").1.isSome) ∧
    (DocObj.comp (wComp 1) ∈
        [DocObj.par (wBadParam 5), DocObj.comp (wComp 1),
          DocObj.par (wParam 2)] ∧ (wComp 1).fault = none ∧
      ∃ i, ((wComp 1).guid, i) ∈
        (getAllRelevantObjectsInfo
          [DocObj.par (wBadParam 5), DocObj.comp (wComp 1),
            DocObj.par (wParam 2)] [] "").1) ∧
    (DocObj.par (wParam 2) ∈
        [DocObj.par (wBadParam 5), DocObj.comp (wComp 1),
          DocObj.par (wParam 2)] ∧ (wParam 2).parent = none ∧
      (wParam 2).fault = none ∧
      ∃ i, ((wParam 2).guid, i) ∈
        (getAllRelevantObjectsInfo
          [DocObj.par (wBadParam 5), DocObj.comp (wComp 1),
            DocObj.par (wParam 2)] [] "").1) :=
  ⟨⟨rfl, (extraction_failure_contained.1) (wBadParam 5) "stale" false none
      false "" rfl⟩,
   ⟨rfl, (extraction_failure_contained.2.1) (wComp 1) false "" rfl⟩,
   ⟨by simp, rfl, (extraction_failure_contained.2.2.1)
      [DocObj.par (wBadParam 5), DocObj.comp (wComp 1),
        DocObj.par (wParam 2)] [] "" (wComp 1) (by simp) rfl⟩,
   ⟨by simp, rfl, rfl, (extraction_failure_contained.2.2.2)
      [DocObj.par (wBadParam 5), DocObj.comp (wComp 1),
        DocObj.par (wParam 2)] [] "" (wParam 2) (by simp) rfl rfl⟩⟩

/-! ### C7: child-parameter redirection -/

theorem findDocObj_self {doc : List (DocObj α)}
    (hnd : (doc.map docObjGuid).Nodup) {o : DocObj α} (ho : o ∈ doc) :
    findDocObj doc (docObjGuid o) = some o := by
  induction doc with
  | nil => simp at ho
  | cons h rest ih =>
    simp only [List.map_cons, List.nodup_cons] at hnd
    rcases List.mem_cons.mp ho with rfl | ho
    · simp [findDocObj, List.find?]
    · have hne : docObjGuid h ≠ docObjGuid o := by
        intro he
        exact hnd.1 (he ▸ List.mem_map_of_mem docObjGuid ho)
      have hrec := ih hnd.2 ho
      unfold findDocObj at hrec ⊢
      rw [List.find?_cons_of_neg _ (by simpa using hne)]
      exact hrec

theorem doc_guid_inj {doc : List (DocObj α)}
    (hnd : (doc.map docObjGuid).Nodup) {o o' : DocObj α} (ho : o ∈ doc)
    (ho' : o' ∈ doc) (hg : docObjGuid o = docObjGuid o') : o = o' :=
  List.inj_on_of_nodup_map hnd ho ho' hg

theorem resolveMark_keys (acc : List (α × Info α) × Finset α) (pg : α) :
    keysOf (resolveMark acc pg).1 = keysOf acc.1 := by
  unfold resolveMark
  cases alookup pg acc.1 with
  | none => rfl
  | some i =>
    by_cases hs : i.isSelected <;> simp [hs, keysOf_dictUpd]

theorem resolveChild_keys (acc : List (α × Info α) × Finset α)
    (pp : Option α) : keysOf (resolveChild acc pp).1 = keysOf acc.1 := by
  cases pp with
  | none => rfl
  | some pg => exact resolveMark_keys acc pg

theorem resolveObj_keys (acc : List (α × Info α) × Finset α)
    (o : Option (DocObj α)) : keysOf (resolveObj acc o).1 = keysOf acc.1 := by
  cases o with
  | none => rfl
  | some obj =>
    cases obj with
    | comp c => rfl
    | par p => exact resolveChild_keys acc p.parent

theorem resolveStep_keys (doc : List (DocObj α))
    (acc : List (α × Info α) × Finset α) (t : α) :
    keysOf (resolveStep doc acc t).1 = keysOf acc.1 := by
  unfold resolveStep
  by_cases h1 : (alookup t acc.1).isSome
  · rw [if_pos h1]
  · rw [if_neg h1]
    exact resolveObj_keys acc _

theorem resolveFold_keys (doc : List (DocObj α)) (ts : List α) :
    ∀ acc : List (α × Info α) × Finset α,
      keysOf (ts.foldl (resolveStep doc) acc).1 = keysOf acc.1 := by
  induction ts with
  | nil => intro acc; rfl
  | cons t ts ih =>
    intro acc
    rw [List.foldl_cons, ih, resolveStep_keys]

theorem resolveMark_found_fst {acc : List (α × Info α) × Finset α}
    {pg : α} {i : Info α} (h : alookup pg acc.1 = some i) :
    (resolveMark acc pg).1 =
      if i.isSelected then acc.1
      else dictUpd acc.1 pg { i with isSelected := true } := by
  simp [resolveMark, h]

theorem resolveMark_found_snd {acc : List (α × Info α) × Finset α}
    {pg : α} {i : Info α} (h : alookup pg acc.1 = some i) :
    (resolveMark acc pg).2 = acc.2 ∪ {pg} := by
  simp [resolveMark, h]

/-- Once a key maps to a selected descriptor and sits in the inclusion
set, further resolution work changes neither. -/
theorem resolveMark_preserves {acc : List (α × Info α) × Finset α}
    {pg C : α} {i : Info α} (hC : alookup C acc.1 = some i)
    (hsel : i.isSelected = true) (hinc : C ∈ acc.2) :
    alookup C (resolveMark acc pg).1 = some i ∧ C ∈ (resolveMark acc pg).2 := by
  unfold resolveMark
  cases hpg : alookup pg acc.1 with
  | none => exact ⟨hC, hinc⟩
  | some j =>
    by_cases hs : j.isSelected
    · simp only [hs, if_true]
      exact ⟨hC, Finset.mem_union_left _ hinc⟩
    · simp only [hs, if_false, Bool.false_eq_true]
      refine ⟨?_, Finset.mem_union_left _ hinc⟩
      by_cases hCpg : pg = C
      · subst hCpg
        rw [hpg] at hC
        cases hC
        exact absurd hsel (by simpa using hs)
      · rw [alookup_dictUpd_ne _ _ hCpg]
        exact hC

theorem resolveStep_preserves {doc : List (DocObj α)}
    {acc : List (α × Info α) × Finset α} {t C : α} {i : Info α}
    (hC : alookup C acc.1 = some i) (hsel : i.isSelected = true)
    (hinc : C ∈ acc.2) :
    alookup C (resolveStep doc acc t).1 = some i ∧
      C ∈ (resolveStep doc acc t).2 := by
  unfold resolveStep
  by_cases h1 : (alookup t acc.1).isSome
  · rw [if_pos h1]
    exact ⟨hC, Finset.mem_union_left _ hinc⟩
  · rw [if_neg h1]
    cases findDocObj doc t with
    | none => exact ⟨hC, hinc⟩
    | some obj =>
      cases obj with
      | comp c => exact ⟨hC, hinc⟩
      | par p =>
        show alookup C (resolveChild acc p.parent).1 = some i ∧
          C ∈ (resolveChild acc p.parent).2
        cases p.parent with
        | none => exact ⟨hC, hinc⟩
        | some pg => exact resolveMark_preserves hC hsel hinc

theorem resolveFold_preserves {doc : List (DocObj α)} {ts : List α} :
    ∀ {acc : List (α × Info α) × Finset α} {C : α} {i : Info α},
      alookup C acc.1 = some i → i.isSelected = true → C ∈ acc.2 →
      ∃ i', alookup C (ts.foldl (resolveStep doc) acc).1 = some i' ∧
        i'.isSelected = true ∧ C ∈ (ts.foldl (resolveStep doc) acc).2 := by
  induction ts with
  | nil => intro acc C i h1 h2 h3; exact ⟨i, h1, h2, h3⟩
  | cons t ts ih =>
    intro acc C i h1 h2 h3
    rw [List.foldl_cons]
    obtain ⟨h1', h3'⟩ := resolveStep_preserves h1 h2 h3
    exact ih h1' h2 h3'

theorem subset_ctxLoop (m : List (α × Info α)) :
    ∀ (j : Nat) (cur vis : Finset α), vis ⊆ ctxLoop m j cur vis := by
  intro j
  induction j with
  | zero => intro cur vis; exact subset_rfl
  | succ j ih =>
    intro cur vis
    show vis ⊆ (let nxt := ctxNext m cur vis;
      if nxt = ∅ then vis else ctxLoop m j nxt (vis ∪ nxt))
    by_cases h : ctxNext m cur vis = ∅
    · simp only [h, if_pos]
      exact subset_rfl
    · simp only [if_neg h]
      exact subset_trans Finset.subset_union_left (ih _ _)

theorem subset_ctxInclude (m : List (α × Info α)) (inc : Finset α)
    (d : Nat) : inc ⊆ ctxInclude m inc d := by
  unfold ctxInclude
  by_cases h : 0 < d ∧ inc.Nonempty
  · rw [if_pos h]
    exact subset_ctxLoop m _ inc inc
  · rw [if_neg h]

theorem alookup_restrictTo (m : List (α × Info α)) (S : Finset α) (k : α) :
    alookup k (restrictTo m S) =
      if k ∈ S then alookup k m else none := by
  induction m with
  | nil => unfold restrictTo; by_cases h : k ∈ S <;> simp [h]
  | cons p l ih =>
    obtain ⟨a, i⟩ := p
    unfold restrictTo at ih ⊢
    by_cases haS : a ∈ S
    · rw [List.filter_cons_of_pos (by simpa using haS)]
      by_cases hak : a = k
      · subst hak
        simp [alookup, haS]
      · simp only [alookup_cons, if_neg hak]
        exact ih
    · rw [List.filter_cons_of_neg (by simpa using haS)]
      rw [ih]
      by_cases hkS : k ∈ S
      · have hak : a ≠ k := fun he => haS (he ▸ hkS)
        simp [alookup, hak, hkS]
      · simp [hkS]

/-- C7: a request naming a child parameter of a live component `C` is
answered with `C`'s descriptor, marked selected, while the child's own
id never appears as a key of the returned snapshot. -/
theorem child_param_redirect (doc : List (DocObj α)) (targets : List α)
    (d : Nat) (e : String) (pc : ParamObj α) (cc : CompObj α)
    (hnd : (doc.map docObjGuid).Nodup)
    (hpc : DocObj.par pc ∈ doc) (hpar : pc.parent = some cc.guid)
    (hcc : DocObj.comp cc ∈ doc) (hf : cc.fault = none)
    (ht : pc.guid ∈ targets) :
    (∃ i, alookup cc.guid (getObjectsWithContext doc targets d e) = some i ∧
      i.isSelected = true) ∧
    pc.guid ∉ keysOf (getObjectsWithContext doc targets d e) := by
  set m := (getAllRelevantObjectsInfo doc targets e).1 with hm
  obtain ⟨hkeysl, hsrc, hcompret, _⟩ := getAll_result doc targets e
  have hmkeysnd : (keysOf m).Nodup := hnd.sublist hkeysl
  -- the child parameter is not a top-level key of the snapshot
  have hpcnot : pc.guid ∉ keysOf m := by
    intro hmem
    obtain ⟨q, hq, hq1⟩ := List.mem_map.mp hmem
    obtain ⟨o, ho, hog, htl⟩ := hsrc q hq
    have : o = DocObj.par pc := doc_guid_inj hnd ho hpc (by rw [hog, hq1]; rfl)
    subst this
    rw [show topLevel (DocObj.par pc) = (pc.parent = none) from rfl] at htl
    rw [hpar] at htl
    cases htl
  -- the owning component is a key of the snapshot
  obtain ⟨i0, hi0⟩ := hcompret cc hcc hf
  have hlookC : alookup cc.guid m = some i0 := alookup_eq_some_of_mem hmkeysnd hi0
  -- walk the resolution fold up to the child id
  obtain ⟨l1, l2, rfl⟩ := List.append_of_mem ht
  have hfold1 := resolveFold_keys doc l1 (m, (∅ : Finset α))
  set acc1 := l1.foldl (resolveStep doc) (m, (∅ : Finset α)) with hacc1
  have hkeys1 : keysOf acc1.1 = keysOf m := hfold1
  have hlookup_t : alookup pc.guid acc1.1 = none := by
    apply alookup_eq_none_of_not_mem
    rw [hkeys1]
    exact hpcnot
  have hlookupC1 : (alookup cc.guid acc1.1).isSome := by
    rw [alookup_isSome_iff_mem, hkeys1]
    exact mem_keysOf_of_alookup_eq_some hlookC
  obtain ⟨i1, hi1⟩ := Option.isSome_iff_exists.mp hlookupC1
  -- the step at the child id marks the parent and includes it
  have hstep : ∃ i2, alookup cc.guid (resolveStep doc acc1 pc.guid).1 =
      some i2 ∧ i2.isSelected = true ∧
      cc.guid ∈ (resolveStep doc acc1 pc.guid).2 := by
    unfold resolveStep
    rw [if_neg (by rw [hlookup_t]; simp)]
    have hfind : findDocObj doc pc.guid = some (DocObj.par pc) :=
      findDocObj_self hnd hpc
    rw [show findDocObj doc pc.guid = some (DocObj.par pc) from hfind]
    simp only [resolveObj]
    rw [hpar]
    simp only [resolveChild]
    rw [resolveMark_found_fst hi1, resolveMark_found_snd hi1]
    by_cases hs : i1.isSelected
    · rw [if_pos hs]
      exact ⟨i1, hi1, hs, Finset.mem_union_right _ (by simp)⟩
    · rw [if_neg hs]
      refine ⟨{ i1 with isSelected := true }, ?_, rfl,
        Finset.mem_union_right _ (by simp)⟩
      rw [show alookup cc.guid (dictUpd acc1.1 cc.guid
          { i1 with isSelected := true }) =
        (alookup cc.guid acc1.1).map fun _ => { i1 with isSelected := true }
        from alookup_dictUpd_self _ _ _, hi1]
      rfl
  obtain ⟨i2, hstep1, hstep2, hstep3⟩ := hstep
  -- the rest of the fold preserves selection and inclusion
  obtain ⟨i3, hfin1, hfin2, hfin3⟩ :=
    @resolveFold_preserves _ _ doc l2 _ _ _ hstep1 hstep2 hstep3
  have hsplit : (l1 ++ pc.guid :: l2).foldl (resolveStep doc)
      (m, (∅ : Finset α)) =
      l2.foldl (resolveStep doc) (resolveStep doc acc1 pc.guid) := by
    rw [List.foldl_append, List.foldl_cons]
  set st := resolveTargets doc m (l1 ++ pc.guid :: l2) with hst
  have hstdef : st = l2.foldl (resolveStep doc)
      (resolveStep doc acc1 pc.guid) := by
    rw [hst]
    unfold resolveTargets
    exact hsplit
  have hresult : getObjectsWithContext doc (l1 ++ pc.guid :: l2) d e =
      restrictTo st.1 (ctxInclude st.1 st.2 d) := rfl
  rw [hresult]
  have hCin : cc.guid ∈ ctxInclude st.1 st.2 d :=
    subset_ctxInclude st.1 st.2 d (by rw [hstdef]; exact hfin3)
  constructor
  · refine ⟨i3, ?_, hfin2⟩
    rw [alookup_restrictTo, if_pos hCin, hstdef]
    exact hfin1
  · intro hmem
    rw [mem_keysOf_restrictTo] at hmem
    have : keysOf st.1 = keysOf m := by
      rw [hstdef, resolveFold_keys, resolveStep_keys]
      exact hkeys1
    rw [this] at hmem
    exact hpcnot hmem.1

/-- Concrete component owning a child input, used by the C7 witness. -/
def wChildParam : ParamObj Nat :=
  { guid := 5, parent := some 1, name := "radius", nickName := "radius",
    sources := [], recipients := [], special := "", selected := false,
    fault := none }

def wOwner : CompObj Nat :=
  { guid := 1, name := "script", nickName := "script",
    inputs := [wChildParam], outputs := [], selected := false,
    fault := none }

def wDoc : List (DocObj Nat) := [DocObj.comp wOwner, DocObj.par wChildParam]

/-- C7, witness: requesting id 5 (a child input of component 1) yields
component 1, selected, and id 5 is not a key of the result. -/
theorem child_param_redirect_witness :
    (wDoc.map docObjGuid).Nodup ∧
    DocObj.par wChildParam ∈ wDoc ∧
    wChildParam.parent = some wOwner.guid ∧
    DocObj.comp wOwner ∈ wDoc ∧ wOwner.fault = none ∧
    wChildParam.guid ∈ [5] ∧
    ((∃ i, alookup wOwner.guid (getObjectsWithContext wDoc [5] 0 "") =
        some i ∧ i.isSelected = true) ∧
      wChildParam.guid ∉ keysOf (getObjectsWithContext wDoc [5] 0 "")) :=
  ⟨by decide, by decide, rfl, by decide, rfl, by decide,
    child_param_redirect wDoc [5] 0 "" wChildParam wOwner (by decide)
      (by decide) rfl (by decide) rfl (by decide)⟩

/-! ### C10: empty selection -/

/-- C10: with a live document and no selected object, `get_selected`
returns a success envelope with an empty result map and the
filtered-snapshot query is never invoked, for every context depth. -/
theorem get_selected_empty_success (doc : List (DocObj α)) (d : Nat)
    (e : String) (h : ∀ o ∈ doc, objSelected o = false) :
    getSelectedObjects (some doc) d e = (CmdResult.ok [], false) := by
  have hfilter : doc.filter (fun o => objSelected o) = [] := by
    rw [List.filter_eq_nil_iff]
    intro o ho
    simp [h o ho]
  simp only [getSelectedObjects, hfilter]
  rfl

/-- C10, witness: a one-object document with nothing selected, depth 2. -/
theorem get_selected_empty_success_witness :
    (∀ o ∈ [DocObj.par (wParam 2)], objSelected o = false) ∧
    getSelectedObjects (some [DocObj.par (wParam 2)]) 2 "" =
      (CmdResult.ok [], false) :=
  ⟨by decide,
    get_selected_empty_success [DocObj.par (wParam 2)] 2 "" (by decide)⟩

/-- Concrete snapshot map for the C4 witness: a three-node chain. -/
def ctxWitnessMap : List (Nat × Info Nat) :=
  [(0, { instanceGuid := 0, parentInstanceGuid := none, name := "a",
         nickName := "a", kind := "component", sources := [],
         targets := [1], isSelected := true }),
   (1, { instanceGuid := 1, parentInstanceGuid := none, name := "b",
         nickName := "b", kind := "component", sources := [0],
         targets := [2], isSelected := false }),
   (2, { instanceGuid := 2, parentInstanceGuid := none, name := "c",
         nickName := "c", kind := "component", sources := [1],
         targets := [], isSelected := false })]

/-- C4, witness: the bounded-context theorem at target set containing
node 0 and depth 1 on the three-node chain. -/
theorem context_expansion_bounded_witness :
    ({0} : Finset Nat) ⊆ keysF ctxWitnessMap ∧
    ({0} : Finset Nat).Nonempty ∧ (1 : Nat) ≤ 3 ∧
    ((∀ k ∈ keysOf (restrictTo ctxWitnessMap
        (ctxInclude ctxWitnessMap {0} 1)), ReachLe ctxWitnessMap {0} 1 k) ∧
     (∀ k, ¬ ReachLe ctxWitnessMap {0} 1 k →
       k ∉ keysOf (restrictTo ctxWitnessMap
         (ctxInclude ctxWitnessMap {0} 1)))) :=
  ⟨by decide, by decide, by decide,
    context_expansion_bounded ctxWitnessMap {0} 1 (by decide) (by decide)
      (by decide)⟩

/-! ## Script component update transactions

Embedding of `_update_script_component_on_ui_thread` (GHCodeMCP_new.py
lines 539-735) and `_update_script_with_code_ref_on_ui_thread` (lines
764-1020).  Instance guids are natural numbers; fresh guids for newly
constructed parameters are allocated above every existing guid.  An
optional `failAt` index injects a host exception before the given phase
of the try-body, exercising the except/finally paths. -/

/-- A live parameter as the update transactions see it. -/
structure GHParam where
  guid : Nat
  name : String
  nickName : String
  descr : String
  access : String
  optional : Bool
  typeTag : String
  sources : List (PeerRef Nat)
  recipients : List (PeerRef Nat)
deriving DecidableEq, Repr

/-- Python `param.NickName or param.Name`. -/
def effKey (p : GHParam) : String :=
  if p.nickName = "" then p.name else p.nickName

/-- The target script component. -/
structure ScriptComp where
  guid : Nat
  code : String
  descr : String
  nickName : String
  inputs : List GHParam
  outputs : List GHParam
  inputIsPath : Bool
deriving DecidableEq, Repr

/-- A caller-supplied parameter definition (`param_definitions` entry);
absent JSON keys are `none`. -/
structure ParamDef where
  type? : Option String
  name? : Option String
  nickName? : Option String
  typehint? : Option String
  description? : Option String
  access? : Option String
  optional? : Option Bool
deriving DecidableEq, Repr

/-- Python's `str.lower`, written over the character list so that it
reduces definitionally (the core `String.toLower` recursion is
well-founded and opaque to the kernel). -/
def lowerStr (s : String) : String := ⟨s.data.map Char.toLower⟩

/-- `get_access_enum` (lines 62-71). -/
def getAccessEnum (a? : Option String) : String :=
  match a? with
  | some s =>
    if lowerStr s = "item" then "item"
    else if lowerStr s = "tree" then "tree"
    else "list"
  | none => "list"

/-- Parameter class chosen by `create_gh_input_param`'s hint table
(lines 97-109). -/
def typeTagOfHint (h : String) : String :=
  if h = "str" then "Param_String"
  else if h = "int" then "Param_Integer"
  else if h = "float" then "Param_Number"
  else if h = "bool" then "Param_Boolean"
  else if h = "guid" then "Param_Guid"
  else if h = "point" then "Param_Point"
  else if h = "vector" then "Param_Vector"
  else if h = "curve" then "Param_Curve"
  else if h = "surface" then "Param_Surface"
  else if h = "brep" then "Param_Brep"
  else if h = "mesh" then "Param_Mesh"
  else "Param_GenericObject"

/-- `create_gh_input_param` (lines 82-118); `g` is the instance guid
the host assigns to the freshly constructed parameter. -/
def create_gh_input_param (d : ParamDef) (g : Nat)
    (defaultDescription : String) : GHParam :=
  let name := d.name?.getD "input"
  let nick0 := d.nickName?.getD name
  let nick := if nick0 = "" then name else nick0
  { guid := g, name := name, nickName := nick,
    descr := d.description?.getD defaultDescription,
    access := getAccessEnum (some (d.access?.getD "list")),
    optional := d.optional?.getD true,
    typeTag := typeTagOfHint (lowerStr (d.typehint?.getD "generic")),
    sources := [], recipients := [] }

/-- `create_gh_output_param` (lines 120-135). -/
def create_gh_output_param (d : ParamDef) (g : Nat)
    (defaultDescription : String) : GHParam :=
  let name := d.name?.getD "output"
  let nick0 := d.nickName?.getD name
  let nick := if nick0 = "" then name else nick0
  { guid := g, name := name, nickName := nick,
    descr := d.description?.getD defaultDescription,
    access := "list", optional := false, typeTag := "Param_GenericObject",
    sources := [], recipients := [] }

/-- Mutable context of one UI-thread update transaction. -/
structure UpdState where
  comp : ScriptComp
  canvasPresent : Bool
  canvasEnabled : Bool
  canvasRefreshed : Bool
  volatileData : List (Nat × String)
  log : List String
  oldIn : List (String × List (PeerRef Nat))
  oldOut : List (String × List (PeerRef Nat))
  newIn : List (String × Nat)
  newOut : List (String × Nat)
  dummyInGuid : Option Nat
  dummyOutGuid : Option Nat
  paramsUpdated : Bool
  codeUpdated : Bool
  descriptionUpdated : Bool
  messageSet : Bool
  codeRefModeSet : Bool
  filePathSet : Bool
  nameUpdated : Bool
  externalConnects : List (Nat × Nat)
  freshCounter : Nat
  stickyLastUpdateError : Option String
  stickyConnLog : Option String
deriving Repr

def maxGuid (c : ScriptComp) : Nat :=
  (c.inputs.map GHParam.guid ++ c.outputs.map GHParam.guid).foldl max c.guid

/-- Context at the start of a transaction on component `c`. -/
def initState (c : ScriptComp) (canvasPresent : Bool) : UpdState :=
  { comp := c, canvasPresent := canvasPresent, canvasEnabled := true,
    canvasRefreshed := false, volatileData := [], log := [], oldIn := [],
    oldOut := [], newIn := [], newOut := [], dummyInGuid := none,
    dummyOutGuid := none, paramsUpdated := false, codeUpdated := false,
    descriptionUpdated := false, messageSet := false,
    codeRefModeSet := false, filePathSet := false, nameUpdated := false,
    externalConnects := [], freshCounter := maxGuid c + 1,
    stickyLastUpdateError := none, stickyConnLog := none }

/-- Step 0 (lines 565-581 / 789-803): for each parameter whose
`NickName or Name` key is nonempty and whose peer collection is
nonempty, record key ↦ non-null peers (a Python dict: later duplicate
keys overwrite). -/
def recordConnections (c : ScriptComp) :
    List (String × List (PeerRef Nat)) × List (String × List (PeerRef Nat)) :=
  (c.inputs.foldl
     (fun m p =>
       if effKey p ≠ "" ∧ p.sources ≠ [] then
         dictSet m (effKey p) (p.sources.filter fun s => !s.isNull)
       else m) [],
   c.outputs.foldl
     (fun m p =>
       if effKey p ≠ "" ∧ p.recipients ≠ [] then
         dictSet m (effKey p) (p.recipients.filter fun s => !s.isNull)
       else m) [])

/-- Placeholder registration (lines 601-607 / 860-866). -/
def phRegisterDummies (nameIn nameOut : String) (st : UpdState) : UpdState :=
  let g1 := st.freshCounter
  let g2 := st.freshCounter + 1
  let din := create_gh_input_param
    { type? := none, name? := some nameIn, nickName? := some nameIn,
      typehint? := none, description? := some "Temp", access? := none,
      optional? := none } g1 "Input parameter"
  let dout := create_gh_output_param
    { type? := none, name? := some nameOut, nickName? := some nameOut,
      typehint? := none, description? := some "Temp", access? := none,
      optional? := none } g2 "Output parameter"
  { st with
    comp := { st.comp with
      inputs := st.comp.inputs ++ [din],
      outputs := st.comp.outputs ++ [dout] },
    dummyInGuid := some g1, dummyOutGuid := some g2,
    freshCounter := st.freshCounter + 2 }

/-- Clear step of `update_script` (lines 609-613): remove every real
parameter, keeping only the placeholders. -/
def phRemoveOld (st : UpdState) : UpdState :=
  { st with
    comp := { st.comp with
      inputs := st.comp.inputs.filter fun p => some p.guid = st.dummyInGuid,
      outputs := st.comp.outputs.filter fun p =>
        some p.guid = st.dummyOutGuid } }

/-- Install one definition (lines 617-626 / 891-898). -/
def installDef (st : UpdState) (d : ParamDef) : UpdState :=
  let ptype := lowerStr (d.type?.getD "")
  if ptype = "input" then
    let g := st.freshCounter
    let p := create_gh_input_param d g "Dynamically added parameter"
    { st with
      comp := { st.comp with inputs := st.comp.inputs ++ [p] },
      newIn := dictSet st.newIn (effKey p) g, freshCounter := g + 1 }
  else if ptype = "output" then
    let g := st.freshCounter
    let p := create_gh_output_param d g "Dynamically added parameter"
    { st with
      comp := { st.comp with outputs := st.comp.outputs ++ [p] },
      newOut := dictSet st.newOut (effKey p) g, freshCounter := g + 1 }
  else st

def phInstall (defs : List ParamDef) (st : UpdState) : UpdState :=
  defs.foldl installDef st

/-- Default-output synthesis check (lines 628-634 / 900-906): runs
while the placeholder output is still registered. -/
def phEnsureDefaultOutput (dummyName : String) (st : UpdState) : UpdState :=
  let nicks := st.comp.outputs.map effKey
  if ¬ "output" ∈ nicks ∧ ¬ dummyName ∈ nicks then
    let g := st.freshCounter
    let p := create_gh_output_param
      { type? := none, name? := some "output", nickName? := some "output",
        typehint? := none, description? := some "Default output",
        access? := none, optional? := none } g "Output parameter"
    { st with
      comp := { st.comp with outputs := st.comp.outputs ++ [p] },
      newOut := dictSet st.newOut (effKey p) g, freshCounter := g + 1 }
  else st

/-- Placeholder removal (lines 636-638 / 908-910), also used by the
exception cleanup paths (lines 646-649 / 918-921). -/
def phRemoveDummies (st : UpdState) : UpdState :=
  { st with
    comp := { st.comp with
      inputs := st.comp.inputs.filter fun p =>
        ¬ some p.guid = st.dummyInGuid,
      outputs := st.comp.outputs.filter fun p =>
        ¬ some p.guid = st.dummyOutGuid } }

/-- End of the parameter block (lines 640-642 / 912-914):
`params_updated = True`, `OnParametersChanged`, `ClearData`. -/
def phMarkParamsUpdated (st : UpdState) : UpdState :=
  { st with paramsUpdated := true, volatileData := [] }

/-- `new_p_in.AddSource(src)` targeting the input with guid `g`. -/
def addSourceToParam (c : ScriptComp) (g : Nat) (src : PeerRef Nat) :
    ScriptComp :=
  { c with inputs := c.inputs.map fun p =>
      if p.guid = g then { p with sources := p.sources ++ [src] } else p }

def validPeer (src : PeerRef Nat) : Prop :=
  ¬ src.isNull ∧ src.isParam ∧ ¬ src.emptyGuid

instance (src : PeerRef Nat) : Decidable (validPeer src) := by
  unfold validPeer
  infer_instance

/-- Input-connection restoration for one new-parameter entry
(lines 656-668 / 928-936). -/
def restoreInputEntry (st : UpdState) (e : String × Nat) : UpdState :=
  match alookup e.1 st.oldIn with
  | none => st
  | some srcs =>
    srcs.foldl
      (fun st src =>
        if validPeer src then
          { st with comp := addSourceToParam st.comp e.2 src }
        else st) st

/-- Output-connection restoration (lines 671-683 / 938-946): the
downstream peer adds the new output as its source, an effect outside
this component recorded in `externalConnects`. -/
def restoreOutputEntry (st : UpdState) (e : String × Nat) : UpdState :=
  match alookup e.1 st.oldOut with
  | none => st
  | some recs =>
    recs.foldl
      (fun st rec =>
        if validPeer rec then
          { st with externalConnects := st.externalConnects ++ [(rec.guid, e.2)] }
        else st) st

/-- Step 2 (lines 652-683) / Step 3 (lines 924-946). -/
def phRestore (st : UpdState) : UpdState :=
  if st.paramsUpdated then
    let st1 := st.newIn.foldl restoreInputEntry st
    st1.newOut.foldl restoreOutputEntry st1
  else st

def phSetCode (code? : Option String) (st : UpdState) : UpdState :=
  match code? with
  | some c =>
    { st with
      comp := { st.comp with code := c }, codeUpdated := true }
  | none => st

def phSetDescription (descr? : Option String) (st : UpdState) : UpdState :=
  match descr? with
  | some d =>
    { st with
      comp := { st.comp with descr := d },
      descriptionUpdated := true }
  | none => st

def phSetName (name? : Option String) (st : UpdState) : UpdState :=
  match name? with
  | some n =>
    { st with
      comp := { st.comp with nickName := n }, nameUpdated := true }
  | none => st

/-- Message push into the parameter named `output` (lines 694-702). -/
def phSetMessage (msg? : Option String) (st : UpdState) : UpdState :=
  match msg? with
  | none => st
  | some msg =>
    match st.comp.outputs.find? fun p => effKey p = "output" with
    | some p =>
      { st with
        volatileData := dictSet st.volatileData p.guid msg,
        messageSet := true }
    | none =>
      { st with log := st.log ++
          ["Warning: output parameter not found to set message."] }

structure UpdateArgs where
  code? : Option String
  descr? : Option String
  msg? : Option String
  defs? : Option (List ParamDef)
deriving Repr

/-- The try-body of `_update_script_component_on_ui_thread` (lines
595-706) as a phase sequence; the flag marks the phases inside the
inner parameter-update try (lines 600-650), whose handler removes the
placeholders and re-raises. -/
def updatePhases (a : UpdateArgs) : List (Bool × (UpdState → UpdState)) :=
  (match a.defs? with
   | some defs =>
     [(true, phRegisterDummies "__dummy_in__" "__dummy_out__"),
      (true, phRemoveOld), (true, phInstall defs),
      (true, phEnsureDefaultOutput "__dummy_out__"),
      (true, phRemoveDummies), (true, phMarkParamsUpdated)]
   | none => []) ++
  [(false, phRestore), (false, phSetCode a.code?),
   (false, phSetDescription a.descr?), (false, phSetMessage a.msg?)]

def runPhases (phases : List (Bool × (UpdState → UpdState)))
    (st : UpdState) : UpdState :=
  phases.foldl (fun s f => f.2 s) st

/-- Run the body with an optional exception injected before phase
`failAt`; returns the state, whether an exception reached the outer
handler, and whether it was raised inside the parameter block. -/
def runBody (phases : List (Bool × (UpdState → UpdState)))
    (failAt : Option Nat) (st : UpdState) : UpdState × Bool × Bool :=
  match failAt with
  | none => (runPhases phases st, false, false)
  | some k =>
    match phases[k]? with
    | none => (runPhases phases st, false, false)
    | some ph => (runPhases (phases.take k) st, true, ph.1)

/-- The outer exception handler of `update_script` (lines 640-650 /
707-727): if the body raised, placeholders are removed when the failure
was inside the parameter block, and the sticky error slots are set. -/
def applyCatch (body : UpdState × Bool × Bool) : UpdState :=
  if body.2.1 then
    let stc := if body.2.2 then phRemoveDummies body.1 else body.1
    { stc with
      stickyLastUpdateError := some "Update Error",
      stickyConnLog := some "ERROR" }
  else body.1

/-- The outer exception handler of the code-reference variant
(lines 991-1010). -/
def applyCatchRef (body : UpdState × Bool) : UpdState :=
  if body.2 then
    { body.1 with
      stickyLastUpdateError := some "Code Ref Update Error",
      stickyConnLog := some "ERROR" }
  else body.1

/-- The `finally` blocks (lines 729-733 / 1012-1018): always re-enable
the canvas document and refresh. -/
def applyFinally (st : UpdState) : UpdState :=
  let st4 := if st.canvasPresent then { st with canvasEnabled := true }
    else st
  if st4.canvasPresent then { st4 with canvasRefreshed := true } else st4

/-- `_update_script_component_on_ui_thread` (lines 539-735): record,
freeze the canvas, run the body, catch, and always re-enable the canvas
in the `finally` block.  Returns the final context and the success
flag of the result envelope. -/
def updateScriptUIThread (a : UpdateArgs) (st0 : UpdState)
    (failAt : Option Nat) : UpdState × Bool :=
  let rec0 := recordConnections st0.comp
  let st1 := { st0 with
    oldIn := rec0.1, oldOut := rec0.2,
    log := st0.log ++ ["Recorded connection sets."] }
  let st2 := if st1.canvasPresent then { st1 with canvasEnabled := false }
    else st1
  let body := runBody (updatePhases a) failAt st2
  (applyFinally (applyCatch body), ¬ body.2.1)

structure CodeRefArgs where
  filePath? : Option String
  defs? : Option (List ParamDef)
  descr? : Option String
  name? : Option String
  force : Bool
deriving Repr

/-- Step 1 of the code-reference update (lines 819-852): ensure
`InputIsPath` and the existence of a `code` input when forcing or when
a file path was supplied. -/
def phEnsureRefMode (a : CodeRefArgs) (st : UpdState) : UpdState :=
  if a.force ∨ a.filePath?.isSome then
    let st1 :=
      if ¬ st.comp.inputIsPath then
        { st with
          comp := { st.comp with inputIsPath := true },
          codeRefModeSet := true,
          log := st.log ++ ["Setting InputIsPath = True"] }
      else st
    if (st1.comp.inputs.find? fun p =>
        lowerStr (effKey p) = "code").isSome then st1
    else
      let g := st1.freshCounter
      let cp : GHParam :=
        { guid := g, name := "code", nickName := "code",
          descr := "Path to Python code file", access := "list",
          optional := false, typeTag := "Param_ScriptVariable",
          sources := [], recipients := [] }
      { st1 with
        comp := { st1.comp with inputs := st1.comp.inputs ++ [cp] },
        freshCounter := g + 1 }
  else st

/-- The guid of the first input whose key lowercases to `code`
(lines 821 / 869-873). -/
def codeParamGuid (c : ScriptComp) : Option Nat :=
  (c.inputs.find? fun p => lowerStr (effKey p) = "code").map GHParam.guid

/-- Clear step of the code-reference variant (lines 875-879): keep the
placeholders and the `code` parameter. -/
def phRemoveOldRef (st : UpdState) : UpdState :=
  let cg := codeParamGuid st.comp
  { st with
    comp := { st.comp with
      inputs := st.comp.inputs.filter fun p =>
        some p.guid = st.dummyInGuid ∨ some p.guid = cg,
      outputs := st.comp.outputs.filter fun p =>
        some p.guid = st.dummyOutGuid } }

/-- `p_def.get("nickName", p_def.get("name", "")).lower()` (line 886). -/
def defCodeId (d : ParamDef) : String :=
  lowerStr
    (match d.nickName? with
     | some n => n
     | none => d.name?.getD "")

/-- Install one definition, skipping those identified as `code`
(lines 883-898). -/
def installDefRef (st : UpdState) (d : ParamDef) : UpdState :=
  if defCodeId d = "code" then
    { st with log := st.log ++
        ["Skipped adding explicit code param from definition."] }
  else installDef st d

def phInstallRef (defs : List ParamDef) (st : UpdState) : UpdState :=
  defs.foldl installDefRef st

/-- Step 5 (lines 957-982): push the file path into the `code`
parameter's volatile data, as the last mutation before finalization. -/
def phSetFilePath (fp? : Option String) (st : UpdState) : UpdState :=
  match fp? with
  | none => st
  | some fp =>
    match st.comp.inputs.find? fun p => lowerStr (effKey p) = "code" with
    | some cp =>
      let st1 :=
        if ¬ st.comp.inputIsPath then
          { st with
            comp := { st.comp with inputIsPath := true } }
        else st
      { st1 with
        volatileData := dictSet st1.volatileData cp.guid fp,
        filePathSet := true }
    | none =>
      { st with log := st.log ++
          ["Warning: code param not found for final path setting."] }

/-- The try-body of `_update_script_with_code_ref_on_ui_thread`
(lines 818-989) as a phase sequence; flagged phases form the inner
parameter-update try (lines 856-921), whose handler removes the
placeholders, logs, and does not re-raise. -/
def codeRefPhases (a : CodeRefArgs) : List (Bool × (UpdState → UpdState)) :=
  [(false, phEnsureRefMode a)] ++
  (match a.defs? with
   | some defs =>
     [(true, phRegisterDummies "__dummy_in_ref__" "__dummy_out_ref__"),
      (true, phRemoveOldRef), (true, phInstallRef defs),
      (true, phEnsureDefaultOutput "__dummy_out_ref__"),
      (true, phRemoveDummies), (true, phMarkParamsUpdated)]
   | none => []) ++
  [(false, phRestore), (false, phSetDescription a.descr?),
   (false, phSetName a.name?), (false, phSetFilePath a.filePath?)]

/-- Run the code-reference body: an exception inside the parameter
block is swallowed (placeholders removed, execution continues with the
phases after the block); one outside it reaches the outer handler. -/
def runBodyRef (phases : List (Bool × (UpdState → UpdState)))
    (failAt : Option Nat) (st : UpdState) : UpdState × Bool :=
  match failAt with
  | none => (runPhases phases st, false)
  | some k =>
    match phases[k]? with
    | none => (runPhases phases st, false)
    | some ph =>
      let st1 := runPhases (phases.take k) st
      if ph.1 then
        (runPhases ((phases.drop (k + 1)).filter fun q => !q.1)
          (phRemoveDummies { st1 with log := st1.log ++
            ["Error updating parameters during code ref update."] }),
         false)
      else (st1, true)

/-- `_update_script_with_code_ref_on_ui_thread` (lines 764-1020). -/
def updateScriptWithCodeRefUIThread (a : CodeRefArgs) (st0 : UpdState)
    (failAt : Option Nat) : UpdState × Bool :=
  let rec0 := recordConnections st0.comp
  let st1 := { st0 with
    oldIn := rec0.1, oldOut := rec0.2,
    log := st0.log ++ ["Code Ref Update Log:"] }
  let st2 := if st1.canvasPresent then { st1 with canvasEnabled := false }
    else st1
  let body := runBodyRef (codeRefPhases a) failAt st2
  (applyFinally (applyCatchRef body), ¬ body.2)


/-! ### C2: the canvas is re-enabled on every path -/

theorem canvasPresent_foldl (f : UpdState → β → UpdState)
    (hf : ∀ (st : UpdState) (b : β),
      (f st b).canvasPresent = st.canvasPresent) :
    ∀ (l : List β) (st : UpdState),
      (l.foldl f st).canvasPresent = st.canvasPresent := by
  intro l
  induction l with
  | nil => intro st; rfl
  | cons b l ih => intro st; rw [List.foldl_cons, ih, hf]

theorem canvasPresent_phRegisterDummies (a b : String) (st : UpdState) :
    (phRegisterDummies a b st).canvasPresent = st.canvasPresent := rfl

theorem canvasPresent_phRemoveOld (st : UpdState) :
    (phRemoveOld st).canvasPresent = st.canvasPresent := rfl

theorem canvasPresent_installDef (st : UpdState) (d : ParamDef) :
    (installDef st d).canvasPresent = st.canvasPresent := by
  unfold installDef
  dsimp only
  split_ifs <;> rfl

theorem canvasPresent_phInstall (defs : List ParamDef) (st : UpdState) :
    (phInstall defs st).canvasPresent = st.canvasPresent :=
  canvasPresent_foldl installDef canvasPresent_installDef defs st

theorem canvasPresent_phEnsureDefaultOutput (n : String) (st : UpdState) :
    (phEnsureDefaultOutput n st).canvasPresent = st.canvasPresent := by
  unfold phEnsureDefaultOutput
  dsimp only
  split_ifs <;> rfl

theorem canvasPresent_phRemoveDummies (st : UpdState) :
    (phRemoveDummies st).canvasPresent = st.canvasPresent := rfl

theorem canvasPresent_phMarkParamsUpdated (st : UpdState) :
    (phMarkParamsUpdated st).canvasPresent = st.canvasPresent := rfl

theorem canvasPresent_restoreInputEntry (st : UpdState) (e : String × Nat) :
    (restoreInputEntry st e).canvasPresent = st.canvasPresent := by
  unfold restoreInputEntry
  cases alookup e.1 st.oldIn with
  | none => rfl
  | some srcs =>
    exact canvasPresent_foldl _ (fun st src => by split_ifs <;> rfl) srcs st

theorem canvasPresent_restoreOutputEntry (st : UpdState) (e : String × Nat) :
    (restoreOutputEntry st e).canvasPresent = st.canvasPresent := by
  unfold restoreOutputEntry
  cases alookup e.1 st.oldOut with
  | none => rfl
  | some recs =>
    exact canvasPresent_foldl _ (fun st r => by split_ifs <;> rfl) recs st

theorem canvasPresent_phRestore (st : UpdState) :
    (phRestore st).canvasPresent = st.canvasPresent := by
  unfold phRestore
  dsimp only
  split_ifs with h
  · rw [canvasPresent_foldl restoreOutputEntry canvasPresent_restoreOutputEntry,
        canvasPresent_foldl restoreInputEntry canvasPresent_restoreInputEntry]
  · rfl

theorem canvasPresent_phSetCode (c? : Option String) (st : UpdState) :
    (phSetCode c? st).canvasPresent = st.canvasPresent := by
  unfold phSetCode
  cases c? <;> rfl

theorem canvasPresent_phSetDescription (d? : Option String) (st : UpdState) :
    (phSetDescription d? st).canvasPresent = st.canvasPresent := by
  unfold phSetDescription
  cases d? <;> rfl

theorem canvasPresent_phSetName (n? : Option String) (st : UpdState) :
    (phSetName n? st).canvasPresent = st.canvasPresent := by
  unfold phSetName
  cases n? <;> rfl

theorem canvasPresent_phSetMessage (m? : Option String) (st : UpdState) :
    (phSetMessage m? st).canvasPresent = st.canvasPresent := by
  unfold phSetMessage
  cases m? with
  | none => rfl
  | some msg =>
    cases st.comp.outputs.find? fun p => effKey p = "output" with
    | none => rfl
    | some p => rfl

theorem canvasPresent_phEnsureRefMode (a : CodeRefArgs) (st : UpdState) :
    (phEnsureRefMode a st).canvasPresent = st.canvasPresent := by
  unfold phEnsureRefMode
  dsimp only
  split_ifs <;> rfl

theorem canvasPresent_phRemoveOldRef (st : UpdState) :
    (phRemoveOldRef st).canvasPresent = st.canvasPresent := rfl

theorem canvasPresent_installDefRef (st : UpdState) (d : ParamDef) :
    (installDefRef st d).canvasPresent = st.canvasPresent := by
  unfold installDefRef
  split_ifs with h
  · rfl
  · exact canvasPresent_installDef st d

theorem canvasPresent_phInstallRef (defs : List ParamDef) (st : UpdState) :
    (phInstallRef defs st).canvasPresent = st.canvasPresent :=
  canvasPresent_foldl installDefRef canvasPresent_installDefRef defs st

theorem canvasPresent_phSetFilePath (fp? : Option String) (st : UpdState) :
    (phSetFilePath fp? st).canvasPresent = st.canvasPresent := by
  unfold phSetFilePath
  cases fp? with
  | none => rfl
  | some fp =>
    cases st.comp.inputs.find? fun p => lowerStr (effKey p) = "code" with
    | none => rfl
    | some cp => dsimp only; split_ifs <;> rfl

theorem updatePhases_canvasPresent (a : UpdateArgs) :
    ∀ ph ∈ updatePhases a, ∀ st : UpdState,
      (ph.2 st).canvasPresent = st.canvasPresent := by
  intro ph hph st
  unfold updatePhases at hph
  cases hd : a.defs? with
  | none =>
    rw [hd] at hph
    simp only [List.nil_append, List.mem_cons, List.not_mem_nil,
      or_false] at hph
    rcases hph with rfl | rfl | rfl | rfl
    · exact canvasPresent_phRestore st
    · exact canvasPresent_phSetCode _ st
    · exact canvasPresent_phSetDescription _ st
    · exact canvasPresent_phSetMessage _ st
  | some defs =>
    rw [hd] at hph
    simp only [List.cons_append, List.nil_append, List.mem_cons,
      List.not_mem_nil, or_false] at hph
    rcases hph with rfl | rfl | rfl | rfl | rfl | rfl | rfl | rfl | rfl | rfl
    · exact canvasPresent_phRegisterDummies _ _ st
    · exact canvasPresent_phRemoveOld st
    · exact canvasPresent_phInstall _ st
    · exact canvasPresent_phEnsureDefaultOutput _ st
    · exact canvasPresent_phRemoveDummies st
    · exact canvasPresent_phMarkParamsUpdated st
    · exact canvasPresent_phRestore st
    · exact canvasPresent_phSetCode _ st
    · exact canvasPresent_phSetDescription _ st
    · exact canvasPresent_phSetMessage _ st

theorem codeRefPhases_canvasPresent (a : CodeRefArgs) :
    ∀ ph ∈ codeRefPhases a, ∀ st : UpdState,
      (ph.2 st).canvasPresent = st.canvasPresent := by
  intro ph hph st
  unfold codeRefPhases at hph
  cases hd : a.defs? with
  | none =>
    rw [hd] at hph
    simp only [List.cons_append, List.nil_append, List.mem_cons,
      List.not_mem_nil, or_false] at hph
    rcases hph with rfl | rfl | rfl | rfl | rfl
    · exact canvasPresent_phEnsureRefMode a st
    · exact canvasPresent_phRestore st
    · exact canvasPresent_phSetDescription _ st
    · exact canvasPresent_phSetName _ st
    · exact canvasPresent_phSetFilePath _ st
  | some defs =>
    rw [hd] at hph
    simp only [List.cons_append, List.nil_append, List.mem_cons,
      List.not_mem_nil, or_false] at hph
    rcases hph with rfl | rfl | rfl | rfl | rfl | rfl | rfl | rfl | rfl |
      rfl | rfl
    · exact canvasPresent_phEnsureRefMode a st
    · exact canvasPresent_phRegisterDummies _ _ st
    · exact canvasPresent_phRemoveOldRef st
    · exact canvasPresent_phInstallRef _ st
    · exact canvasPresent_phEnsureDefaultOutput _ st
    · exact canvasPresent_phRemoveDummies st
    · exact canvasPresent_phMarkParamsUpdated st
    · exact canvasPresent_phRestore st
    · exact canvasPresent_phSetDescription _ st
    · exact canvasPresent_phSetName _ st
    · exact canvasPresent_phSetFilePath _ st

theorem runPhases_canvasPresent :
    ∀ (phases : List (Bool × (UpdState → UpdState))),
      (∀ ph ∈ phases, ∀ st : UpdState,
        (ph.2 st).canvasPresent = st.canvasPresent) →
      ∀ st : UpdState,
        (runPhases phases st).canvasPresent = st.canvasPresent := by
  intro phases
  induction phases with
  | nil => intro _ st; rfl
  | cons ph rest ih =>
    intro h st
    show (runPhases rest (ph.2 st)).canvasPresent = st.canvasPresent
    rw [ih (fun q hq => h q (List.mem_cons_of_mem ph hq)) (ph.2 st),
        h ph (List.mem_cons_self ph rest) st]

theorem runBody_canvasPresent
    (phases : List (Bool × (UpdState → UpdState)))
    (hph : ∀ ph ∈ phases, ∀ st : UpdState,
      (ph.2 st).canvasPresent = st.canvasPresent)
    (failAt : Option Nat) (st : UpdState) :
    (runBody phases failAt st).1.canvasPresent = st.canvasPresent := by
  unfold runBody
  cases failAt with
  | none => exact runPhases_canvasPresent phases hph st
  | some k =>
    dsimp only
    cases hk : phases[k]? with
    | none => exact runPhases_canvasPresent phases hph st
    | some ph =>
      exact runPhases_canvasPresent _
        (fun q hq => hph q (List.mem_of_mem_take hq)) st

theorem runBodyRef_canvasPresent
    (phases : List (Bool × (UpdState → UpdState)))
    (hph : ∀ ph ∈ phases, ∀ st : UpdState,
      (ph.2 st).canvasPresent = st.canvasPresent)
    (failAt : Option Nat) (st : UpdState) :
    (runBodyRef phases failAt st).1.canvasPresent = st.canvasPresent := by
  unfold runBodyRef
  cases failAt with
  | none => exact runPhases_canvasPresent phases hph st
  | some k =>
    dsimp only
    cases hk : phases[k]? with
    | none => exact runPhases_canvasPresent phases hph st
    | some ph =>
      dsimp only
      cases hb : ph.1 with
      | true =>
        show (runPhases ((phases.drop (k + 1)).filter fun q => !q.1)
            (phRemoveDummies
              { runPhases (phases.take k) st with
                log := (runPhases (phases.take k) st).log ++
                  ["Error updating parameters during code ref update."]
                })).canvasPresent = st.canvasPresent
        rw [runPhases_canvasPresent _
            (fun q hq => hph q
              (List.mem_of_mem_drop (List.mem_of_mem_filter hq))),
          canvasPresent_phRemoveDummies]
        exact runPhases_canvasPresent _
          (fun q hq => hph q (List.mem_of_mem_take hq)) st
      | false =>
        exact runPhases_canvasPresent _
          (fun q hq => hph q (List.mem_of_mem_take hq)) st

theorem applyCatch_canvasPresent (b : UpdState × Bool × Bool) :
    (applyCatch b).canvasPresent = b.1.canvasPresent := by
  unfold applyCatch
  dsimp only
  split_ifs <;> rfl

theorem applyCatchRef_canvasPresent (b : UpdState × Bool) :
    (applyCatchRef b).canvasPresent = b.1.canvasPresent := by
  unfold applyCatchRef
  dsimp only
  split_ifs <;> rfl

theorem applyFinally_canvasEnabled {st : UpdState}
    (h : st.canvasPresent = true) :
    (applyFinally st).canvasEnabled = true := by
  simp [applyFinally, h]

/-- C2: if the Grasshopper canvas is available when an update
transaction starts, both `_update_script_component_on_ui_thread` and
`_update_script_with_code_ref_on_ui_thread` leave it re-enabled at the
end, whatever the arguments and whether or not an exception interrupts
the body at any phase: the `finally` block always restores
`doc_canvas.Enabled` and schedules a refresh. -/
theorem canvas_reenabled_on_all_paths (st : UpdState)
    (h : st.canvasPresent = true) :
    (∀ (a : UpdateArgs) (failAt : Option Nat),
      (updateScriptUIThread a st failAt).1.canvasEnabled = true) ∧
    (∀ (a : CodeRefArgs) (failAt : Option Nat),
      (updateScriptWithCodeRefUIThread a st failAt).1.canvasEnabled
        = true) := by
  constructor
  · intro a failAt
    refine applyFinally_canvasEnabled ?_
    rw [applyCatch_canvasPresent,
      runBody_canvasPresent _ (updatePhases_canvasPresent a)]
    split_ifs <;> exact h
  · intro a failAt
    refine applyFinally_canvasEnabled ?_
    rw [applyCatchRef_canvasPresent,
      runBodyRef_canvasPresent _ (codeRefPhases_canvasPresent a)]
    split_ifs <;> exact h

/-- Concrete transaction context for the C2 witness: an empty script
component on a live canvas. -/
def wC2State : UpdState :=
  initState
    { guid := 0, code := "", descr := "", nickName := "", inputs := [],
      outputs := [], inputIsPath := false } true

/-- C2, witness: a live canvas, an exception injected at the very first
phase of each transaction, and the canvas still enabled afterwards. -/
theorem canvas_reenabled_on_all_paths_witness :
    wC2State.canvasPresent = true ∧
    (updateScriptUIThread
      { code? := some "x", descr? := none, msg? := none,
        defs? := some [] } wC2State (some 0)).1.canvasEnabled = true ∧
    (updateScriptWithCodeRefUIThread
      { filePath? := none, defs? := none, descr? := none, name? := none,
        force := false } wC2State (some 0)).1.canvasEnabled = true :=
  ⟨rfl, (canvas_reenabled_on_all_paths wC2State rfl).1 _ _,
    (canvas_reenabled_on_all_paths wC2State rfl).2 _ _⟩


/-! ### C5: the default-output synthesis branch is dead code -/

/-- A fresh script component with no parameters at all. -/
def wC5Comp : ScriptComp :=
  { guid := 0, code := "", descr := "", nickName := "", inputs := [],
    outputs := [], inputIsPath := false }

/-- An `update_script` request whose definition list has one input and
no output definition. -/
def wC5Def : ParamDef :=
  { type? := some "input", name? := some "x", nickName? := none,
    typehint? := none, description? := none, access? := none,
    optional? := none }

def wC5Args : UpdateArgs :=
  { code? := none, descr? := none, msg? := none,
    defs? := some [wC5Def] }

/-- The same request through `update_script_with_code_reference`. -/
def wC5RefArgs : CodeRefArgs :=
  { filePath? := none, defs? := some [wC5Def],
    descr? := none, name? := none, force := false }

/-- C5: reconfiguring with a definition list that names no `output`
parameter is reported as a success, yet the final output-parameter set
of the component is empty — no parameter named `output` is synthesized.
The check at lines 628-634 (and 900-906) runs while the placeholder
output `__dummy_out__` (`__dummy_out_ref__`) is still registered, and
its condition also demands that the placeholder's name be absent, so
the synthesis branch can never execute. -/
theorem default_output_not_synthesized :
    ((updateScriptUIThread wC5Args (initState wC5Comp true) none).2
        = true ∧
      (updateScriptUIThread wC5Args
        (initState wC5Comp true) none).1.paramsUpdated = true ∧
      (updateScriptUIThread wC5Args
        (initState wC5Comp true) none).1.comp.outputs = []) ∧
    ((updateScriptWithCodeRefUIThread wC5RefArgs
        (initState wC5Comp true) none).2 = true ∧
      (updateScriptWithCodeRefUIThread wC5RefArgs
        (initState wC5Comp true) none).1.comp.outputs = []) := by
  decide

/-! ### C6: which definitions the code-reference update skips -/

/-- A component whose only input is the host-managed `code` parameter
(guid 4). -/
def wC6CodeParam : GHParam :=
  { guid := 4, name := "code", nickName := "code", descr := "",
    access := "list", optional := false,
    typeTag := "Param_ScriptVariable", sources := [], recipients := [] }

def wC6Comp : ScriptComp :=
  { guid := 0, code := "", descr := "", nickName := "",
    inputs := [wC6CodeParam], outputs := [], inputIsPath := true }

/-- A definition whose `name` is `code` but whose `nickName` is `x`. -/
def wC6Def : ParamDef :=
  { type? := some "input", name? := some "code", nickName? := some "x",
    typehint? := none, description? := none, access? := none,
    optional? := none }

def wC6Args : CodeRefArgs :=
  { filePath? := none, defs? := some [wC6Def], descr? := none,
    name? := none, force := false }

/-- C6, counterexample: the skip test at line 886 reads
`p_def.get("nickName", p_def.get("name", "")).lower()`, so a supplied
definition whose *name* is `code` but whose nickname is `x` is NOT
skipped: a second parameter named `code` (nickname `x`) is created
alongside the preserved host `code` parameter, refuting the claim that
every definition whose nickname or name equals `code` is skipped. -/
theorem code_def_name_not_skipped_cex :
    defCodeId wC6Def ≠ "code" ∧
    (updateScriptWithCodeRefUIThread wC6Args
      (initState wC6Comp true) none).2 = true ∧
    ((updateScriptWithCodeRefUIThread wC6Args
      (initState wC6Comp true) none).1.comp.inputs.map
        fun p => (p.name, p.nickName))
      = [("code", "code"), ("code", "x")] := by
  decide


/-! ### Shared infrastructure for the reconfiguration theorems -/

theorem alookup_append (k : α) (l1 l2 : List (α × β)) :
    alookup k (l1 ++ l2) = match alookup k l1 with
      | some v => some v
      | none => alookup k l2 := by
  induction l1 with
  | nil => rfl
  | cons p l ih =>
    obtain ⟨a, b⟩ := p
    by_cases h : a = k <;> simp [alookup, h, ih]

theorem alookup_dictSet_self (m : List (α × β)) (k : α) (v : β) :
    alookup k (dictSet m k v) = some v := by
  unfold dictSet
  split_ifs with h
  · rw [alookup_dictUpd_self]
    cases hh : alookup k m with
    | none => rw [hh] at h; simp at h
    | some w => simp
  · have hm : alookup k m = none := by
      cases hh : alookup k m with
      | none => rfl
      | some w => rw [hh] at h; simp at h
    rw [alookup_append, hm]
    simp [alookup]

theorem alookup_dictSet_ne (m : List (α × β)) {k t : α} (v : β)
    (h : k ≠ t) : alookup t (dictSet m k v) = alookup t m := by
  unfold dictSet
  split_ifs with hs
  · exact alookup_dictUpd_ne m v h
  · rw [alookup_append]
    cases hh : alookup t m with
    | none => simp [alookup, h]
    | some w => rfl

theorem mem_dictSet_val {m : List (α × β)} {k : α} {v : β}
    {e : α × β} (he : e ∈ dictSet m k v) : e ∈ m ∨ e.2 = v := by
  unfold dictSet at he
  split_ifs at he with hs
  · unfold dictUpd at he
    obtain ⟨e0, he0, hfe⟩ := List.mem_map.mp he
    by_cases h0 : e0.1 = k
    · rw [if_pos h0] at hfe
      right
      rw [← hfe]
    · rw [if_neg h0] at hfe
      left
      rw [← hfe]
      exact he0
  · rcases List.mem_append.mp he with hm | hm
    · exact Or.inl hm
    · right
      simp at hm
      rw [hm]

theorem projPreserved_foldl {γ δ : Type} (g : UpdState → γ)
    (f : UpdState → δ → UpdState)
    (hf : ∀ (st : UpdState) (b : δ), g (f st b) = g st) :
    ∀ (l : List δ) (st : UpdState), g (l.foldl f st) = g st := by
  intro l
  induction l with
  | nil => intro st; rfl
  | cons b l ih => intro st; rw [List.foldl_cons, ih, hf]

theorem foldl_invariant_mem {γ : Type} {P : UpdState → Prop}
    (f : UpdState → γ → UpdState) :
    ∀ (l : List γ) (st : UpdState),
      (∀ b ∈ l, ∀ st' : UpdState, P st' → P (f st' b)) →
      P st → P (l.foldl f st) := by
  intro l
  induction l with
  | nil => intro st _ h; exact h
  | cons b l ih =>
    intro st hf h
    rw [List.foldl_cons]
    exact ih (f st b) (fun b' hb' => hf b' (List.mem_cons_of_mem b hb'))
      (hf b (List.mem_cons_self b l) st h)

theorem le_foldl_max_init : ∀ (l : List Nat) (a : Nat), a ≤ l.foldl max a := by
  intro l
  induction l with
  | nil => intro a; exact Nat.le_refl a
  | cons x l ih =>
    intro a
    rw [List.foldl_cons]
    exact Nat.le_trans (Nat.le_max_left a x) (ih (max a x))

theorem le_foldl_max {l : List Nat} {x : Nat} (hx : x ∈ l) (a : Nat) :
    x ≤ l.foldl max a := by
  induction l generalizing a with
  | nil => simp at hx
  | cons y l ih =>
    rw [List.foldl_cons]
    rcases List.mem_cons.mp hx with rfl | hm
    · exact Nat.le_trans (Nat.le_max_right a x) (le_foldl_max_init l (max a x))
    · exact ih hm (max a y)

theorem input_guid_le_maxGuid {c : ScriptComp} {p : GHParam}
    (hp : p ∈ c.inputs) : p.guid ≤ maxGuid c :=
  le_foldl_max
    (List.mem_append_left _ (List.mem_map_of_mem GHParam.guid hp)) c.guid

theorem output_guid_le_maxGuid {c : ScriptComp} {p : GHParam}
    (hp : p ∈ c.outputs) : p.guid ≤ maxGuid c :=
  le_foldl_max
    (List.mem_append_right _ (List.mem_map_of_mem GHParam.guid hp)) c.guid


/-- The reconfiguration-stable signature of a parameter: instance guid,
name and nickname (everything but the wiring). -/
def paramSig (p : GHParam) : Nat × String × String :=
  (p.guid, p.name, p.nickName)

/-- What the restoration step may not change: the input signatures and
the whole output list. -/
def compSig (st : UpdState) : List (Nat × String × String) × List GHParam :=
  (st.comp.inputs.map paramSig, st.comp.outputs)

theorem paramSig_addSourceToParam (c : ScriptComp) (g : Nat)
    (src : PeerRef Nat) :
    (addSourceToParam c g src).inputs.map paramSig
        = c.inputs.map paramSig ∧
      (addSourceToParam c g src).outputs = c.outputs := by
  constructor
  · show (c.inputs.map _).map paramSig = c.inputs.map paramSig
    rw [List.map_map]
    refine List.map_congr_left fun p _ => ?_
    show paramSig (if p.guid = g then _ else p) = paramSig p
    split_ifs <;> rfl
  · rfl

theorem compSig_restoreInputEntry (st : UpdState) (e : String × Nat) :
    compSig (restoreInputEntry st e) = compSig st := by
  unfold restoreInputEntry
  cases alookup e.1 st.oldIn with
  | none => rfl
  | some srcs =>
    refine projPreserved_foldl compSig _ (fun st' src => ?_) srcs st
    split_ifs with h
    · show compSig { st' with comp := addSourceToParam st'.comp e.2 src }
        = compSig st'
      unfold compSig
      rw [Prod.mk.injEq]
      exact ⟨(paramSig_addSourceToParam st'.comp e.2 src).1,
        (paramSig_addSourceToParam st'.comp e.2 src).2⟩
    · rfl

theorem comp_restoreOutputEntry (st : UpdState) (e : String × Nat) :
    (restoreOutputEntry st e).comp = st.comp := by
  unfold restoreOutputEntry
  cases alookup e.1 st.oldOut with
  | none => rfl
  | some recs =>
    refine projPreserved_foldl UpdState.comp _ (fun st' r => ?_) recs st
    split_ifs <;> rfl

theorem oldIn_restoreInputEntry (st : UpdState) (e : String × Nat) :
    (restoreInputEntry st e).oldIn = st.oldIn := by
  unfold restoreInputEntry
  cases alookup e.1 st.oldIn with
  | none => rfl
  | some srcs =>
    refine projPreserved_foldl UpdState.oldIn _ (fun st' src => ?_) srcs st
    split_ifs <;> rfl

theorem compSig_phRestore (st : UpdState) :
    compSig (phRestore st) = compSig st := by
  unfold phRestore
  dsimp only
  split_ifs with h
  · rw [projPreserved_foldl compSig restoreOutputEntry
      (fun st' e => by rw [compSig, comp_restoreOutputEntry]; rfl)]
    exact projPreserved_foldl compSig restoreInputEntry
      compSig_restoreInputEntry st.newIn st
  · rfl

/-- Transporting an existential over the inputs through one
`AddSource` call: any property stable under appending a source
survives. -/
theorem addSourceToParam_transport {c : ScriptComp} {Q : GHParam → Prop}
    (hQ : ∀ (p : GHParam) (src : PeerRef Nat), Q p →
      Q { p with sources := p.sources ++ [src] })
    (h : ∃ p ∈ c.inputs, Q p) (g : Nat) (src : PeerRef Nat) :
    ∃ p ∈ (addSourceToParam c g src).inputs, Q p := by
  obtain ⟨p, hp, hQp⟩ := h
  refine ⟨if p.guid = g then { p with sources := p.sources ++ [src] }
    else p, ?_, ?_⟩
  · have : (fun q : GHParam => if q.guid = g then
        { q with sources := q.sources ++ [src] } else q) p
        ∈ (addSourceToParam c g src).inputs :=
      List.mem_map_of_mem _ hp
    simpa using this
  · split_ifs with hg
    · exact hQ p src hQp
    · exact hQp

/-- The `AddSource` call aimed at guid `g` actually records the source
on the parameter with that guid. -/
theorem addSourceToParam_hit {c : ScriptComp} {g : Nat} {K : String}
    (h : ∃ p ∈ c.inputs, p.guid = g ∧ effKey p = K)
    (src : PeerRef Nat) :
    ∃ p ∈ (addSourceToParam c g src).inputs,
      p.guid = g ∧ effKey p = K ∧ src ∈ p.sources := by
  obtain ⟨p, hp, hg, hK⟩ := h
  refine ⟨{ p with sources := p.sources ++ [src] }, ?_, hg, ?_, ?_⟩
  · have hmem : (fun q : GHParam => if q.guid = g then
        { q with sources := q.sources ++ [src] } else q) p
        ∈ (addSourceToParam c g src).inputs :=
      List.mem_map_of_mem _ hp
    dsimp only at hmem
    rw [if_pos hg] at hmem
    exact hmem
  · rw [← hK]; rfl
  · exact List.mem_append_right _ (List.mem_singleton.mpr rfl)

theorem restoreInputEntry_transport {st : UpdState} {Q : GHParam → Prop}
    (hQ : ∀ (p : GHParam) (src : PeerRef Nat), Q p →
      Q { p with sources := p.sources ++ [src] })
    (h : ∃ p ∈ st.comp.inputs, Q p) (e : String × Nat) :
    ∃ p ∈ (restoreInputEntry st e).comp.inputs, Q p := by
  unfold restoreInputEntry
  cases alookup e.1 st.oldIn with
  | none => exact h
  | some srcs =>
    refine foldl_invariant_mem
      (P := fun st' => ∃ p ∈ st'.comp.inputs, Q p) _ srcs st
      (fun src _ st' hP => ?_) h
    split_ifs with hv
    · exact addSourceToParam_transport hQ hP e.2 src
    · exact hP

theorem phRestore_transport {st : UpdState} {Q : GHParam → Prop}
    (hQ : ∀ (p : GHParam) (src : PeerRef Nat), Q p →
      Q { p with sources := p.sources ++ [src] })
    (h : ∃ p ∈ st.comp.inputs, Q p) :
    ∃ p ∈ (phRestore st).comp.inputs, Q p := by
  unfold phRestore
  dsimp only
  split_ifs with hb
  · refine foldl_invariant_mem
      (P := fun st' => ∃ p ∈ st'.comp.inputs, Q p) _ _ _
      (fun e _ st' hP => ?_) ?_
    · show ∃ p ∈ (restoreOutputEntry st' e).comp.inputs, Q p
      rw [show (restoreOutputEntry st' e).comp.inputs = st'.comp.inputs
        from congrArg ScriptComp.inputs (comp_restoreOutputEntry st' e)]
      exact hP
    · exact foldl_invariant_mem
        (P := fun st' => ∃ p ∈ st'.comp.inputs, Q p) _ st.newIn st
        (fun e _ st' hP => restoreInputEntry_transport hQ hP e) h
  · exact h


theorem mem_addSourceToParam {c : ScriptComp} {p : GHParam}
    (hp : p ∈ c.inputs) {g : Nat} (hne : p.guid ≠ g)
    (src : PeerRef Nat) : p ∈ (addSourceToParam c g src).inputs := by
  have hmem : (fun q : GHParam => if q.guid = g then
      { q with sources := q.sources ++ [src] } else q) p
      ∈ (addSourceToParam c g src).inputs :=
    List.mem_map_of_mem _ hp
  dsimp only at hmem
  rw [if_neg hne] at hmem
  exact hmem

theorem mem_restoreInputEntry {st : UpdState} {p : GHParam}
    {e : String × Nat} (hp : p ∈ st.comp.inputs)
    (hne : p.guid ≠ e.2) : p ∈ (restoreInputEntry st e).comp.inputs := by
  unfold restoreInputEntry
  cases alookup e.1 st.oldIn with
  | none => exact hp
  | some srcs =>
    refine foldl_invariant_mem
      (P := fun st' => p ∈ st'.comp.inputs) _ srcs st
      (fun src _ st' hP => ?_) hp
    split_ifs with hv
    · exact mem_addSourceToParam hP hne src
    · exact hP

theorem mem_phRestore {st : UpdState} {p : GHParam}
    (hp : p ∈ st.comp.inputs)
    (hne : ∀ e ∈ st.newIn, p.guid ≠ e.2) :
    p ∈ (phRestore st).comp.inputs := by
  unfold phRestore
  dsimp only
  split_ifs with hb
  · refine foldl_invariant_mem
      (P := fun st' => p ∈ st'.comp.inputs) _ _ _
      (fun e _ st' hP => ?_) ?_
    · show p ∈ (restoreOutputEntry st' e).comp.inputs
      rw [show (restoreOutputEntry st' e).comp.inputs = st'.comp.inputs
        from congrArg ScriptComp.inputs (comp_restoreOutputEntry st' e)]
      exact hP
    · exact foldl_invariant_mem
        (P := fun st' => p ∈ st'.comp.inputs) _ st.newIn st
        (fun e he st' hP => mem_restoreInputEntry hP (hne e he)) hp
  · exact hp

/-! ### The parameters built by `create_gh_input_param` and friends -/

/-- The `Name` a created input parameter carries. -/
def createdName (d : ParamDef) : String := d.name?.getD "input"

/-- The `NickName` a created input parameter carries. -/
def createdNick (d : ParamDef) : String :=
  if d.nickName?.getD (d.name?.getD "input") = "" then d.name?.getD "input"
  else d.nickName?.getD (d.name?.getD "input")

def createdInputSig (d : ParamDef) : String × String :=
  (createdName d, createdNick d)

theorem create_input_guid (d : ParamDef) (g : Nat) (s : String) :
    (create_gh_input_param d g s).guid = g := rfl

theorem create_input_name (d : ParamDef) (g : Nat) (s : String) :
    (create_gh_input_param d g s).name = createdName d := rfl

theorem create_input_nickName (d : ParamDef) (g : Nat) (s : String) :
    (create_gh_input_param d g s).nickName = createdNick d := rfl

theorem effKey_create_input (d : ParamDef) (g : Nat) (s : String) :
    effKey (create_gh_input_param d g s) = createdNick d := by
  unfold effKey create_gh_input_param createdNick
  dsimp only
  split_ifs <;> simp_all [createdName]

/-- The placeholder parameters of the dummy strategy. -/
def dummyInParam (nm : String) (g : Nat) : GHParam :=
  { guid := g, name := nm, nickName := nm, descr := "Temp",
    access := "list", optional := true, typeTag := "Param_GenericObject",
    sources := [], recipients := [] }

def dummyOutParam (nm : String) (g : Nat) : GHParam :=
  { guid := g, name := nm, nickName := nm, descr := "Temp",
    access := "list", optional := false,
    typeTag := "Param_GenericObject", sources := [], recipients := [] }

theorem effKey_dummyOutParam (nm : String) (h : nm ≠ "") (g : Nat) :
    effKey (dummyOutParam nm g) = nm := by
  unfold effKey dummyOutParam
  dsimp only
  rw [if_neg h]

theorem phRegisterDummies_eq (nmIn nmOut : String) (hIn : nmIn ≠ "")
    (hOut : nmOut ≠ "") (st : UpdState) :
    phRegisterDummies nmIn nmOut st = { st with
      comp := { st.comp with
        inputs := st.comp.inputs ++ [dummyInParam nmIn st.freshCounter],
        outputs := st.comp.outputs ++
          [dummyOutParam nmOut (st.freshCounter + 1)] },
      dummyInGuid := some st.freshCounter,
      dummyOutGuid := some (st.freshCounter + 1),
      freshCounter := st.freshCounter + 2 } := by
  unfold phRegisterDummies create_gh_input_param create_gh_output_param
    dummyInParam dummyOutParam
  simp only [Option.getD_some]
  rw [if_neg hIn, if_neg hOut]
  rfl

theorem phEnsureDefaultOutput_noop (n : String) (st : UpdState)
    (h : n ∈ st.comp.outputs.map effKey) :
    phEnsureDefaultOutput n st = st := by
  unfold phEnsureDefaultOutput
  dsimp only
  rw [if_neg fun hc => hc.2 h]

/-! ### Install-step equations -/

theorem installDef_input {d : ParamDef}
    (h : lowerStr (d.type?.getD "") = "input") (st : UpdState) :
    installDef st d = { st with
      comp := { st.comp with inputs := st.comp.inputs ++
        [create_gh_input_param d st.freshCounter
          "Dynamically added parameter"] },
      newIn := dictSet st.newIn
        (effKey (create_gh_input_param d st.freshCounter
          "Dynamically added parameter")) st.freshCounter,
      freshCounter := st.freshCounter + 1 } := by
  unfold installDef
  dsimp only
  rw [if_pos h]

theorem installDef_output {d : ParamDef}
    (h1 : ¬ lowerStr (d.type?.getD "") = "input")
    (h2 : lowerStr (d.type?.getD "") = "output") (st : UpdState) :
    installDef st d = { st with
      comp := { st.comp with outputs := st.comp.outputs ++
        [create_gh_output_param d st.freshCounter
          "Dynamically added parameter"] },
      newOut := dictSet st.newOut
        (effKey (create_gh_output_param d st.freshCounter
          "Dynamically added parameter")) st.freshCounter,
      freshCounter := st.freshCounter + 1 } := by
  unfold installDef
  dsimp only
  rw [if_neg h1, if_pos h2]

theorem installDef_skip {d : ParamDef}
    (h1 : ¬ lowerStr (d.type?.getD "") = "input")
    (h2 : ¬ lowerStr (d.type?.getD "") = "output") (st : UpdState) :
    installDef st d = st := by
  unfold installDef
  dsimp only
  rw [if_neg h1, if_neg h2]

theorem installDefRef_code {d : ParamDef} (h : defCodeId d = "code")
    (st : UpdState) :
    installDefRef st d = { st with log := st.log ++
      ["Skipped adding explicit code param from definition."] } := by
  unfold installDefRef
  rw [if_pos h]

theorem installDefRef_not_code {d : ParamDef}
    (h : ¬ defCodeId d = "code") (st : UpdState) :
    installDefRef st d = installDef st d := by
  unfold installDefRef
  rw [if_neg h]

/-! ### Frame lemmas for the tail phases -/

theorem phSetCode_comp (c? : Option String) (st : UpdState) :
    (phSetCode c? st).comp.inputs = st.comp.inputs ∧
    (phSetCode c? st).comp.outputs = st.comp.outputs := by
  unfold phSetCode
  cases c? <;> exact ⟨rfl, rfl⟩

theorem phSetDescription_comp (d? : Option String) (st : UpdState) :
    (phSetDescription d? st).comp.inputs = st.comp.inputs ∧
    (phSetDescription d? st).comp.outputs = st.comp.outputs := by
  unfold phSetDescription
  cases d? <;> exact ⟨rfl, rfl⟩

theorem phSetName_comp (n? : Option String) (st : UpdState) :
    (phSetName n? st).comp.inputs = st.comp.inputs ∧
    (phSetName n? st).comp.outputs = st.comp.outputs := by
  unfold phSetName
  cases n? <;> exact ⟨rfl, rfl⟩

theorem phSetMessage_comp (m? : Option String) (st : UpdState) :
    (phSetMessage m? st).comp.inputs = st.comp.inputs ∧
    (phSetMessage m? st).comp.outputs = st.comp.outputs := by
  unfold phSetMessage
  cases m? with
  | none => exact ⟨rfl, rfl⟩
  | some msg =>
    cases st.comp.outputs.find? fun p => effKey p = "output" with
    | none => exact ⟨rfl, rfl⟩
    | some p => exact ⟨rfl, rfl⟩

theorem phSetFilePath_comp (fp? : Option String) (st : UpdState) :
    (phSetFilePath fp? st).comp.inputs = st.comp.inputs ∧
    (phSetFilePath fp? st).comp.outputs = st.comp.outputs := by
  unfold phSetFilePath
  cases fp? with
  | none => exact ⟨rfl, rfl⟩
  | some fp =>
    cases st.comp.inputs.find? fun p => lowerStr (effKey p) = "code" with
    | none => exact ⟨rfl, rfl⟩
    | some cp =>
      dsimp only
      split_ifs <;> exact ⟨rfl, rfl⟩


/-- The definitions from which the code-reference install loop
actually creates an input: `input`-typed and not identified as `code`
by `p_def.get("nickName", p_def.get("name", "")).lower()`. -/
def keptInputDef (d : ParamDef) : Bool :=
  decide (lowerStr (d.type?.getD "") = "input" ∧ ¬ defCodeId d = "code")

theorem create_output_guid (d : ParamDef) (g : Nat) (s : String) :
    (create_gh_output_param d g s).guid = g := rfl

theorem phInstallRef_shape (defs : List ParamDef) :
    ∀ st : UpdState,
      ∃ addIn addOut : List GHParam,
        (phInstallRef defs st).comp.inputs = st.comp.inputs ++ addIn ∧
        (phInstallRef defs st).comp.outputs
          = st.comp.outputs ++ addOut ∧
        addIn.map (fun p => (p.name, p.nickName))
          = (defs.filter keptInputDef).map createdInputSig ∧
        (∀ p ∈ addIn, st.freshCounter ≤ p.guid) ∧
        (∀ p ∈ addOut, st.freshCounter ≤ p.guid) ∧
        st.freshCounter ≤ (phInstallRef defs st).freshCounter ∧
        (phInstallRef defs st).dummyInGuid = st.dummyInGuid ∧
        (phInstallRef defs st).dummyOutGuid = st.dummyOutGuid ∧
        (∀ e ∈ (phInstallRef defs st).newIn,
          e ∈ st.newIn ∨ st.freshCounter ≤ e.2) := by
  induction defs with
  | nil =>
    intro st
    refine ⟨[], [], (List.append_nil _).symm, (List.append_nil _).symm,
      rfl, ?_, ?_, Nat.le_refl _, rfl, rfl, fun e he => Or.inl he⟩
    · intro p hp; exact absurd hp (List.not_mem_nil p)
    · intro p hp; exact absurd hp (List.not_mem_nil p)
  | cons d ds ih =>
    intro st
    have hcons : phInstallRef (d :: ds) st
        = phInstallRef ds (installDefRef st d) := rfl
    by_cases hcode : defCodeId d = "code"
    · rw [hcons, installDefRef_code hcode]
      obtain ⟨addIn, addOut, h1, h2, h3, h4, h5, h6, h7, h8, h9⟩ :=
        ih { st with log := st.log ++
          ["Skipped adding explicit code param from definition."] }
      have hk : keptInputDef d = false := by simp [keptInputDef, hcode]
      refine ⟨addIn, addOut, h1, h2, ?_, h4, h5, h6, h7, h8, h9⟩
      rw [h3]
      rw [show (d :: ds).filter keptInputDef = ds.filter keptInputDef
        from by simp [List.filter_cons, hk]]
    · rw [hcons, installDefRef_not_code hcode]
      by_cases hin : lowerStr (d.type?.getD "") = "input"
      · rw [installDef_input hin]
        obtain ⟨addIn, addOut, h1, h2, h3, h4, h5, h6, h7, h8, h9⟩ :=
          ih { st with
            comp := { st.comp with inputs := st.comp.inputs ++
              [create_gh_input_param d st.freshCounter
                "Dynamically added parameter"] },
            newIn := dictSet st.newIn
              (effKey (create_gh_input_param d st.freshCounter
                "Dynamically added parameter")) st.freshCounter,
            freshCounter := st.freshCounter + 1 }
        have hk : keptInputDef d = true := by
          simp [keptInputDef, hin, hcode]
        refine ⟨create_gh_input_param d st.freshCounter
          "Dynamically added parameter" :: addIn, addOut, ?_, h2, ?_,
          ?_, ?_, Nat.le_trans (Nat.le_succ _) h6, h7, h8, ?_⟩
        · rw [h1]
          show (st.comp.inputs ++ [_]) ++ addIn = _
          rw [List.append_assoc]
          rfl
        · rw [List.map_cons, h3,
            show (d :: ds).filter keptInputDef
              = d :: ds.filter keptInputDef
            from by simp [List.filter_cons, hk],
            List.map_cons, create_input_name, create_input_nickName]
          rfl
        · intro q hq
          rcases List.mem_cons.mp hq with rfl | hm
          · exact Nat.le_of_eq (create_input_guid _ _ _).symm
          · exact Nat.le_trans (Nat.le_succ _) (h4 q hm)
        · intro q hq
          exact Nat.le_trans (Nat.le_succ _) (h5 q hq)
        · intro e he
          rcases h9 e he with hm | hle
          · rcases mem_dictSet_val hm with hm' | hv
            · exact Or.inl hm'
            · exact Or.inr (Nat.le_of_eq hv.symm)
          · exact Or.inr (Nat.le_trans (Nat.le_succ _) hle)
      · by_cases hout : lowerStr (d.type?.getD "") = "output"
        · rw [installDef_output hin hout]
          obtain ⟨addIn, addOut, h1, h2, h3, h4, h5, h6, h7, h8, h9⟩ :=
            ih { st with
              comp := { st.comp with outputs := st.comp.outputs ++
                [create_gh_output_param d st.freshCounter
                  "Dynamically added parameter"] },
              newOut := dictSet st.newOut
                (effKey (create_gh_output_param d st.freshCounter
                  "Dynamically added parameter")) st.freshCounter,
              freshCounter := st.freshCounter + 1 }
          have hk : keptInputDef d = false := by
            simp [keptInputDef, hin]
          refine ⟨addIn, create_gh_output_param d st.freshCounter
            "Dynamically added parameter" :: addOut, h1, ?_, ?_, ?_, ?_,
            Nat.le_trans (Nat.le_succ _) h6, h7, h8, ?_⟩
          · rw [h2]
            show (st.comp.outputs ++ [_]) ++ addOut = _
            rw [List.append_assoc]
            rfl
          · rw [h3]
            rw [show (d :: ds).filter keptInputDef = ds.filter keptInputDef
              from by simp [List.filter_cons, hk]]
          · intro q hq
            exact Nat.le_trans (Nat.le_succ _) (h4 q hq)
          · intro q hq
            rcases List.mem_cons.mp hq with rfl | hm
            · exact Nat.le_of_eq (create_output_guid _ _ _).symm
            · exact Nat.le_trans (Nat.le_succ _) (h5 q hm)
          · intro e he
            rcases h9 e he with hm | hle
            · exact Or.inl hm
            · exact Or.inr (Nat.le_trans (Nat.le_succ _) hle)
        · rw [installDef_skip hin hout]
          obtain ⟨addIn, addOut, h1, h2, h3, h4, h5, h6, h7, h8, h9⟩ :=
            ih st
          have hk : keptInputDef d = false := by
            simp [keptInputDef, hin]
          refine ⟨addIn, addOut, h1, h2, ?_, h4, h5, h6, h7, h8, h9⟩
          rw [h3]
          rw [show (d :: ds).filter keptInputDef = ds.filter keptInputDef
            from by simp [List.filter_cons, hk]]


theorem phEnsureRefMode_frame (a : CodeRefArgs) (st : UpdState)
    (h : (st.comp.inputs.find? fun p =>
      lowerStr (effKey p) = "code").isSome = true) :
    (phEnsureRefMode a st).comp.inputs = st.comp.inputs ∧
    (phEnsureRefMode a st).comp.outputs = st.comp.outputs ∧
    (phEnsureRefMode a st).freshCounter = st.freshCounter ∧
    (phEnsureRefMode a st).dummyInGuid = st.dummyInGuid ∧
    (phEnsureRefMode a st).dummyOutGuid = st.dummyOutGuid ∧
    (phEnsureRefMode a st).newIn = st.newIn := by
  unfold phEnsureRefMode
  dsimp only
  split_ifs <;>
    first
      | exact ⟨rfl, rfl, rfl, rfl, rfl, rfl⟩
      | (exfalso; simp_all)

theorem applyFinally_comp (st : UpdState) :
    (applyFinally st).comp = st.comp := by
  unfold applyFinally
  dsimp only
  split_ifs <;> rfl

/-- With no injected exception, the code-reference driver reports
success and its final component is the one the phase pipeline
produces, starting from a context carrying the same component,
fresh counter and recorded connection sets. -/
theorem updateRef_none (a : CodeRefArgs) (st0 : UpdState) :
    (updateScriptWithCodeRefUIThread a st0 none).2 = true ∧
    ∃ st2 : UpdState,
      (updateScriptWithCodeRefUIThread a st0 none).1.comp
        = (runPhases (codeRefPhases a) st2).comp ∧
      st2.comp = st0.comp ∧ st2.freshCounter = st0.freshCounter ∧
      st2.newIn = st0.newIn ∧
      st2.oldIn = (recordConnections st0.comp).1 ∧
      st2.paramsUpdated = st0.paramsUpdated := by
  constructor
  · rfl
  · unfold updateScriptWithCodeRefUIThread
    dsimp only
    split_ifs with h
    · exact ⟨_, applyFinally_comp _, rfl, rfl, rfl, rfl, rfl⟩
    · exact ⟨_, applyFinally_comp _, rfl, rfl, rfl, rfl, rfl⟩

/-- The same for `_update_script_component_on_ui_thread`. -/
theorem updateScript_none (a : UpdateArgs) (st0 : UpdState) :
    (updateScriptUIThread a st0 none).2 = true ∧
    ∃ st2 : UpdState,
      (updateScriptUIThread a st0 none).1.comp
        = (runPhases (updatePhases a) st2).comp ∧
      st2.comp = st0.comp ∧ st2.freshCounter = st0.freshCounter ∧
      st2.newIn = st0.newIn ∧
      st2.oldIn = (recordConnections st0.comp).1 ∧
      st2.paramsUpdated = st0.paramsUpdated := by
  constructor
  · rfl
  · unfold updateScriptUIThread
    dsimp only
    split_ifs with h
    · exact ⟨_, applyFinally_comp _, rfl, rfl, rfl, rfl, rfl⟩
    · exact ⟨_, applyFinally_comp _, rfl, rfl, rfl, rfl, rfl⟩


theorem find?_append_none {p : α → Bool} {l1 : List α}
    (h : ∀ x ∈ l1, ¬ p x = true) (l2 : List α) :
    (l1 ++ l2).find? p = l2.find? p := by
  induction l1 with
  | nil => rfl
  | cons x l ih =>
    rw [List.cons_append, List.find?_cons_of_neg _
      (h x (List.mem_cons_self x l))]
    exact ih fun y hy => h y (List.mem_cons_of_mem x hy)

/-- C6 (amended): in the file-reference update with `param_definitions`
supplied, a supplied definition is skipped exactly when its *nickname,
falling back to its name* (not: nickname or name) lowercases to
`code`; the first input whose effective key lowercases to `code`
survives as the first input, unchanged; every other pre-existing input
and every pre-existing output is removed. -/
theorem code_ref_param_update_spec
    (a : CodeRefArgs) (defs : List ParamDef) (ha : a.defs? = some defs)
    (c : ScriptComp) (present : Bool) (l1 l2 : List GHParam)
    (cp : GHParam)
    (hin : c.inputs = l1 ++ cp :: l2)
    (hcp : lowerStr (effKey cp) = "code")
    (hl1 : ∀ q ∈ l1, ¬ lowerStr (effKey q) = "code")
    (hguid : ∀ q ∈ l1 ++ l2, q.guid ≠ cp.guid) :
    (updateScriptWithCodeRefUIThread a (initState c present) none).2
      = true ∧
    cp ∈ (updateScriptWithCodeRefUIThread a
      (initState c present) none).1.comp.inputs ∧
    ((updateScriptWithCodeRefUIThread a
        (initState c present) none).1.comp.inputs.map
      fun p => (p.name, p.nickName))
      = (cp.name, cp.nickName)
        :: (defs.filter keptInputDef).map createdInputSig ∧
    (∀ q ∈ l1 ++ l2, q.guid ∉ (updateScriptWithCodeRefUIThread a
      (initState c present) none).1.comp.inputs.map GHParam.guid) ∧
    (∀ q ∈ c.outputs, q.guid ∉ (updateScriptWithCodeRefUIThread a
      (initState c present) none).1.comp.outputs.map GHParam.guid) := by
  obtain ⟨hsucc, st2, hcomp, hc2, hf2, hn2, hold2, hpu2⟩ :=
    updateRef_none a (initState c present)
  have hc2' : st2.comp = c := by rw [hc2]; rfl
  have hf2' : st2.freshCounter = maxGuid c + 1 := by rw [hf2]; rfl
  have hn2' : st2.newIn = [] := by rw [hn2]; rfl
  have hcpg : cp.guid ≤ maxGuid c :=
    input_guid_le_maxGuid (c := c)
      (by rw [hin]; exact List.mem_append_right l1 (List.mem_cons_self cp l2))
  have hrun : runPhases (codeRefPhases a) st2
      = phSetFilePath a.filePath?
        (phSetName a.name?
          (phSetDescription a.descr?
            (phRestore
              (phMarkParamsUpdated
                (phRemoveDummies
                  (phEnsureDefaultOutput "__dummy_out_ref__"
                    (phInstallRef defs
                      (phRemoveOldRef
                        (phRegisterDummies "__dummy_in_ref__"
                          "__dummy_out_ref__"
                          (phEnsureRefMode a st2)))))))))) := by
    simp only [codeRefPhases, ha]
    rfl
  have hfind : (st2.comp.inputs.find? fun p =>
      lowerStr (effKey p) = "code").isSome = true := by
    rw [hc2', hin]
    rw [List.find?_isSome]
    exact ⟨cp, List.mem_append_right l1 (List.mem_cons_self cp l2),
      by simp [hcp]⟩
  obtain ⟨e1i, e1o, e1f, e1di, e1do, e1n⟩ := phEnsureRefMode_frame a st2 hfind
  set s1 := phEnsureRefMode a st2 with hs1
  have h1i : s1.comp.inputs = l1 ++ cp :: l2 := by rw [e1i, hc2', hin]
  have h1o : s1.comp.outputs = c.outputs := by rw [e1o, hc2']
  have h1f : s1.freshCounter = maxGuid c + 1 := by rw [e1f, hf2']
  have h1n : s1.newIn = [] := by rw [e1n, hn2']
  have hs2eq := phRegisterDummies_eq "__dummy_in_ref__" "__dummy_out_ref__"
    (by decide) (by decide) s1
  set s2 := phRegisterDummies "__dummy_in_ref__" "__dummy_out_ref__" s1
    with hs2
  have h2i : s2.comp.inputs = (l1 ++ cp :: l2) ++
      [dummyInParam "__dummy_in_ref__" (maxGuid c + 1)] := by
    rw [hs2eq]
    dsimp only
    rw [h1i, h1f]
  have h2o : s2.comp.outputs = c.outputs ++
      [dummyOutParam "__dummy_out_ref__" (maxGuid c + 2)] := by
    rw [hs2eq]
    dsimp only
    rw [h1o, h1f]
  have h2f : s2.freshCounter = maxGuid c + 3 := by
    rw [hs2eq]
    dsimp only
    rw [h1f]
  have h2di : s2.dummyInGuid = some (maxGuid c + 1) := by
    rw [hs2eq]
    dsimp only
    rw [h1f]
  have h2do : s2.dummyOutGuid = some (maxGuid c + 2) := by
    rw [hs2eq]
    dsimp only
    rw [h1f]
  have h2n : s2.newIn = [] := by
    rw [hs2eq]
    dsimp only
    rw [h1n]
  set s3 := phRemoveOldRef s2 with hs3
  have hcg : codeParamGuid s2.comp = some cp.guid := by
    unfold codeParamGuid
    rw [h2i]
    rw [show (l1 ++ cp :: l2) ++
        [dummyInParam "__dummy_in_ref__" (maxGuid c + 1)]
        = l1 ++ (cp :: (l2 ++
          [dummyInParam "__dummy_in_ref__" (maxGuid c + 1)]))
      from by simp]
    rw [find?_append_none (fun x hx => by simpa using hl1 x hx),
      List.find?_cons_of_pos _ (by simp [hcp])]
    rfl
  have h3i : s3.comp.inputs = [cp,
      dummyInParam "__dummy_in_ref__" (maxGuid c + 1)] := by
    rw [hs3]
    unfold phRemoveOldRef
    dsimp only
    rw [hcg, h2di, h2i]
    rw [show (l1 ++ cp :: l2) ++
        [dummyInParam "__dummy_in_ref__" (maxGuid c + 1)]
        = l1 ++ (cp :: (l2 ++
          [dummyInParam "__dummy_in_ref__" (maxGuid c + 1)]))
      from by simp]
    rw [List.filter_append]
    rw [show l1.filter _ = [] from List.filter_eq_nil_iff.mpr ?_]
    · rw [List.filter_cons_of_pos (by simp)]
      rw [List.filter_append]
      rw [show l2.filter _ = [] from List.filter_eq_nil_iff.mpr ?_]
      · simp [dummyInParam]
      · intro q hq
        have hle := input_guid_le_maxGuid (c := c)
          (by rw [hin]
              exact List.mem_append_right l1 (List.mem_cons_of_mem cp hq))
        have hne := hguid q (List.mem_append_right l1 hq)
        simp only [decide_eq_true_eq, Option.some.injEq, not_or]
        exact ⟨by omega, hne⟩
    · intro q hq
      have hle := input_guid_le_maxGuid (c := c)
        (by rw [hin]; exact List.mem_append_left _ hq)
      have hne := hguid q (List.mem_append_left l2 hq)
      simp only [decide_eq_true_eq, Option.some.injEq, not_or]
      exact ⟨by omega, hne⟩
  have h3o : s3.comp.outputs =
      [dummyOutParam "__dummy_out_ref__" (maxGuid c + 2)] := by
    rw [hs3]
    unfold phRemoveOldRef
    dsimp only
    rw [h2do, h2o]
    rw [List.filter_append]
    rw [show c.outputs.filter _ = [] from List.filter_eq_nil_iff.mpr ?_]
    · simp [dummyOutParam]
    · intro q hq
      have hle := output_guid_le_maxGuid hq
      simp only [decide_eq_true_eq, Option.some.injEq]
      omega
  have h3f : s3.freshCounter = maxGuid c + 3 := by
    rw [hs3, show (phRemoveOldRef s2).freshCounter = s2.freshCounter
      from rfl, h2f]
  have h3di : s3.dummyInGuid = some (maxGuid c + 1) := by
    rw [hs3, show (phRemoveOldRef s2).dummyInGuid = s2.dummyInGuid
      from rfl, h2di]
  have h3do : s3.dummyOutGuid = some (maxGuid c + 2) := by
    rw [hs3, show (phRemoveOldRef s2).dummyOutGuid = s2.dummyOutGuid
      from rfl, h2do]
  have h3n : s3.newIn = [] := by
    rw [hs3, show (phRemoveOldRef s2).newIn = s2.newIn from rfl, h2n]
  obtain ⟨addIn, addOut, g1, g2, g3, g4, g5, g6, g7, g8, g9⟩ :=
    phInstallRef_shape defs s3
  set s4 := phInstallRef defs s3 with hs4
  have h4i : s4.comp.inputs = cp ::
      dummyInParam "__dummy_in_ref__" (maxGuid c + 1) :: addIn := by
    rw [g1, h3i]
    rfl
  have h4o : s4.comp.outputs =
      dummyOutParam "__dummy_out_ref__" (maxGuid c + 2) :: addOut := by
    rw [g2, h3o]
    rfl
  have h4inb : ∀ p ∈ addIn, maxGuid c + 3 ≤ p.guid := by
    intro p hp
    have := g4 p hp
    rw [h3f] at this
    exact this
  have h4outb : ∀ p ∈ addOut, maxGuid c + 3 ≤ p.guid := by
    intro p hp
    have := g5 p hp
    rw [h3f] at this
    exact this
  have h4di : s4.dummyInGuid = some (maxGuid c + 1) := by rw [g7, h3di]
  have h4do : s4.dummyOutGuid = some (maxGuid c + 2) := by rw [g8, h3do]
  have h4n : ∀ e ∈ s4.newIn, maxGuid c + 3 ≤ e.2 := by
    intro e he
    rcases g9 e he with hm | hle
    · rw [h3n] at hm
      exact absurd hm (List.not_mem_nil e)
    · rw [h3f] at hle
      exact hle
  have h5eq : phEnsureDefaultOutput "__dummy_out_ref__" s4 = s4 := by
    refine phEnsureDefaultOutput_noop _ _ ?_
    rw [h4o, List.map_cons, effKey_dummyOutParam _ (by decide)]
    exact List.mem_cons_self _ _
  set s6 := phRemoveDummies (phEnsureDefaultOutput "__dummy_out_ref__" s4)
    with hs6
  have h6i : s6.comp.inputs = cp :: addIn := by
    rw [hs6, h5eq]
    unfold phRemoveDummies
    dsimp only
    rw [h4i, h4di]
    rw [List.filter_cons_of_pos
      (by simp only [decide_eq_true_eq, Option.some.injEq]; omega)]
    rw [List.filter_cons_of_neg (by simp [dummyInParam])]
    rw [show addIn.filter _ = addIn from List.filter_eq_self.mpr ?_]
    · intro p hp
      have := h4inb p hp
      simp only [decide_eq_true_eq, Option.some.injEq]
      omega
  have h6o : s6.comp.outputs = addOut := by
    rw [hs6, h5eq]
    unfold phRemoveDummies
    dsimp only
    rw [h4o, h4do]
    rw [List.filter_cons_of_neg (by simp [dummyOutParam])]
    rw [show addOut.filter _ = addOut from List.filter_eq_self.mpr ?_]
    · intro p hp
      have := h4outb p hp
      simp only [decide_eq_true_eq, Option.some.injEq]
      omega
  have h6n : ∀ e ∈ s6.newIn, maxGuid c + 3 ≤ e.2 := by
    intro e he
    refine h4n e ?_
    rw [hs6, h5eq] at he
    exact he
  set s7 := phMarkParamsUpdated s6 with hs7
  have h7i : s7.comp.inputs = cp :: addIn := by
    rw [hs7, show (phMarkParamsUpdated s6).comp = s6.comp from rfl, h6i]
  have h7o : s7.comp.outputs = addOut := by
    rw [hs7, show (phMarkParamsUpdated s6).comp = s6.comp from rfl, h6o]
  have h7n : ∀ e ∈ s7.newIn, maxGuid c + 3 ≤ e.2 := by
    intro e he
    exact h6n e (by rw [hs7, show (phMarkParamsUpdated s6).newIn = s6.newIn
      from rfl] at he; exact he)
  set s8 := phRestore s7 with hs8
  have h8mem : cp ∈ s8.comp.inputs := by
    rw [hs8]
    refine mem_phRestore ?_ ?_
    · rw [h7i]
      exact List.mem_cons_self cp addIn
    · intro e he
      have := h7n e he
      omega
  have h8c := compSig_phRestore s7
  have h8i : s8.comp.inputs.map paramSig = (cp :: addIn).map paramSig := by
    have h := congrArg Prod.fst h8c
    simp only [compSig] at h
    rw [hs8, h, h7i]
  have h8o : s8.comp.outputs = addOut := by
    have h := congrArg Prod.snd h8c
    simp only [compSig] at h
    rw [hs8, h, h7o]
  obtain ⟨e9i, e9o⟩ := phSetDescription_comp a.descr? s8
  set s9 := phSetDescription a.descr? s8 with hs9
  obtain ⟨e10i, e10o⟩ := phSetName_comp a.name? s9
  set s10 := phSetName a.name? s9 with hs10
  obtain ⟨e11i, e11o⟩ := phSetFilePath_comp a.filePath? s10
  set s11 := phSetFilePath a.filePath? s10 with hs11
  rw [hrun] at hcomp
  have hfi : (updateScriptWithCodeRefUIThread a
      (initState c present) none).1.comp.inputs = s8.comp.inputs := by
    rw [show (updateScriptWithCodeRefUIThread a
        (initState c present) none).1.comp.inputs = s11.comp.inputs
      from congrArg ScriptComp.inputs hcomp, e11i, e10i, e9i]
  have hfo : (updateScriptWithCodeRefUIThread a
      (initState c present) none).1.comp.outputs = addOut := by
    rw [show (updateScriptWithCodeRefUIThread a
        (initState c present) none).1.comp.outputs = s11.comp.outputs
      from congrArg ScriptComp.outputs hcomp, e11o, e10o, e9o, h8o]
  have hguidmap : s8.comp.inputs.map GHParam.guid
      = cp.guid :: addIn.map GHParam.guid := by
    have h := congrArg (List.map Prod.fst) h8i
    rw [List.map_map, List.map_map] at h
    exact h
  refine ⟨hsucc, ?_, ?_, ?_, ?_⟩
  · rw [hfi]
    exact h8mem
  · rw [hfi]
    have h := congrArg (List.map Prod.snd) h8i
    rw [List.map_map, List.map_map] at h
    calc s8.comp.inputs.map (fun p => (p.name, p.nickName))
        = (cp :: addIn).map (fun p => (p.name, p.nickName)) := h
      _ = (cp.name, cp.nickName)
          :: (defs.filter keptInputDef).map createdInputSig := by
            rw [List.map_cons, g3]
  · intro q hq
    rw [hfi, hguidmap]
    have hqle : q.guid ≤ maxGuid c := by
      refine input_guid_le_maxGuid (c := c) ?_
      rw [hin]
      rcases List.mem_append.mp hq with h | h
      · exact List.mem_append_left _ h
      · exact List.mem_append_right _ (List.mem_cons_of_mem cp h)
    intro hmem
    rcases List.mem_cons.mp hmem with he | hm
    · exact hguid q hq he
    · obtain ⟨p, hp, hpe⟩ := List.mem_map.mp hm
      have := h4inb p hp
      omega
  · intro q hq
    rw [hfo]
    have hqle : q.guid ≤ maxGuid c := output_guid_le_maxGuid hq
    intro hmem
    obtain ⟨p, hp, hpe⟩ := List.mem_map.mp hmem
    have := h4outb p hp
    omega


/-- An ordinary input definition (name `y`) kept by the install loop. -/
def wC6KeptDef : ParamDef :=
  { type? := some "input", name? := some "y", nickName? := none,
    typehint? := none, description? := none, access? := none,
    optional? := none }

def wC6WArgs : CodeRefArgs :=
  { filePath? := none, defs? := some [wC6KeptDef], descr? := none,
    name? := none, force := false }

/-- C6, witness: on the one-`code`-input component, a definition list
`[y]` leaves the `code` parameter first and untouched and creates
exactly the kept definitions. -/
theorem code_ref_param_update_spec_witness :
    wC6CodeParam ∈ (updateScriptWithCodeRefUIThread wC6WArgs
      (initState wC6Comp true) none).1.comp.inputs ∧
    ((updateScriptWithCodeRefUIThread wC6WArgs
        (initState wC6Comp true) none).1.comp.inputs.map
      fun p => (p.name, p.nickName))
      = (wC6CodeParam.name, wC6CodeParam.nickName)
        :: ([wC6KeptDef].filter keptInputDef).map createdInputSig :=
  ⟨(code_ref_param_update_spec wC6WArgs [wC6KeptDef] rfl wC6Comp true
      [] [] wC6CodeParam rfl (by decide) (by decide) (by decide)).2.1,
    (code_ref_param_update_spec wC6WArgs [wC6KeptDef] rfl wC6Comp true
      [] [] wC6CodeParam rfl (by decide) (by decide) (by decide)).2.2.1⟩


/-! ### The connection-recording dictionary (lines 565-581) -/

theorem recFold_pres {K : String} {v : List (PeerRef Nat)} :
    ∀ (l : List GHParam) (m : List (String × List (PeerRef Nat))),
      (∀ q ∈ l, effKey q = K →
        q.sources.filter (fun s => !s.isNull) = v) →
      alookup K m = some v →
      alookup K (l.foldl
        (fun m p =>
          if effKey p ≠ "" ∧ p.sources ≠ [] then
            dictSet m (effKey p) (p.sources.filter fun s => !s.isNull)
          else m) m) = some v := by
  intro l
  induction l with
  | nil => intro m _ hm; exact hm
  | cons q l ih =>
    intro m hw hm
    rw [List.foldl_cons]
    refine ih _ (fun q' hq' => hw q' (List.mem_cons_of_mem q hq')) ?_
    by_cases hc : effKey q ≠ "" ∧ q.sources ≠ []
    · rw [if_pos hc]
      by_cases hK : effKey q = K
      · rw [hK, hw q (List.mem_cons_self q l) hK]
        exact alookup_dictSet_self _ _ _
      · rw [alookup_dictSet_ne _ _ hK]
        exact hm
    · rw [if_neg hc]
      exact hm

theorem recFold_sets {K : String} {v : List (PeerRef Nat)} :
    ∀ (l : List GHParam) (m : List (String × List (PeerRef Nat))),
      (∃ p ∈ l, effKey p = K ∧ p.sources ≠ [] ∧
        p.sources.filter (fun s => !s.isNull) = v) →
      K ≠ "" →
      (∀ q ∈ l, effKey q = K →
        q.sources.filter (fun s => !s.isNull) = v) →
      alookup K (l.foldl
        (fun m p =>
          if effKey p ≠ "" ∧ p.sources ≠ [] then
            dictSet m (effKey p) (p.sources.filter fun s => !s.isNull)
          else m) m) = some v := by
  intro l
  induction l with
  | nil =>
    rintro m ⟨p, hp, _⟩ _ _
    exact absurd hp (List.not_mem_nil p)
  | cons q l ih =>
    rintro m ⟨p, hp, hpK, hps, hpv⟩ hKne hw
    rw [List.foldl_cons]
    by_cases hqK : effKey q = K
    · by_cases hqs : q.sources ≠ []
      · rw [if_pos ⟨fun h0 => hKne (hqK ▸ h0), hqs⟩, hqK,
          hw q (List.mem_cons_self q l) hqK]
        exact recFold_pres l _
          (fun q' hq' => hw q' (List.mem_cons_of_mem q hq'))
          (alookup_dictSet_self _ _ _)
      · have hp' : p ∈ l := by
          rcases List.mem_cons.mp hp with rfl | h
          · exact absurd hps hqs
          · exact h
        rw [if_neg fun hc => hqs hc.2]
        exact ih m ⟨p, hp', hpK, hps, hpv⟩ hKne
          (fun q' hq' => hw q' (List.mem_cons_of_mem q hq'))
    · have hp' : p ∈ l := by
        rcases List.mem_cons.mp hp with rfl | h
        · exact absurd hpK hqK
        · exact h
      exact ih _ ⟨p, hp', hpK, hps, hpv⟩ hKne
        (fun q' hq' => hw q' (List.mem_cons_of_mem q hq'))

theorem recordConnections_lookup {c : ScriptComp} {p : GHParam}
    (hp : p ∈ c.inputs) (hK : effKey p ≠ "") (hs : p.sources ≠ [])
    (hw : ∀ q ∈ c.inputs, effKey q = effKey p →
      q.sources.filter (fun s => !s.isNull)
        = p.sources.filter (fun s => !s.isNull)) :
    alookup (effKey p) (recordConnections c).1
      = some (p.sources.filter fun s => !s.isNull) :=
  recFold_sets c.inputs [] ⟨p, hp, rfl, hs, rfl⟩ hK hw

/-! ### The plain install loop (lines 617-626) -/

theorem phInstall_frame (defs : List ParamDef) :
    ∀ st : UpdState,
      (phInstall defs st).oldIn = st.oldIn ∧
      (phInstall defs st).dummyInGuid = st.dummyInGuid ∧
      (phInstall defs st).dummyOutGuid = st.dummyOutGuid ∧
      (phInstall defs st).paramsUpdated = st.paramsUpdated ∧
      st.freshCounter ≤ (phInstall defs st).freshCounter ∧
      ∃ addOut : List GHParam,
        (phInstall defs st).comp.outputs = st.comp.outputs ++ addOut := by
  induction defs with
  | nil =>
    intro st
    exact ⟨rfl, rfl, rfl, rfl, Nat.le_refl _,
      [], (List.append_nil _).symm⟩
  | cons d ds ih =>
    intro st
    have hcons : phInstall (d :: ds) st = phInstall ds (installDef st d) :=
      rfl
    rw [hcons]
    by_cases hin : lowerStr (d.type?.getD "") = "input"
    · rw [installDef_input hin]
      obtain ⟨i1, i2, i3, i4, i5, addOut, i6⟩ := ih _
      exact ⟨i1, i2, i3, i4, Nat.le_trans (Nat.le_succ _) i5, addOut, i6⟩
    · by_cases hout : lowerStr (d.type?.getD "") = "output"
      · rw [installDef_output hin hout]
        obtain ⟨i1, i2, i3, i4, i5, addOut, i6⟩ := ih _
        refine ⟨i1, i2, i3, i4, Nat.le_trans (Nat.le_succ _) i5,
          create_gh_output_param d st.freshCounter
            "Dynamically added parameter" :: addOut, ?_⟩
        rw [i6]
        show (st.comp.outputs ++ [_]) ++ addOut = _
        rw [List.append_assoc]
        rfl
      · rw [installDef_skip hin hout]
        exact ih st

theorem phInstall_newIn_lookup (defs1 : List ParamDef) (d : ParamDef)
    (defs2 : List ParamDef)
    (hd : lowerStr (d.type?.getD "") = "input")
    (h2 : ∀ d' ∈ defs2, lowerStr (d'.type?.getD "") = "input" →
      createdNick d' ≠ createdNick d) :
    ∀ st : UpdState,
      ∃ g : Nat, st.freshCounter ≤ g ∧
        alookup (createdNick d)
          (phInstall (defs1 ++ d :: defs2) st).newIn = some g ∧
        ∃ pNew ∈ (phInstall (defs1 ++ d :: defs2) st).comp.inputs,
          pNew.guid = g ∧ effKey pNew = createdNick d := by
  intro st
  have hsplit : phInstall (defs1 ++ d :: defs2) st
      = phInstall defs2 (installDef (phInstall defs1 st) d) := by
    unfold phInstall
    rw [List.foldl_append, List.foldl_cons]
  have hAfresh : st.freshCounter ≤ (phInstall defs1 st).freshCounter :=
    (phInstall_frame defs1 st).2.2.2.2.1
  rw [hsplit]
  refine ⟨(phInstall defs1 st).freshCounter, hAfresh, ?_⟩
  have hinv := foldl_invariant_mem
    (P := fun st' =>
      alookup (createdNick d) st'.newIn
        = some (phInstall defs1 st).freshCounter ∧
      ∃ pNew ∈ st'.comp.inputs,
        pNew.guid = (phInstall defs1 st).freshCounter ∧
        effKey pNew = createdNick d)
    installDef defs2 (installDef (phInstall defs1 st) d) ?_ ?_
  · exact ⟨hinv.1, hinv.2⟩
  · intro d' hd' st' hP
    by_cases hin' : lowerStr (d'.type?.getD "") = "input"
    · rw [installDef_input hin']
      constructor
      · show alookup _ (dictSet st'.newIn _ _) = _
        rw [effKey_create_input,
          alookup_dictSet_ne _ _ (h2 d' hd' hin')]
        exact hP.1
      · obtain ⟨q, hq, hq1, hq2⟩ := hP.2
        exact ⟨q, List.mem_append_left _ hq, hq1, hq2⟩
    · by_cases hout' : lowerStr (d'.type?.getD "") = "output"
      · rw [installDef_output hin' hout']
        exact hP
      · rw [installDef_skip hin' hout']
        exact hP
  · rw [installDef_input hd]
    refine ⟨?_, create_gh_input_param d
      (phInstall defs1 st).freshCounter
      "Dynamically added parameter", ?_, rfl, effKey_create_input _ _ _⟩
    · show alookup _ (dictSet (phInstall defs1 st).newIn _ _) = _
      rw [effKey_create_input]
      exact alookup_dictSet_self _ _ _
    · exact List.mem_append_right _ (List.mem_cons_self _ _)


theorem phEnsureDefaultOutput_frame (n : String) (st : UpdState) :
    (phEnsureDefaultOutput n st).comp.inputs = st.comp.inputs ∧
    (phEnsureDefaultOutput n st).newIn = st.newIn ∧
    (phEnsureDefaultOutput n st).oldIn = st.oldIn ∧
    (phEnsureDefaultOutput n st).dummyInGuid = st.dummyInGuid ∧
    (phEnsureDefaultOutput n st).paramsUpdated = st.paramsUpdated := by
  unfold phEnsureDefaultOutput
  dsimp only
  split_ifs <;> exact ⟨rfl, rfl, rfl, rfl, rfl⟩

/-- Step 2 of the reconfiguration (lines 652-668): when the recorded
old connections hold a valid upstream peer `U` under key `K` and the
new-parameter dictionary maps `K` to the new parameter's guid, the
restoration adds `U` to that parameter's sources. -/
theorem phRestore_adds_source {st : UpdState} {K : String} {g : Nat}
    {U : PeerRef Nat} {srcs : List (PeerRef Nat)}
    (hpu : st.paramsUpdated = true)
    (hmemKg : (K, g) ∈ st.newIn)
    (hold : alookup K st.oldIn = some srcs)
    (hU : U ∈ srcs) (hUval : validPeer U)
    (hmem : ∃ p ∈ st.comp.inputs, p.guid = g ∧ effKey p = K) :
    ∃ p ∈ (phRestore st).comp.inputs,
      p.guid = g ∧ effKey p = K ∧ U ∈ p.sources := by
  have hQ1 : ∀ (p : GHParam) (src : PeerRef Nat),
      (p.guid = g ∧ effKey p = K) →
      (({ p with sources := p.sources ++ [src] } : GHParam).guid = g ∧
        effKey { p with sources := p.sources ++ [src] } = K) := by
    intro p src h
    refine ⟨h.1, ?_⟩
    rw [show effKey { p with sources := p.sources ++ [src] } = effKey p
      from rfl]
    exact h.2
  have hQ2 : ∀ (p : GHParam) (src : PeerRef Nat),
      (p.guid = g ∧ effKey p = K ∧ U ∈ p.sources) →
      (({ p with sources := p.sources ++ [src] } : GHParam).guid = g ∧
        effKey { p with sources := p.sources ++ [src] } = K ∧
        U ∈ ({ p with sources := p.sources ++ [src] } : GHParam).sources)
      := by
    intro p src h
    refine ⟨h.1, ?_, ?_⟩
    · rw [show effKey { p with sources := p.sources ++ [src] } = effKey p
        from rfl]
      exact h.2.1
    · exact List.mem_append_left _ h.2.2
  unfold phRestore
  dsimp only
  rw [if_pos hpu]
  obtain ⟨nl1, nl2, hnl⟩ := List.append_of_mem hmemKg
  rw [hnl, List.foldl_append, List.foldl_cons]
  refine foldl_invariant_mem
    (P := fun st' => ∃ p ∈ st'.comp.inputs,
      p.guid = g ∧ effKey p = K ∧ U ∈ p.sources)
    restoreOutputEntry _ _ (fun e _ st' hP => ?_) ?_
  · show ∃ p ∈ (restoreOutputEntry st' e).comp.inputs, _
    rw [show (restoreOutputEntry st' e).comp.inputs = st'.comp.inputs
      from congrArg ScriptComp.inputs (comp_restoreOutputEntry st' e)]
    exact hP
  · refine foldl_invariant_mem
      (P := fun st' => ∃ p ∈ st'.comp.inputs,
        p.guid = g ∧ effKey p = K ∧ U ∈ p.sources)
      restoreInputEntry nl2 _
      (fun e _ st' hP => restoreInputEntry_transport hQ2 hP e) ?_
    set sA := List.foldl restoreInputEntry st nl1 with hsA
    have holdA : sA.oldIn = st.oldIn := by
      rw [hsA]
      exact projPreserved_foldl UpdState.oldIn restoreInputEntry
        oldIn_restoreInputEntry nl1 st
    have hmemA : ∃ p ∈ sA.comp.inputs, p.guid = g ∧ effKey p = K := by
      rw [hsA]
      exact foldl_invariant_mem
        (P := fun st' => ∃ p ∈ st'.comp.inputs,
          p.guid = g ∧ effKey p = K)
        restoreInputEntry nl1 st
        (fun e _ st' hP => restoreInputEntry_transport hQ1 hP e) hmem
    show ∃ p ∈ (restoreInputEntry sA (K, g)).comp.inputs, _
    unfold restoreInputEntry
    dsimp only
    rw [holdA, hold]
    dsimp only
    obtain ⟨sl1, sl2, hsl⟩ := List.append_of_mem hU
    rw [hsl, List.foldl_append, List.foldl_cons]
    refine foldl_invariant_mem
      (P := fun st' => ∃ p ∈ st'.comp.inputs,
        p.guid = g ∧ effKey p = K ∧ U ∈ p.sources)
      _ sl2 _ (fun src _ st' hP => ?_) ?_
    · show ∃ p ∈ (if validPeer src then
        { st' with comp := addSourceToParam st'.comp g src }
        else st').comp.inputs, _
      split_ifs with hv
      · exact addSourceToParam_transport hQ2 hP g src
      · exact hP
    · rw [if_pos hUval]
      refine addSourceToParam_hit ?_ U
      refine foldl_invariant_mem
        (P := fun st' => ∃ p ∈ st'.comp.inputs,
          p.guid = g ∧ effKey p = K)
        _ sl1 sA (fun src _ st' hP => ?_) hmemA
      show ∃ p ∈ (if validPeer src then
        { st' with comp := addSourceToParam st'.comp g src }
        else st').comp.inputs, _
      split_ifs with hv
      · exact addSourceToParam_transport hQ1 hP g src
      · exact hP


/-- C1: a successful `update_script` whose definition list contains an
input definition recreating key `K` reconnects the new `K` input to
every valid upstream peer the old `K` input had (the spec's `radius`
example).  `hw` pins the recorded value for key `K` (a Python dict: a
later parameter with the same key would overwrite the entry), and `h2`
makes the new parameter the last writer of `K` in the new-parameter
dictionary. -/
theorem update_script_restores_input_wiring
    (a : UpdateArgs) (defs defs1 defs2 : List ParamDef) (d : ParamDef)
    (ha : a.defs? = some defs) (hdefs : defs = defs1 ++ d :: defs2)
    (hd : lowerStr (d.type?.getD "") = "input")
    (c : ScriptComp) (present : Bool) (p : GHParam) (U : PeerRef Nat)
    (hp : p ∈ c.inputs)
    (hdK : createdNick d = effKey p)
    (hKne : effKey p ≠ "")
    (hU : U ∈ p.sources)
    (hUval : validPeer U)
    (hw : ∀ q ∈ c.inputs, effKey q = effKey p →
      q.sources.filter (fun s => !s.isNull)
        = p.sources.filter (fun s => !s.isNull))
    (h2 : ∀ d' ∈ defs2, lowerStr (d'.type?.getD "") = "input" →
      createdNick d' ≠ createdNick d) :
    (updateScriptUIThread a (initState c present) none).2 = true ∧
    ∃ pNew ∈ (updateScriptUIThread a
        (initState c present) none).1.comp.inputs,
      effKey pNew = effKey p ∧ U ∈ pNew.sources ∧
        maxGuid c < pNew.guid := by
  obtain ⟨hsucc, st2, hcomp, hc2, hf2, hn2, hold2, hpu2⟩ :=
    updateScript_none a (initState c present)
  have hc2' : st2.comp = c := by rw [hc2]; rfl
  have hf2' : st2.freshCounter = maxGuid c + 1 := by rw [hf2]; rfl
  have hold2' : st2.oldIn = (recordConnections c).1 := by
    rw [hold2, show (initState c present).comp = c from rfl]
  have hrun : runPhases (updatePhases a) st2
      = phSetMessage a.msg?
        (phSetDescription a.descr?
          (phSetCode a.code?
            (phRestore
              (phMarkParamsUpdated
                (phRemoveDummies
                  (phEnsureDefaultOutput "__dummy_out__"
                    (phInstall defs
                      (phRemoveOld
                        (phRegisterDummies "__dummy_in__" "__dummy_out__"
                          st2))))))))) := by
    simp only [updatePhases, ha]
    rfl
  have hs1eq := phRegisterDummies_eq "__dummy_in__" "__dummy_out__"
    (by decide) (by decide) st2
  set s1 := phRegisterDummies "__dummy_in__" "__dummy_out__" st2 with hs1
  have h1i : s1.comp.inputs
      = c.inputs ++ [dummyInParam "__dummy_in__" (maxGuid c + 1)] := by
    rw [hs1eq]
    dsimp only
    rw [hc2', hf2']
  have h1f : s1.freshCounter = maxGuid c + 3 := by
    rw [hs1eq]
    dsimp only
    rw [hf2']
  have h1di : s1.dummyInGuid = some (maxGuid c + 1) := by
    rw [hs1eq]
    dsimp only
    rw [hf2']
  have h1old : s1.oldIn = (recordConnections c).1 := by
    rw [hs1eq]
    dsimp only
    rw [hold2']
  set s2 := phRemoveOld s1 with hs2
  have h2f : s2.freshCounter = maxGuid c + 3 := by
    rw [hs2, show (phRemoveOld s1).freshCounter = s1.freshCounter
      from rfl, h1f]
  have h2di : s2.dummyInGuid = some (maxGuid c + 1) := by
    rw [hs2, show (phRemoveOld s1).dummyInGuid = s1.dummyInGuid
      from rfl, h1di]
  have h2old : s2.oldIn = (recordConnections c).1 := by
    rw [hs2, show (phRemoveOld s1).oldIn = s1.oldIn from rfl, h1old]
  obtain ⟨g, hg_ge, hg_lk, pNew0, hpNew0, hpNewg, hpNewK⟩ :=
    phInstall_newIn_lookup defs1 d defs2 hd h2 s2
  rw [← hdefs] at hg_lk hpNew0
  rw [h2f] at hg_ge
  obtain ⟨f1, f2, f3, f4, f5, addOut, f6⟩ := phInstall_frame defs s2
  set s3 := phInstall defs s2 with hs3
  have h3old : s3.oldIn = (recordConnections c).1 := by rw [f1, h2old]
  have h3di : s3.dummyInGuid = some (maxGuid c + 1) := by rw [f2, h2di]
  obtain ⟨e4i, e4n, e4old, e4di, e4pu⟩ :=
    phEnsureDefaultOutput_frame "__dummy_out__" s3
  set s4 := phEnsureDefaultOutput "__dummy_out__" s3 with hs4
  set s5 := phRemoveDummies s4 with hs5
  have h5mem : pNew0 ∈ s5.comp.inputs := by
    rw [hs5]
    unfold phRemoveDummies
    dsimp only
    refine List.mem_filter.mpr ⟨?_, ?_⟩
    · rw [e4i]
      exact hpNew0
    · rw [e4di, h3di]
      simp only [decide_eq_true_eq, Option.some.injEq]
      omega
  have h5n_mem : (createdNick d, g) ∈ s5.newIn := by
    rw [hs5, show (phRemoveDummies s4).newIn = s4.newIn from rfl, e4n]
    exact alookup_mem hg_lk
  have h5old : s5.oldIn = (recordConnections c).1 := by
    rw [hs5, show (phRemoveDummies s4).oldIn = s4.oldIn from rfl, e4old,
      h3old]
  set s6 := phMarkParamsUpdated s5 with hs6
  have h6pu : s6.paramsUpdated = true := by rw [hs6]; rfl
  have h6mem : pNew0 ∈ s6.comp.inputs := by
    rw [hs6, show (phMarkParamsUpdated s5).comp = s5.comp from rfl]
    exact h5mem
  have h6n : (createdNick d, g) ∈ s6.newIn := by
    rw [hs6, show (phMarkParamsUpdated s5).newIn = s5.newIn from rfl]
    exact h5n_mem
  have h6old : s6.oldIn = (recordConnections c).1 := by
    rw [hs6, show (phMarkParamsUpdated s5).oldIn = s5.oldIn from rfl]
    exact h5old
  have hsne : p.sources ≠ [] := List.ne_nil_of_mem hU
  have hrec : alookup (effKey p) s6.oldIn
      = some (p.sources.filter fun s => !s.isNull) := by
    rw [h6old]
    exact recordConnections_lookup hp hKne hsne hw
  have hUn : U.isNull = false := by
    have h := hUval.1
    simpa using h
  have hUf : U ∈ p.sources.filter fun s => !s.isNull :=
    List.mem_filter.mpr ⟨hU, by simp [hUn]⟩
  rw [hdK] at h6n
  have h7 := phRestore_adds_source h6pu h6n hrec hUf hUval
    ⟨pNew0, h6mem, hpNewg, hpNewK.trans hdK⟩
  set s7 := phRestore s6 with hs7
  obtain ⟨pFin, hpFin, hpFg, hpFK, hpFU⟩ := h7
  obtain ⟨e8i, e8o⟩ := phSetCode_comp a.code? s7
  set s8 := phSetCode a.code? s7 with hs8
  obtain ⟨e9i, e9o⟩ := phSetDescription_comp a.descr? s8
  set s9 := phSetDescription a.descr? s8 with hs9
  obtain ⟨e10i, e10o⟩ := phSetMessage_comp a.msg? s9
  set s10 := phSetMessage a.msg? s9 with hs10
  rw [hrun] at hcomp
  have hfi : (updateScriptUIThread a
      (initState c present) none).1.comp.inputs = s7.comp.inputs := by
    rw [show (updateScriptUIThread a
        (initState c present) none).1.comp.inputs = s10.comp.inputs
      from congrArg ScriptComp.inputs hcomp, e10i, e9i, e8i]
  refine ⟨hsucc, pFin, ?_, hpFK, hpFU, ?_⟩
  · rw [hfi]
    exact hpFin
  · rw [hpFg]
    omega


/-- The upstream peer of the C1 witness. -/
def wC1U : PeerRef Nat :=
  { guid := 7, isNull := false, isParam := true, emptyGuid := false }

/-- The old `radius` input, wired to `wC1U`. -/
def wC1Radius : GHParam :=
  { guid := 1, name := "radius", nickName := "radius", descr := "",
    access := "item", optional := true, typeTag := "Param_Number",
    sources := [wC1U], recipients := [] }

def wC1Comp : ScriptComp :=
  { guid := 0, code := "", descr := "", nickName := "",
    inputs := [wC1Radius], outputs := [], inputIsPath := false }

/-- The new definition list: a single input definition named
`radius`. -/
def wC1Def : ParamDef :=
  { type? := some "input", name? := some "radius", nickName? := none,
    typehint? := some "float", description? := none, access? := none,
    optional? := none }

def wC1Args : UpdateArgs :=
  { code? := some "print(radius)", descr? := none, msg? := none,
    defs? := some [wC1Def] }

/-- C1, witness: reconfiguring the one-input component with a fresh
`radius` definition leaves a new `radius` input wired to the old
upstream peer. -/
theorem update_script_restores_input_wiring_witness :
    ∃ pNew ∈ (updateScriptUIThread wC1Args
        (initState wC1Comp true) none).1.comp.inputs,
      effKey pNew = effKey wC1Radius ∧ wC1U ∈ pNew.sources ∧
        maxGuid wC1Comp < pNew.guid :=
  (update_script_restores_input_wiring wC1Args [wC1Def] [] [] wC1Def
    rfl rfl (by decide) wC1Comp true wC1Radius wC1U (by decide)
    (by decide) (by decide) (by decide) (by decide) (by decide)
    (by decide)).2


/-! ## The socket server loop and the `stop` command

Embedding of `process_command`'s stop branch (lines 1246-1249) and of
`socket_server_thread`'s per-connection handling (lines 1267-1452).
Only the events the temporal claim mentions are recorded: clearing the
`run_server` sticky flag, sending a response (tagged with whether the
command was `stop`, the success flag, and the value of the run flag at
the moment of the send), and the accept loop's exit. -/

inductive SEvent where
  | clearRunFlag : SEvent
  | sendResponse : Bool → Bool → Bool → SEvent
  | acceptLoopExit : SEvent
deriving DecidableEq, Repr

structure ServerSt where
  runServer : Bool
  trace : List SEvent
deriving DecidableEq, Repr

inductive Cmd where
  | stop : Cmd
  | other : Cmd
deriving DecidableEq, Repr

def isStopCmd : Cmd → Bool
  | Cmd.stop => true
  | Cmd.other => false

/-- `process_command` (lines 1246-1249): the stop branch clears
`sc.sticky["run_server"]` and returns the success envelope. -/
def processCommand : Cmd → ServerSt → ServerSt × Bool
  | Cmd.stop, st =>
    ({ st with
        runServer := false,
        trace := st.trace ++ [SEvent.clearRunFlag] }, true)
  | Cmd.other, st => (st, true)

/-- One accepted connection (lines 1364-1408): process the command,
`conn.sendall` the response (line 1403), then the post-send stop check
(lines 1405-1408). -/
def handleConn (c : Cmd) (st : ServerSt) : ServerSt :=
  let r := processCommand c st
  let st1 := { r.1 with trace := r.1.trace ++
    [SEvent.sendResponse (isStopCmd c) r.2 r.1.runServer] }
  match c with
  | Cmd.stop =>
    { st1 with
        runServer := false,
        trace := st1.trace ++ [SEvent.clearRunFlag] }
  | Cmd.other => st1

/-- The accept loop (line 1278): re-checks `run_server` before each
accept; `cs` is the stream of incoming commands. -/
def serverLoop : List Cmd → ServerSt → ServerSt
  | [], st =>
    if st.runServer = true then st
    else { st with trace := st.trace ++ [SEvent.acceptLoopExit] }
  | c :: cs', st =>
    if st.runServer = true then serverLoop cs' (handleConn c st)
    else { st with trace := st.trace ++ [SEvent.acceptLoopExit] }

theorem serverLoop_stopped (cs : List Cmd) {st : ServerSt}
    (h : st.runServer = false) :
    serverLoop cs st
      = { st with trace := st.trace ++ [SEvent.acceptLoopExit] } := by
  cases cs with
  | nil => unfold serverLoop; rw [h]; simp
  | cons c cs' => unfold serverLoop; rw [h]; simp

/-- C8, counterexample: serving a single `stop` command yields the
trace `clear, send(stop, success, flag = false), clear, exit` — the
run flag is cleared (inside `process_command`, line 1248) strictly
before the response is sent, so no response is ever sent while the
flag is still set, refuting the claimed send-before-clear order. -/
theorem stop_flag_cleared_before_send_cex :
    (serverLoop [Cmd.stop] { runServer := true, trace := [] }).trace
      = [SEvent.clearRunFlag, SEvent.sendResponse true true false,
         SEvent.clearRunFlag, SEvent.acceptLoopExit] ∧
    SEvent.sendResponse true true true
      ∉ (serverLoop [Cmd.stop]
        { runServer := true, trace := [] }).trace ∧
    Precedes (serverLoop [Cmd.stop]
        { runServer := true, trace := [] }).trace
      SEvent.clearRunFlag (SEvent.sendResponse true true false) :=
  ⟨by decide, by decide,
    ⟨[SEvent.clearRunFlag],
      [SEvent.clearRunFlag, SEvent.acceptLoopExit], by decide,
      List.mem_singleton.mpr rfl⟩⟩

/-- C8 (amended): once a `stop` command is dispatched, its success
response is sent before the accept loop exits; the run flag, however,
is already cleared by `process_command` when the send happens (every
stop response is recorded with the flag down, and the post-send check
merely clears it again). -/
theorem stop_response_before_loop_exit
    (cs1 cs2 : List Cmd) (st : ServerSt)
    (hrun : st.runServer = true) (hcs1 : ∀ c ∈ cs1, c = Cmd.other) :
    Precedes (serverLoop (cs1 ++ Cmd.stop :: cs2) st).trace
      (SEvent.sendResponse true true false) SEvent.acceptLoopExit ∧
    (SEvent.sendResponse true true true ∉ st.trace →
      SEvent.sendResponse true true true
        ∉ (serverLoop (cs1 ++ Cmd.stop :: cs2) st).trace) := by
  induction cs1 generalizing st with
  | nil =>
    have h1 : serverLoop ([] ++ Cmd.stop :: cs2) st
        = serverLoop cs2 (handleConn Cmd.stop st) := by
      show serverLoop (Cmd.stop :: cs2) st = _
      rw [show serverLoop (Cmd.stop :: cs2) st
          = if st.runServer = true then
              serverLoop cs2 (handleConn Cmd.stop st)
            else { st with trace := st.trace ++ [SEvent.acceptLoopExit] }
        from rfl, if_pos hrun]
    have h2 : (handleConn Cmd.stop st).runServer = false := rfl
    have h3 : (handleConn Cmd.stop st).trace
        = ((st.trace ++ [SEvent.clearRunFlag])
            ++ [SEvent.sendResponse true true false])
          ++ [SEvent.clearRunFlag] := rfl
    rw [h1, serverLoop_stopped cs2 h2]
    constructor
    · show Precedes ((handleConn Cmd.stop st).trace
        ++ [SEvent.acceptLoopExit]) _ _
      refine precedes_append_singleton ?_
      rw [h3]
      exact List.mem_append_left _
        (List.mem_append_right _ (List.mem_singleton.mpr rfl))
    · intro hn hmem
      rw [show ({ handleConn Cmd.stop st with
          trace := (handleConn Cmd.stop st).trace
            ++ [SEvent.acceptLoopExit] } : ServerSt).trace
        = (handleConn Cmd.stop st).trace ++ [SEvent.acceptLoopExit]
        from rfl, h3] at hmem
      simp only [List.mem_append, List.mem_singleton] at hmem
      rcases hmem with (((hmem | h) | h) | h) | h
      · exact hn hmem
      · exact SEvent.noConfusion h
      · simp at h
      · exact SEvent.noConfusion h
      · exact SEvent.noConfusion h
  | cons c cs1' ih =>
    have hc : c = Cmd.other := hcs1 c (List.mem_cons_self c cs1')
    subst hc
    have h1 : serverLoop ((Cmd.other :: cs1') ++ Cmd.stop :: cs2) st
        = serverLoop (cs1' ++ Cmd.stop :: cs2)
          (handleConn Cmd.other st) := by
      show serverLoop (Cmd.other :: (cs1' ++ Cmd.stop :: cs2)) st = _
      rw [show serverLoop (Cmd.other :: (cs1' ++ Cmd.stop :: cs2)) st
          = if st.runServer = true then
              serverLoop (cs1' ++ Cmd.stop :: cs2)
                (handleConn Cmd.other st)
            else { st with trace := st.trace ++ [SEvent.acceptLoopExit] }
        from rfl, if_pos hrun]
    have hother : (handleConn Cmd.other st).trace
        = st.trace ++ [SEvent.sendResponse false true st.runServer] :=
      rfl
    have hrun' : (handleConn Cmd.other st).runServer = true := hrun
    obtain ⟨ihp, ihn⟩ := ih (handleConn Cmd.other st) hrun'
      (fun c hc => hcs1 c (List.mem_cons_of_mem _ hc))
    rw [h1]
    refine ⟨ihp, fun hn => ihn ?_⟩
    intro hmem
    rw [hother] at hmem
    simp only [List.mem_append, List.mem_singleton] at hmem
    rcases hmem with hmem | h
    · exact hn hmem
    · simp at h

/-- C8, witness: one ordinary command followed by `stop`, from a
freshly started server. -/
theorem stop_response_before_loop_exit_witness :
    Precedes (serverLoop [Cmd.other, Cmd.stop]
        { runServer := true, trace := [] }).trace
      (SEvent.sendResponse true true false) SEvent.acceptLoopExit :=
  (stop_response_before_loop_exit [Cmd.other] []
    { runServer := true, trace := [] } rfl (by decide)).1

end RhinoMCP
